import Mathlib

/-!
Shallow embedding of the ALPathfinder map preprocessor (src/src/lib.rs and
src/src/g.rs) and proofs about its specification claims.

Modelling conventions:
* `i32` values are carried as `Int` with every source arithmetic operation
  reduced into two's-complement range by `wrap32` (the release-profile
  wrapping semantics of the shipped wasm build); `as usize` casts are the
  32-bit reinterpretation `usize32`, and an out-of-range index read keeps
  its panic semantics (`none` aborts preparation) or `unwrap_or(false)`
  semantics where the source uses it.  Functions named with a `U` suffix
  are proof-side unbounded counterparts, equal to the wrapped code under
  explicit no-overflow bounds (`COORD_LIMIT`).
* `f32` coordinates are modelled as `ℚ`; the source only truncates them
  toward zero, and `f32 as i32` saturates at the `i32` limits (`i32Cast`
  over the exact truncation `ratTrunc`).
* Fallible code (Rust `unwrap`, slice-index panics) is modelled with
  `Option`; `none` means the preparation call panics.
* The spade Delaunay triangulation is an external library; it is modelled
  by an abstract `TriOracle` providing the two operations the source uses
  (`get_vertices_in_circle` and `undirected_edges`) over the list of
  inserted vertices.
* Rust `HashMap`s are modelled as association lists with first-match
  lookup; `insert` conses (first-match lookup then matches HashMap
  replacement semantics).  `Vec` push/pop (LIFO) is modelled by a list
  used as a stack with cons/head.
-/

namespace ALP

/-- Grid padding and cell-state constants from src/src/lib.rs. -/
def BASE_H : Int := 8

def BASE_V : Int := 7

def BASE_VN : Int := 2

def UNKNOWN : Nat := 0

def NOT_WALKABLE : Nat := 1

def WALKABLE : Nat := 2

def TRANSPORT_RADIUS : Nat := 150

def WALK : Nat := 1

def TOWN : Nat := 2

def DOOR : Nat := 4

def TRANSPORT : Nat := 8

def ENTER : Nat := 16

def INSIDE_1 : Nat := 0b00101111

def INSIDE_1_IGNORE : Nat := 0b00100100

def INSIDE_2 : Nat := 0b10010111

def INSIDE_2_IGNORE : Nat := 0b10000001

def INSIDE_3 : Nat := 0b11110100

def INSIDE_3_IGNORE : Nat := 0b00100100

def INSIDE_4 : Nat := 0b11101001

def INSIDE_4_IGNORE : Nat := 0b10000001

def OUTSIDE_1 : Nat := 0b01111111

def OUTSIDE_2 : Nat := 0b11011111

def OUTSIDE_3 : Nat := 0b11111011

def OUTSIDE_4 : Nat := 0b11111110

/-- Truncation toward zero of a rational, the semantics of Rust's
`f32 as i32` and `f32::trunc` on the (small, exactly representable)
coordinates the source handles. -/
def ratTrunc (q : ℚ) : Int := Int.tdiv q.num (q.den : Int)

/-- Reduce an integer into two's-complement `i32` range: the result of
every `i32` arithmetic operation in the shipped (release, wrapping)
build. -/
def wrap32 (n : Int) : Int := (n + 2^31) % 2^32 - 2^31

/-- `as usize` on a 32-bit target: reinterpret an `i32` value (already in
wrapped range) as a `u32` index. -/
def usize32 (n : Int) : Nat := (n % 2^32).toNat

/-- Rust `f32 as i32`: truncate toward zero, saturating at the `i32`
limits. -/
def i32Cast (q : ℚ) : Int := max (-(2^31)) (min (2^31 - 1) (ratTrunc q))

/-- Coordinate bound under which none of the preprocessor's `i32`
arithmetic can overflow; all no-overflow hypotheses of the claims are
stated with it. -/
def COORD_LIMIT : Int := 16384

/-- First-match association-list lookup (HashMap::get). -/
def alookup {α β : Type} [DecidableEq α] : List (α × β) → α → Option β
  | [], _ => none
  | (a, b) :: t, k => if a = k then some b else alookup t k

/-- `Grid` from src/src/lib.rs: packed walkability bitmap of one map. -/
structure Grid where
  width : Int
  min_x : Int
  min_y : Int
  data : List Bool
  deriving DecidableEq, Repr

/-- `BitVec::get(idx).unwrap_or(false)` after the source's
`(expr) as usize` cast: a negative `i32` index becomes a huge `u32` and
the lookup misses. -/
def flatGet (g : Grid) (idx : Int) : Bool :=
  (g.data.get? (usize32 idx)).getD false

/-- The probe `grid.data.get((y * grid.width + x) as usize).unwrap_or(false)`
used throughout the grid queries, with the index arithmetic performed in
wrapping `i32`. -/
def gridProbe (g : Grid) (x y : Int) : Bool :=
  flatGet g (wrap32 (wrap32 (y * g.width) + x))

/-- `GSpawn` from src/src/g.rs. -/
structure GSpawn where
  x : ℚ
  y : ℚ
  deriving DecidableEq, Repr

/-- `GDoor` from src/src/g.rs (decoded but unused by the preprocessor). -/
structure GDoor where
  x : ℚ
  y : ℚ
  width : ℚ
  height : ℚ
  map_to : String
  spawn_to : Nat
  spawn_from : Nat
  deriving DecidableEq, Repr

/-- `GGeometry` from src/src/g.rs. -/
structure GGeometry where
  min_x : Int
  max_x : Int
  min_y : Int
  max_y : Int
  x_lines : Option (List (List Int))
  y_lines : Option (List (List Int))
  deriving DecidableEq, Repr

/-- `GNpc` from src/src/g.rs. -/
structure GNpc where
  id : String
  position : Option (List ℚ)
  positions : Option (List (List ℚ))
  deriving DecidableEq, Repr

/-- `GMap` from src/src/g.rs. -/
structure GMap where
  doors : List GDoor
  ignore : Option Bool
  name : String
  npcs : Option (List GNpc)
  spawns : List GSpawn
  deriving DecidableEq, Repr

/-- Modelled from the spec: the global NPC-catalog entry type is missing
from src/ (src/src/g.rs's `GData` has no `npcs` field although
src/src/lib.rs reads `g.npcs.get("transporter").unwrap().places`);
§6 of the spec gives its shape: `{places?: mapping from map name to
spawn index}`. -/
structure GNpcEntry where
  places : Option (List (String × Nat))
  deriving DecidableEq, Repr

/-- `GData` from src/src/g.rs, together with the `npcs` catalog field which
src/src/lib.rs dereferences; the catalog field itself is modelled from the
spec (§6) because it is absent from src/src/g.rs. -/
structure GData where
  geometry : List (String × GGeometry)
  maps : List (String × GMap)
  npcs : List (String × GNpcEntry)
  version : Nat
  deriving DecidableEq, Repr

/-- `Node` from src/src/lib.rs: a graph node is a map id plus a point
(bit-exact float equality modelled by `ℚ` equality). -/
structure Node where
  map_id : Nat
  x : ℚ
  y : ℚ
  deriving DecidableEq, Repr

/-- `Edge` from src/src/lib.rs together with the petgraph endpoints. -/
structure GEdge where
  src : Nat
  dst : Nat
  method : Nat
  deriving DecidableEq, Repr

/-- The four process-wide stores of src/src/lib.rs (`MAP_INDICES`,
`MAP_NAMES`, `GRIDS`, `GRAPH`, `NODE_MAP`) gathered into one state. -/
structure PState where
  map_indices : List (String × Nat)
  map_names : List String
  grids : List (String × Grid)
  nodes : List Node
  node_map : List (Node × Nat)
  edges : List GEdge
  deriving DecidableEq, Repr

instance : Inhabited PState := ⟨⟨[], [], [], [], [], []⟩⟩

/-- The abstract planar-triangulation library boundary (spade): radius
query and undirected edge set over the inserted vertex list. -/
structure TriOracle where
  circle : List Node → ℚ → ℚ → List Node
  edges : List Node → List (Node × Node)

/-- Triangulation point insertion: colocated points are deduplicated. -/
def triInsert (vs : List Node) (n : Node) : List Node :=
  if n ∈ vs then vs else vs ++ [n]

/-- `get_or_add_node` from src/src/lib.rs: intern a node, returning its
graph index. -/
def get_or_add_node (st : PState) (node : Node) : PState × Nat :=
  match alookup st.node_map node with
  | some index => (st, index)
  | none =>
      let index := st.nodes.length
      ({ st with nodes := st.nodes ++ [node],
                 node_map := (node, index) :: st.node_map }, index)

/-- `get_or_create_map_id` from src/src/lib.rs. -/
def get_or_create_map_id (st : PState) (map_name : String) : PState × Nat :=
  match alookup st.map_indices map_name with
  | some id => (st, id)
  | none =>
      let id := st.map_names.length
      ({ st with map_names := st.map_names ++ [map_name],
                 map_indices := (map_name, id) :: st.map_indices }, id)

/-- `is_walkable` from src/src/lib.rs. -/
def is_walkable (grids : List (String × Grid)) (map_name : String)
    (x_i y_i : Int) : Bool :=
  match alookup grids map_name with
  | none => false
  | some grid =>
      let x := wrap32 (x_i - grid.min_x)
      let y := wrap32 (y_i - grid.min_y)
      if x < 0 ∨ y < 0 then false
      else flatGet grid (wrap32 (wrap32 (y * grid.width) + x))

/-- The `ddx >= ddy` (x-major) loop of `can_walk_pathU`, with exact
(non-wrapping) index arithmetic: the proof-side idealization of
`cwpLoopX`; `test x y` stands for
`grid.data.get((y * grid.width + x) as usize).unwrap_or(false)` and
the early `return false`s become short-circuit conjunction. -/
def cwpLoopXU (test : Int → Int → Bool) (xStep yStep ddx ddy : Int) :
    Nat → Int → Int → Int → Int → Bool
  | 0, _, _, _, _ => true
  | n + 1, x, y, error, errorPrev =>
      let x1 := x + xStep
      let eA := error + ddy
      if eA > ddx then
        let y1 := y + yStep
        let eB := eA - ddx
        let extra :=
          if eB + errorPrev < ddx then test x1 (y1 - yStep)
          else if eB + errorPrev > ddx then test (x1 - xStep) y1
          else test x1 (y1 - yStep) && test (x1 - xStep) y1
        extra && test x1 y1 && cwpLoopXU test xStep yStep ddx ddy n x1 y1 eB eB
      else
        test x1 y && cwpLoopXU test xStep yStep ddx ddy n x1 y eA eA

/-- The `ddx < ddy` (y-major) loop of `can_walk_pathU`, with exact
(non-wrapping) index arithmetic: the proof-side idealization of
`cwpLoopY`. -/
def cwpLoopYU (test : Int → Int → Bool) (xStep yStep ddx ddy : Int) :
    Nat → Int → Int → Int → Int → Bool
  | 0, _, _, _, _ => true
  | n + 1, x, y, error, errorPrev =>
      let y1 := y + yStep
      let eA := error + ddx
      if eA > ddy then
        let x1 := x + xStep
        let eB := eA - ddy
        let extra :=
          if eB + errorPrev < ddy then test (x1 - xStep) y1
          else if eB + errorPrev > ddy then test x1 (y1 - yStep)
          else test (x1 - xStep) y1 && test x1 (y1 - yStep)
        extra && test x1 y1 && cwpLoopYU test xStep yStep ddx ddy n x1 y1 eB eB
      else
        test x y1 && cwpLoopYU test xStep yStep ddx ddy n x y1 eA eA

/-- Proof-side variant of `can_walk_path` with exact (non-wrapping)
integer arithmetic; it agrees with the source embedding whenever all
coordinates stay within `COORD_LIMIT` (`can_walk_path_eq_U`). -/
def can_walk_pathU (grids : List (String × Grid)) (map_name : String)
    (x1 y1 x2 y2 : Int) : Bool :=
  match alookup grids map_name with
  | none => false
  | some grid =>
      let x := x1 - grid.min_x
      let y := y1 - grid.min_y
      let dx := x2 - x1
      let dy := y2 - y1
      if gridProbe grid x y = false then false
      else
        let y_step : Int := if dy < 0 then -1 else 1
        let dy2 : Int := if dy < 0 then -dy else dy
        let x_step : Int := if dx < 0 then -1 else 1
        let dx2 : Int := if dx < 0 then -dx else dx
        let ddy := 2 * dy2
        let ddx := 2 * dx2
        if ddx ≥ ddy then
          cwpLoopXU (gridProbe grid) x_step y_step ddx ddy dx2.toNat x y dx2 dx2
        else
          cwpLoopYU (gridProbe grid) x_step y_step ddx ddy dy2.toNat x y dy2 dy2

/-- The `ddx >= ddy` (x-major) loop of `can_walk_path` with the wrapping
`i32` arithmetic of the shipped build; `test x y` stands for
`grid.data.get((y * grid.width + x) as usize).unwrap_or(false)` (whose
index arithmetic also wraps) and the early `return false`s become
short-circuit conjunction. -/
def cwpLoopX (test : Int → Int → Bool) (xStep yStep ddx ddy : Int) :
    Nat → Int → Int → Int → Int → Bool
  | 0, _, _, _, _ => true
  | n + 1, x, y, error, errorPrev =>
      let x1 := wrap32 (x + xStep)
      let eA := wrap32 (error + ddy)
      if eA > ddx then
        let y1 := wrap32 (y + yStep)
        let eB := wrap32 (eA - ddx)
        let extra :=
          if wrap32 (eB + errorPrev) < ddx then test x1 (wrap32 (y1 - yStep))
          else if wrap32 (eB + errorPrev) > ddx then test (wrap32 (x1 - xStep)) y1
          else test x1 (wrap32 (y1 - yStep)) && test (wrap32 (x1 - xStep)) y1
        extra && test x1 y1 && cwpLoopX test xStep yStep ddx ddy n x1 y1 eB eB
      else
        test x1 y && cwpLoopX test xStep yStep ddx ddy n x1 y eA eA

/-- The `ddx < ddy` (y-major) loop of `can_walk_path`, wrapping
arithmetic. -/
def cwpLoopY (test : Int → Int → Bool) (xStep yStep ddx ddy : Int) :
    Nat → Int → Int → Int → Int → Bool
  | 0, _, _, _, _ => true
  | n + 1, x, y, error, errorPrev =>
      let y1 := wrap32 (y + yStep)
      let eA := wrap32 (error + ddx)
      if eA > ddy then
        let x1 := wrap32 (x + xStep)
        let eB := wrap32 (eA - ddy)
        let extra :=
          if wrap32 (eB + errorPrev) < ddy then test (wrap32 (x1 - xStep)) y1
          else if wrap32 (eB + errorPrev) > ddy then test x1 (wrap32 (y1 - yStep))
          else test (wrap32 (x1 - xStep)) y1 && test x1 (wrap32 (y1 - yStep))
        extra && test x1 y1 && cwpLoopY test xStep yStep ddx ddy n x1 y1 eB eB
      else
        test x y1 && cwpLoopY test xStep yStep ddx ddy n x y1 eA eA

/-- `can_walk_path` from src/src/lib.rs, with every `i32` operation
wrapped as in the shipped build; the `for _i in 0..dx` loop runs `dx`
iterations when `dx` is positive and none otherwise (`Int.toNat`). -/
def can_walk_path (grids : List (String × Grid)) (map_name : String)
    (x1 y1 x2 y2 : Int) : Bool :=
  match alookup grids map_name with
  | none => false
  | some grid =>
      let x := wrap32 (x1 - grid.min_x)
      let y := wrap32 (y1 - grid.min_y)
      let dx := wrap32 (x2 - x1)
      let dy := wrap32 (y2 - y1)
      if gridProbe grid x y = false then false
      else
        let y_step : Int := if dy < 0 then -1 else 1
        let dy2 : Int := if dy < 0 then wrap32 (-dy) else dy
        let x_step : Int := if dx < 0 then -1 else 1
        let dx2 : Int := if dx < 0 then wrap32 (-dx) else dx
        let ddy := wrap32 (2 * dy2)
        let ddx := wrap32 (2 * dx2)
        if ddx ≥ ddy then
          cwpLoopX (gridProbe grid) x_step y_step ddx ddy dx2.toNat x y dx2 dx2
        else
          cwpLoopY (gridProbe grid) x_step y_step ddx ddy dy2.toNat x y dy2 dy2

/-- Proof-side exact-index variant of `readCell` (reading
`walkable[(idx) as usize]`): `none` is the index-out-of-range panic. -/
def readCellU (v : List Nat) (idx : Int) : Option Nat :=
  if 0 ≤ idx then v.get? idx.toNat else none

/-- Inner write loop of the wall rasterizer: paint `n` cells of row `y`
starting at column `x` `NOT_WALKABLE`. -/
def paintRowGoU (width y : Int) : List Nat → Int → Nat → List Nat
  | v, _, 0 => v
  | v, x, n + 1 =>
      paintRowGoU width y (v.set (y * width + x).toNat NOT_WALKABLE) (x + 1) n

/-- Row loop of the `y_lines` rasterizer. -/
def paintYGoU (width min_x : Int) (l1 l2 : Int) : List Nat → Int → Nat → List Nat
  | v, _, 0 => v
  | v, y, n + 1 =>
      let x_from := max 0 (l1 - min_x - BASE_H)
      let x_to := min width (l2 - min_x + BASE_H)
      paintYGoU width min_x l1 l2
        (paintRowGoU width y v x_from (x_to - x_from).toNat) (y + 1) n

/-- Rasterize one `y_line` (`[y, x_from, x_to]`); a line with fewer than
three entries makes the source panic on indexing. -/
def paintYLineU (geometry : GGeometry) (width height : Int) (v : List Nat)
    (line : List Int) : Option (List Nat) :=
  match line with
  | l0 :: l1 :: l2 :: _ =>
      let y_from := max 0 (l0 - geometry.min_y - BASE_VN)
      let y_to := min height (l0 - geometry.min_y + BASE_V)
      some (paintYGoU width geometry.min_x l1 l2 v y_from (y_to - y_from).toNat)
  | _ => none

/-- Inner write loop of the `x_lines` rasterizer: paint `n` cells of
column `x` starting at row `y`. -/
def paintColGoU (width x : Int) : List Nat → Int → Nat → List Nat
  | v, _, 0 => v
  | v, y, n + 1 =>
      paintColGoU width x (v.set (y * width + x).toNat NOT_WALKABLE) (y + 1) n

/-- Column loop of the `x_lines` rasterizer. -/
def paintXGoU (width height min_y : Int) (l1 l2 : Int) :
    List Nat → Int → Nat → List Nat
  | v, _, 0 => v
  | v, x, n + 1 =>
      let y_from := max 0 (l1 - min_y - BASE_VN)
      let y_to := min height (l2 - min_y + BASE_V)
      paintXGoU width height min_y l1 l2
        (paintColGoU width x v y_from (y_to - y_from).toNat) (x + 1) n

/-- Rasterize one `x_line` (`[x, y_from, y_to]`). -/
def paintXLineU (geometry : GGeometry) (width height : Int) (v : List Nat)
    (line : List Int) : Option (List Nat) :=
  match line with
  | l0 :: l1 :: l2 :: _ =>
      let x_from := max 0 (l0 - geometry.min_x - BASE_H)
      let x_to := min width (l0 - geometry.min_x + BASE_H)
      some (paintXGoU width height geometry.min_y l1 l2 v x_from
        (x_to - x_from).toNat)
  | _ => none

/-- One step of painting a line list (failure propagates). -/
def paintStep (f : List Nat → List Int → Option (List Nat))
    (acc : Option (List Nat)) (line : List Int) : Option (List Nat) :=
  match acc with
  | none => none
  | some v => f v line

/-- Fold an `Option`-valued painter over a (possibly absent) line list. -/
def paintLines (f : List Nat → List Int → Option (List Nat))
    (lines : Option (List (List Int))) (v : List Nat) : Option (List Nat) :=
  match lines with
  | none => some v
  | some ls => ls.foldl (paintStep f) (some v)

/-- The `while x >= 0 && walkable[..] == UNKNOWN { x -= 1 }` left scan of
the span fill, structured on a fuel that counts the remaining possible
steps (the zero-fuel branch is unreachable from `fillLeftU`). -/
def fillLeftGoU (v : List Nat) (width y : Int) : Nat → Int → Option Int
  | 0, x => some x
  | n + 1, x =>
      if 0 ≤ x then
        match readCellU v (y * width + x) with
        | none => none
        | some c => if c = UNKNOWN then fillLeftGoU v width y n (x - 1) else some x
      else some x

/-- The left scan entry point: `x` can decrease at most `x + 1` times
before turning negative, so this fuel is always sufficient. -/
def fillLeftU (v : List Nat) (width y : Int) (x : Int) : Option Int :=
  fillLeftGoU v width y ((x + 1).toNat + 1) x

/-- The rightward span-fill scan: write `WALKABLE` over `UNKNOWN` cells,
pushing seeds above and below on span transitions; fuel counts the
remaining columns (the zero-fuel branch is unreachable from `fillScanU`). -/
def fillScanGoU (width height y : Int) : Nat → List Nat → List (Int × Int) →
    Bool → Bool → Int → Option (List Nat × List (Int × Int))
  | 0, v, stack, _, _, _ => some (v, stack)
  | n + 1, v, stack, spanAbove, spanBelow, x =>
      if x < width then
        match readCellU v (y * width + x) with
        | none => none
        | some c =>
            if c = UNKNOWN then
              let v1 := v.set (y * width + x).toNat WALKABLE
              let aboveRes : Option (Bool × List (Int × Int)) :=
                if 0 < y then
                  match readCellU v1 ((y - 1) * width + x) with
                  | none => none
                  | some cu =>
                      if spanAbove = false ∧ cu = UNKNOWN then
                        some (true, (y - 1, x) :: stack)
                      else if spanAbove = true ∧ cu ≠ UNKNOWN then
                        some (false, stack)
                      else some (spanAbove, stack)
                else some (spanAbove, stack)
              match aboveRes with
              | none => none
              | some (spanAbove1, stack1) =>
                  let belowRes : Option (Bool × List (Int × Int)) :=
                    if y < height - 1 then
                      match readCellU v1 ((y + 1) * width + x) with
                      | none => none
                      | some cb =>
                          if spanBelow = false ∧ cb = UNKNOWN then
                            some (true, (y + 1, x) :: stack1)
                          else if spanBelow = true ∧ cb ≠ UNKNOWN then
                            some (false, stack1)
                          else some (spanBelow, stack1)
                    else some (spanBelow, stack1)
                  match belowRes with
                  | none => none
                  | some (spanBelow1, stack2) =>
                      fillScanGoU width height y n v1 stack2 spanAbove1 spanBelow1 (x + 1)
            else some (v, stack)
      else some (v, stack)

/-- The rightward scan entry point: at most `width - x` columns remain,
so this fuel is always sufficient. -/
def fillScanU (width height y : Int) (v : List Nat) (stack : List (Int × Int))
    (spanAbove spanBelow : Bool) (x : Int) : Option (List Nat × List (Int × Int)) :=
  fillScanGoU width height y ((width - x).toNat + 1) v stack spanAbove spanBelow x

/-- The `while stack.len() > 0` loop of the span fill, with enough fuel
(each pop does one left scan and one rightward span scan). -/
def fillLoopU (width height : Int) : Nat → List Nat → List (Int × Int) → Option (List Nat)
  | _, v, [] => some v
  | 0, _, _ :: _ => none
  | n + 1, v, (y, x0) :: rest =>
      match fillLeftU v width y x0 with
      | none => none
      | some xL =>
          match fillScanU width height y v rest false false (xL + 1) with
          | none => none
          | some (v1, stack1) => fillLoopU width height n v1 stack1

/-- Seed the span fill from one spawn (`// Fill in the walkable areas`). -/
def fillFromSpawnU (geometry : GGeometry) (width height : Int) (v : List Nat)
    (spawn : GSpawn) : Option (List Nat) :=
  let x := ratTrunc spawn.x - geometry.min_x
  let y := ratTrunc spawn.y - geometry.min_y
  match readCellU v (y * width + x) with
  | none => none
  | some c =>
      if c = WALKABLE then some v
      else fillLoopU width height (2 * v.length + 2) v [(y, x)]

/-- One step of the spawn flood-fill fold (failure propagates). -/
def fillStepU (geometry : GGeometry) (width height : Int)
    (acc : Option (List Nat)) (spawn : GSpawn) : Option (List Nat) :=
  match acc with
  | none => none
  | some v => fillFromSpawnU geometry width height v spawn

/-- Proof-side variant of `prepare_walkable_vec` with exact
(non-wrapping) integer arithmetic; it agrees with the source embedding
whenever the geometry and spawns stay within `COORD_LIMIT`
(`prepare_walkable_vec_eq_U`). -/
def prepare_walkable_vecU (map : GMap) (geometry : GGeometry)
    (width height : Int) : Option (List Nat) :=
  let size := (width * height).toNat
  let walkable := List.replicate size UNKNOWN
  match paintLines (paintYLineU geometry width height) geometry.y_lines walkable with
  | none => none
  | some w1 =>
      match paintLines (paintXLineU geometry width height) geometry.x_lines w1 with
      | none => none
      | some w2 => map.spawns.foldl (fillStepU geometry width height) (some w2)

/-- Reading `walkable[(idx) as usize]` with the index reinterpreted as
`u32`: `none` is the index-out-of-range panic. -/
def readCell (v : List Nat) (idx : Int) : Option Nat :=
  v.get? (usize32 idx)

/-- Inner write loop of the wall rasterizer, index arithmetic in wrapping
`i32`: paint `n` cells of row `y` starting at column `x`
`NOT_WALKABLE`. -/
def paintRowGo (width y : Int) : List Nat → Int → Nat → List Nat
  | v, _, 0 => v
  | v, x, n + 1 =>
      paintRowGo width y
        (v.set (usize32 (wrap32 (wrap32 (y * width) + x))) NOT_WALKABLE) (x + 1) n

/-- Row loop of the `y_lines` rasterizer, offsets in wrapping `i32`. -/
def paintYGo (width min_x : Int) (l1 l2 : Int) : List Nat → Int → Nat → List Nat
  | v, _, 0 => v
  | v, y, n + 1 =>
      let x_from := max 0 (wrap32 (wrap32 (l1 - min_x) - BASE_H))
      let x_to := min width (wrap32 (wrap32 (l2 - min_x) + BASE_H))
      paintYGo width min_x l1 l2
        (paintRowGo width y v x_from (x_to - x_from).toNat) (y + 1) n

/-- Rasterize one `y_line` (`[y, x_from, x_to]`), offsets in wrapping
`i32`; a line with fewer than three entries makes the source panic on
indexing. -/
def paintYLine (geometry : GGeometry) (width height : Int) (v : List Nat)
    (line : List Int) : Option (List Nat) :=
  match line with
  | l0 :: l1 :: l2 :: _ =>
      let y_from := max 0 (wrap32 (wrap32 (l0 - geometry.min_y) - BASE_VN))
      let y_to := min height (wrap32 (wrap32 (l0 - geometry.min_y) + BASE_V))
      some (paintYGo width geometry.min_x l1 l2 v y_from (y_to - y_from).toNat)
  | _ => none

/-- Inner write loop of the `x_lines` rasterizer, index arithmetic in
wrapping `i32`. -/
def paintColGo (width x : Int) : List Nat → Int → Nat → List Nat
  | v, _, 0 => v
  | v, y, n + 1 =>
      paintColGo width x
        (v.set (usize32 (wrap32 (wrap32 (y * width) + x))) NOT_WALKABLE) (y + 1) n

/-- Column loop of the `x_lines` rasterizer, offsets in wrapping `i32`. -/
def paintXGo (width height min_y : Int) (l1 l2 : Int) :
    List Nat → Int → Nat → List Nat
  | v, _, 0 => v
  | v, x, n + 1 =>
      let y_from := max 0 (wrap32 (wrap32 (l1 - min_y) - BASE_VN))
      let y_to := min height (wrap32 (wrap32 (l2 - min_y) + BASE_V))
      paintXGo width height min_y l1 l2
        (paintColGo width x v y_from (y_to - y_from).toNat) (x + 1) n

/-- Rasterize one `x_line` (`[x, y_from, y_to]`), offsets in wrapping
`i32`. -/
def paintXLine (geometry : GGeometry) (width height : Int) (v : List Nat)
    (line : List Int) : Option (List Nat) :=
  match line with
  | l0 :: l1 :: l2 :: _ =>
      let x_from := max 0 (wrap32 (wrap32 (l0 - geometry.min_x) - BASE_H))
      let x_to := min width (wrap32 (wrap32 (l0 - geometry.min_x) + BASE_H))
      some (paintXGo width height geometry.min_y l1 l2 v x_from
        (x_to - x_from).toNat)
  | _ => none

/-- The `while x >= 0 && walkable[..] == UNKNOWN { x -= 1 }` left scan of
the span fill with wrapping index arithmetic, structured on a fuel that
counts the remaining possible steps. -/
def fillLeftGo (v : List Nat) (width y : Int) : Nat → Int → Option Int
  | 0, x => some x
  | n + 1, x =>
      if 0 ≤ x then
        match readCell v (wrap32 (wrap32 (y * width) + x)) with
        | none => none
        | some c =>
            if c = UNKNOWN then fillLeftGo v width y n (wrap32 (x - 1))
            else some x
      else some x

/-- The left scan entry point: `x` can decrease at most `x + 1` times
before turning negative, so this fuel is always sufficient. -/
def fillLeft (v : List Nat) (width y : Int) (x : Int) : Option Int :=
  fillLeftGo v width y ((x + 1).toNat + 1) x

/-- The rightward span-fill scan with wrapping index arithmetic: write
`WALKABLE` over `UNKNOWN` cells, pushing seeds above and below on span
transitions; fuel counts the remaining columns. -/
def fillScanGo (width height y : Int) : Nat → List Nat → List (Int × Int) →
    Bool → Bool → Int → Option (List Nat × List (Int × Int))
  | 0, v, stack, _, _, _ => some (v, stack)
  | n + 1, v, stack, spanAbove, spanBelow, x =>
      if x < width then
        match readCell v (wrap32 (wrap32 (y * width) + x)) with
        | none => none
        | some c =>
            if c = UNKNOWN then
              let v1 := v.set (usize32 (wrap32 (wrap32 (y * width) + x))) WALKABLE
              let aboveRes : Option (Bool × List (Int × Int)) :=
                if 0 < y then
                  match readCell v1 (wrap32 (wrap32 (wrap32 (y - 1) * width) + x)) with
                  | none => none
                  | some cu =>
                      if spanAbove = false ∧ cu = UNKNOWN then
                        some (true, (wrap32 (y - 1), x) :: stack)
                      else if spanAbove = true ∧ cu ≠ UNKNOWN then
                        some (false, stack)
                      else some (spanAbove, stack)
                else some (spanAbove, stack)
              match aboveRes with
              | none => none
              | some (spanAbove1, stack1) =>
                  let belowRes : Option (Bool × List (Int × Int)) :=
                    if y < wrap32 (height - 1) then
                      match readCell v1 (wrap32 (wrap32 (wrap32 (y + 1) * width) + x)) with
                      | none => none
                      | some cb =>
                          if spanBelow = false ∧ cb = UNKNOWN then
                            some (true, (wrap32 (y + 1), x) :: stack1)
                          else if spanBelow = true ∧ cb ≠ UNKNOWN then
                            some (false, stack1)
                          else some (spanBelow, stack1)
                    else some (spanBelow, stack1)
                  match belowRes with
                  | none => none
                  | some (spanBelow1, stack2) =>
                      fillScanGo width height y n v1 stack2 spanAbove1 spanBelow1
                        (wrap32 (x + 1))
            else some (v, stack)
      else some (v, stack)

/-- The rightward scan entry point: at most `width - x` columns remain,
so this fuel is always sufficient. -/
def fillScan (width height y : Int) (v : List Nat) (stack : List (Int × Int))
    (spanAbove spanBelow : Bool) (x : Int) : Option (List Nat × List (Int × Int)) :=
  fillScanGo width height y ((width - x).toNat + 1) v stack spanAbove spanBelow x

/-- The `while stack.len() > 0` loop of the span fill, with enough fuel
(each pop does one left scan and one rightward span scan). -/
def fillLoop (width height : Int) : Nat → List Nat → List (Int × Int) → Option (List Nat)
  | _, v, [] => some v
  | 0, _, _ :: _ => none
  | n + 1, v, (y, x0) :: rest =>
      match fillLeft v width y x0 with
      | none => none
      | some xL =>
          match fillScan width height y v rest false false (wrap32 (xL + 1)) with
          | none => none
          | some (v1, stack1) => fillLoop width height n v1 stack1

/-- Seed the span fill from one spawn (`// Fill in the walkable areas`):
the `f32 as i32` casts saturate and the translations wrap. -/
def fillFromSpawn (geometry : GGeometry) (width height : Int) (v : List Nat)
    (spawn : GSpawn) : Option (List Nat) :=
  let x := wrap32 (i32Cast spawn.x - geometry.min_x)
  let y := wrap32 (i32Cast spawn.y - geometry.min_y)
  match readCell v (wrap32 (wrap32 (y * width) + x)) with
  | none => none
  | some c =>
      if c = WALKABLE then some v
      else fillLoop width height (2 * v.length + 2) v [(y, x)]

/-- One step of the spawn flood-fill fold (failure propagates). -/
def fillStep (geometry : GGeometry) (width height : Int)
    (acc : Option (List Nat)) (spawn : GSpawn) : Option (List Nat) :=
  match acc with
  | none => none
  | some v => fillFromSpawn geometry width height v spawn

/-- `prepare_walkable_vec` from src/src/lib.rs with the shipped build's
wrapping `i32` arithmetic; `size` is the `(width * height) as usize`
reinterpretation. -/
def prepare_walkable_vec (map : GMap) (geometry : GGeometry)
    (width height : Int) : Option (List Nat) :=
  let size := usize32 (wrap32 (width * height))
  let walkable := List.replicate size UNKNOWN
  match paintLines (paintYLine geometry width height) geometry.y_lines walkable with
  | none => none
  | some w1 =>
      match paintLines (paintXLine geometry width height) geometry.x_lines w1 with
      | none => none
      | some w2 => map.spawns.foldl (fillStep geometry width height) (some w2)

/-- Total read used by the corner detector (its indices are always in
range for the `1..dim-1` interior loops of the bounded worlds the claims
quantify over). -/
def cellD (v : List Nat) (idx : Int) : Nat := v.getD (usize32 idx) UNKNOWN

/-- The 8-neighbour walkability bitmask of the corner detector, its row
offsets computed in wrapping `i32`. -/
def cornerMask (walkable : List Nat) (width x y : Int) : Nat :=
  let row_above := wrap32 (wrap32 (y - 1) * width)
  let row_current := wrap32 (y * width)
  let row_below := wrap32 (wrap32 (y + 1) * width)
  let u_l := cellD walkable (wrap32 (wrap32 (row_above + x) - 1))
  let u_c := cellD walkable (wrap32 (row_above + x))
  let u_r := cellD walkable (wrap32 (wrap32 (row_above + x) + 1))
  let m_l := cellD walkable (wrap32 (wrap32 (row_current + x) - 1))
  let m_r := cellD walkable (wrap32 (wrap32 (row_current + x) + 1))
  let b_l := cellD walkable (wrap32 (wrap32 (row_below + x) - 1))
  let b_c := cellD walkable (wrap32 (row_below + x))
  let b_r := cellD walkable (wrap32 (wrap32 (row_below + x) + 1))
  (if u_l = WALKABLE then 1 else 0) |||
  ((if u_c = WALKABLE then 1 else 0) <<< 1) |||
  ((if u_r = WALKABLE then 1 else 0) <<< 2) |||
  ((if m_l = WALKABLE then 1 else 0) <<< 3) |||
  ((if m_r = WALKABLE then 1 else 0) <<< 4) |||
  ((if b_l = WALKABLE then 1 else 0) <<< 5) |||
  ((if b_c = WALKABLE then 1 else 0) <<< 6) |||
  ((if b_r = WALKABLE then 1 else 0) <<< 7)

/-- The corner classifier of `prepare_map`. -/
def isCorner (mask : Nat) : Bool :=
  decide ((mask ||| INSIDE_1_IGNORE) = INSIDE_1) ||
  decide ((mask ||| INSIDE_2_IGNORE) = INSIDE_2) ||
  decide ((mask ||| INSIDE_3_IGNORE) = INSIDE_3) ||
  decide ((mask ||| INSIDE_4_IGNORE) = INSIDE_4) ||
  decide (mask = OUTSIDE_1) || decide (mask = OUTSIDE_2) ||
  decide (mask = OUTSIDE_3) || decide (mask = OUTSIDE_4)

/-- Integer range `[a, b)` as a list, the iteration space of a Rust
`for i in a..b`. -/
def intRange (a b : Int) : List Int :=
  (List.range (b - a).toNat).map (fun i => a + (i : Int))

/-- Per-cell body of the `// Add nodes at corners` loop. -/
def cornerCell (walkable : List Nat) (width min_x min_y : Int) (map_id : Nat)
    (y : Int) (acc : List Node × PState) (x : Int) : List Node × PState :=
  let m_c := cellD walkable (wrap32 (wrap32 (y * width) + x))
  if m_c ≠ WALKABLE then acc
  else if isCorner (cornerMask walkable width x y) then
    let node : Node := ⟨map_id, ((x + min_x : Int) : ℚ), ((y + min_y : Int) : ℚ)⟩
    let vs1 := triInsert acc.1 node
    let r := get_or_add_node acc.2 node
    (vs1, r.1)
  else acc

/-- Row loop of the corner detector. -/
def cornerRow (walkable : List Nat) (width min_x min_y : Int) (map_id : Nat)
    (acc : List Node × PState) (y : Int) : List Node × PState :=
  (intRange 1 (width - 1)).foldl (cornerCell walkable width min_x min_y map_id y) acc

/-- The full corner-detection pass of `prepare_map`. -/
def cornerFold (walkable : List Nat) (width height min_x min_y : Int)
    (map_id : Nat) (st : PState) : List Node × PState :=
  (intRange 1 (height - 1)).foldl (cornerRow walkable width min_x min_y map_id) ([], st)

/-- `// Add nodes at spawn points`. -/
def spawnStep (map_id : Nat) (acc : List Node × PState) (spawn : GSpawn) :
    List Node × PState :=
  let node : Node := ⟨map_id, spawn.x, spawn.y⟩
  let vs1 := triInsert acc.1 node
  let r := get_or_add_node acc.2 node
  (vs1, r.1)

/-- One destination entry of the transporter catalog
(`// Make list of transporter destination nodes`); `none` models the
`unwrap` panics on a missing destination map or spawn index. -/
def destStep (g : GData) (map_name : String)
    (acc : Option (PState × List Nat)) (entry : String × Nat) :
    Option (PState × List Nat) :=
  match acc with
  | none => none
  | some (st, dests) =>
      if entry.1 = map_name then some (st, dests)
      else
        let r := get_or_create_map_id st entry.1
        match alookup g.maps entry.1 with
        | none => none
        | some dmap =>
            match dmap.spawns.get? entry.2 with
            | none => none
            | some dspawn =>
                let dnode : Node := ⟨r.2, dspawn.x, dspawn.y⟩
                let r2 := get_or_add_node r.1 dnode
                some (r2.1, dests ++ [r2.2])

/-- Append one directed `TRANSPORT` edge. -/
def tEdgeStep (src : Nat) (st : PState) (d : Nat) : PState :=
  { st with edges := st.edges ++ [⟨src, d, TRANSPORT⟩] }

/-- Process one nearby triangulation vertex of a transporter anchor:
intern it and link it to every destination node. -/
def nearStep (dests : List Nat) (st : PState) (n : Node) : PState :=
  let r := get_or_add_node st n
  dests.foldl (tEdgeStep r.2) r.1

/-- Add directed `TRANSPORT` edges from every triangulation vertex within
radius of one transporter anchor to every destination node. -/
def transportAt (oracle : TriOracle) (map_id : Nat) (dests : List Nat)
    (acc : List Node × PState) (px py : ℚ) : List Node × PState :=
  let vs1 := triInsert acc.1 ⟨map_id, px, py⟩
  let nearby := oracle.circle vs1 px py
  (vs1, nearby.foldl (nearStep dests) acc.2)

/-- One entry of a transporter's `positions` list (`pos[0]`/`pos[1]`
indexing panics on a short entry). -/
def posStep (oracle : TriOracle) (map_id : Nat) (dests : List Nat)
    (acc : Option (List Node × PState)) (p : List ℚ) :
    Option (List Node × PState) :=
  match acc with
  | none => none
  | some (vs, st) =>
      match p with
      | px :: py :: _ => some (transportAt oracle map_id dests (vs, st) px py)
      | _ => none

/-- Body of the `// Add nodes for transporters` loop over a map's NPCs. -/
def npcStep (g : GData) (oracle : TriOracle) (map_name : String) (map_id : Nat)
    (acc : Option (List Node × PState)) (npc : GNpc) :
    Option (List Node × PState) :=
  match acc with
  | none => none
  | some (vs, st) =>
      if npc.id ≠ "transporter" then some (vs, st)
      else
        match alookup g.npcs "transporter" with
        | none => none
        | some catalog =>
            match catalog.places with
            | none => none
            | some places =>
                match places.foldl (destStep g map_name) (some (st, [])) with
                | none => none
                | some (st1, dests) =>
                    let afterPos : Option (List Node × PState) :=
                      match npc.position with
                      | none => some (vs, st1)
                      | some pos =>
                          match pos with
                          | px :: py :: _ =>
                              some (transportAt oracle map_id dests (vs, st1) px py)
                          | _ => none
                    match afterPos with
                    | none => none
                    | some (vs2, st2) =>
                        match npc.positions with
                        | none => some (vs2, st2)
                        | some ps =>
                            ps.foldl (posStep oracle map_id dests) (some (vs2, st2))

/-- `// Add all nodes to graph`: add a bidirectional `WALK` edge for every
triangulation edge whose segment passes `can_walk_pathU`. -/
def walkEdgeStep (map_name : String) (st : PState) (e : Node × Node) : PState :=
  if can_walk_path st.grids map_name (i32Cast e.1.x) (i32Cast e.1.y)
      (i32Cast e.2.x) (i32Cast e.2.y) then
    let r1 := get_or_add_node st e.1
    let r2 := get_or_add_node r1.1 e.2
    { r2.1 with edges := r2.1.edges ++ [⟨r1.2, r2.2, WALK⟩, ⟨r2.2, r1.2, WALK⟩] }
  else st

/-- `prepare_map` from src/src/lib.rs. -/
def prepare_map (g : GData) (oracle : TriOracle) (st : PState)
    (map_name : String) : Option PState :=
  match alookup g.maps map_name with
  | none => none
  | some map =>
      match alookup g.geometry map_name with
      | none => none
      | some geometry =>
          let width := wrap32 (geometry.max_x - geometry.min_x)
          let height := wrap32 (geometry.max_y - geometry.min_y)
          match prepare_walkable_vec map geometry width height with
          | none => none
          | some walkable =>
              let grid : Grid :=
                ⟨width, geometry.min_x, geometry.min_y,
                  walkable.map (fun state => decide (state = WALKABLE))⟩
              let st1 := { st with grids := (map_name, grid) :: st.grids }
              let r := get_or_create_map_id st1 map_name
              let map_id := r.2
              let c := cornerFold walkable width height geometry.min_x
                geometry.min_y map_id r.1
              let s := map.spawns.foldl (spawnStep map_id) c
              match map.npcs with
              | none => none
              | some npcs =>
                  match npcs.foldl (npcStep g oracle map_name map_id) (some s) with
                  | none => none
                  | some (vs, st4) =>
                      some ((oracle.edges vs).foldl (walkEdgeStep map_name) st4)

/-- One map of the `prepare` driver loop: skip it when its `ignore` field
is present, otherwise run the per-map pipeline. -/
def prepareStep (g : GData) (oracle : TriOracle) (acc : Option PState)
    (p : String × GMap) : Option PState :=
  match acc with
  | none => none
  | some st =>
      if p.2.ignore.isSome then some st
      else prepare_map g oracle st p.1

/-- `prepare` from src/src/lib.rs: iterate the maps, skipping any whose
`ignore` field is present. -/
def prepare (g : GData) (oracle : TriOracle) : Option PState :=
  g.maps.foldl (prepareStep g oracle) (some default)

instance : Inhabited Grid := ⟨⟨0, 0, 0, []⟩⟩

/-! ### Specification-side predicates -/

/-- The padded envelope of a wall segment, clamped to the map's box — the
exact cell region the rasterizer paints, expressed in world coordinates. -/
def inWallEnvelope (geom : GGeometry) (X Y : Int) : Prop :=
  (geom.min_x ≤ X ∧ X < geom.max_x ∧ geom.min_y ≤ Y ∧ Y < geom.max_y) ∧
  ((∃ l ∈ geom.y_lines.getD [], 3 ≤ l.length ∧
      l.getD 0 0 - BASE_VN ≤ Y ∧ Y < l.getD 0 0 + BASE_V ∧
      l.getD 1 0 - BASE_H ≤ X ∧ X < l.getD 2 0 + BASE_H) ∨
   (∃ l ∈ geom.x_lines.getD [], 3 ≤ l.length ∧
      l.getD 0 0 - BASE_H ≤ X ∧ X < l.getD 0 0 + BASE_H ∧
      l.getD 1 0 - BASE_VN ≤ Y ∧ Y < l.getD 2 0 + BASE_V))

instance inWallEnvelope_dec (geom : GGeometry) (X Y : Int) :
    Decidable (inWallEnvelope geom X Y) := by
  unfold inWallEnvelope
  infer_instance

/-- Normalized supercover membership: offsets `(i, j)` from the start of
a segment with axis deltas `dx ≥ 0`, `dy ≥ 0`.  A cell belongs to the
supercover iff it lies in the segment's bounding rectangle and the true
line from cell center `(0,0)` to cell center `(dx,dy)` comes within half
a cell of center `(i,j)`: `|2*(j*dx - i*dy)| ≤ dx + dy` (equality is the
exact-corner tie where both diagonal neighbours are crossed). -/
def inS (dx dy i j : Int) : Prop :=
  0 ≤ i ∧ i ≤ dx ∧ 0 ≤ j ∧ j ≤ dy ∧
  -(dx + dy) ≤ 2 * (j * dx - i * dy) ∧ 2 * (j * dx - i * dy) ≤ dx + dy

/-- The Bresenham supercover of the segment from `(x1,y1)` to `(x2,y2)`
in world coordinates: the set of grid cells the true segment crosses,
with both adjacent diagonal cells included when the error term balances
exactly. -/
def supercover (x1 y1 x2 y2 x y : Int) : Prop :=
  min x1 x2 ≤ x ∧ x ≤ max x1 x2 ∧ min y1 y2 ≤ y ∧ y ≤ max y1 y2 ∧
  -(|x2 - x1| + |y2 - y1|) ≤ 2 * ((y - y1) * (x2 - x1) - (x - x1) * (y2 - y1)) ∧
  2 * ((y - y1) * (x2 - x1) - (x - x1) * (y2 - y1)) ≤ |x2 - x1| + |y2 - y1|

/-- The clamped grid-coordinate rectangle a `y_line` paints. -/
def coversY (geom : GGeometry) (width height cx cy : Int) (line : List Int) : Prop :=
  3 ≤ line.length ∧
  max 0 (line.getD 0 0 - geom.min_y - BASE_VN) ≤ cy ∧
  cy < min height (line.getD 0 0 - geom.min_y + BASE_V) ∧
  max 0 (line.getD 1 0 - geom.min_x - BASE_H) ≤ cx ∧
  cx < min width (line.getD 2 0 - geom.min_x + BASE_H)

/-- The clamped grid-coordinate rectangle an `x_line` paints. -/
def coversX (geom : GGeometry) (width height cx cy : Int) (line : List Int) : Prop :=
  3 ≤ line.length ∧
  max 0 (line.getD 0 0 - geom.min_x - BASE_H) ≤ cx ∧
  cx < min width (line.getD 0 0 - geom.min_x + BASE_H) ∧
  max 0 (line.getD 1 0 - geom.min_y - BASE_VN) ≤ cy ∧
  cy < min height (line.getD 2 0 - geom.min_y + BASE_V)

instance coversY_dec (geom : GGeometry) (width height cx cy : Int)
    (line : List Int) : Decidable (coversY geom width height cx cy line) := by
  unfold coversY
  infer_instance

instance coversX_dec (geom : GGeometry) (width height cx cy : Int)
    (line : List Int) : Decidable (coversX geom width height cx cy line) := by
  unfold coversX
  infer_instance

instance supercover_dec (x1 y1 x2 y2 x y : Int) :
    Decidable (supercover x1 y1 x2 y2 x y) := by
  unfold supercover
  infer_instance

/-- The span fill only turns `UNKNOWN` cells into `WALKABLE` ones. -/
def cellsMono (v v' : List Nat) : Prop :=
  ∀ i : Nat, v'.get? i = v.get? i ∨
    (v.get? i = some UNKNOWN ∧ v'.get? i = some WALKABLE)

/-! ### Concrete worlds used by counterexamples and witnesses -/

/-- The trivial triangulation oracle (no radius hits, no edges). -/
def oracle0 : TriOracle := ⟨fun _ _ _ => [], fun _ => []⟩

/-- Oracle returning one undirected triangulation edge between two
distinct vertices of the witness map. -/
def oracle9 : TriOracle := ⟨fun _ _ _ => [], fun _ => [(⟨0, 2, 2⟩, ⟨0, 3, 3⟩)]⟩

/-- 8×8 map with the horizontal wall `[4, 0, 8]`; its only spawn (2,4)
sits inside the wall's padded envelope. -/
def wSpawnWall : GData :=
  { geometry := [("m", ⟨0, 8, 0, 8, none, some [[4, 0, 8]]⟩)],
    maps := [("m", ⟨[], none, "m", some [], [⟨2, 4⟩]⟩)],
    npcs := [], version := 1 }

def stSpawnWall : PState := (prepare wSpawnWall oracle0).getD default

/-- 6×6 map with no walls and a spawn at (3,3): every cell is walkable. -/
def wAll : GData :=
  { geometry := [("m", ⟨0, 6, 0, 6, none, none⟩)],
    maps := [("m", ⟨[], none, "m", some [], [⟨3, 3⟩]⟩)],
    npcs := [], version := 1 }

def stAll : PState := (prepare wAll oracle0).getD default

/-- 8×8 map whose spawn (-2,3) lies outside the bounding box while its
flattened cell index 3*8-2 = 22 is still in range. -/
def wOutBox : GData :=
  { geometry := [("m", ⟨0, 8, 0, 8, none, none⟩)],
    maps := [("m", ⟨[], none, "m", some [], [⟨-2, 3⟩]⟩)],
    npcs := [], version := 1 }

def stOutBox : PState := (prepare wOutBox oracle0).getD default

/-- 8×8 map whose spawn (20,20) has an out-of-range flattened index. -/
def wOutRange : GData :=
  { geometry := [("m", ⟨0, 8, 0, 8, none, none⟩)],
    maps := [("m", ⟨[], none, "m", some [], [⟨20, 20⟩]⟩)],
    npcs := [], version := 1 }

/-- World whose transporter names the destination map "B" that is not in
`maps`. -/
def wBadDest : GData :=
  { geometry := [("m", ⟨0, 6, 0, 6, none, none⟩)],
    maps := [("m", ⟨[], none, "m", some [⟨"transporter", some [3, 3], none⟩], [⟨2, 2⟩]⟩)],
    npcs := [("transporter", ⟨some [("B", 0)]⟩)], version := 1 }

/-- World whose transporter names spawn index 5 of destination map "B",
which has a single spawn. -/
def wBadIdx : GData :=
  { geometry := [("m", ⟨0, 6, 0, 6, none, none⟩), ("B", ⟨0, 6, 0, 6, none, none⟩)],
    maps := [("m", ⟨[], none, "m", some [⟨"transporter", some [3, 3], none⟩], [⟨2, 2⟩]⟩),
             ("B", ⟨[], none, "B", some [], [⟨1, 1⟩]⟩)],
    npcs := [("transporter", ⟨some [("B", 5)]⟩)], version := 1 }

/-- Valid world whose only map lacks the optional `npcs` field. -/
def wNoNpcs : GData :=
  { geometry := [("m", ⟨0, 6, 0, 6, none, none⟩)],
    maps := [("m", ⟨[], none, "m", none, [⟨2, 2⟩]⟩)],
    npcs := [], version := 1 }

/-- World with an ignored map ("skip") and a normal map ("m"). -/
def wIgnore : GData :=
  { geometry := [("m", ⟨0, 6, 0, 6, none, none⟩)],
    maps := [("skip", ⟨[], some true, "skip", none, []⟩),
             ("m", ⟨[], none, "m", some [], [⟨2, 2⟩]⟩)],
    npcs := [], version := 1 }

def stIgnore : PState := (prepare wIgnore oracle0).getD default

/-- Witness world for the graph claims, prepared with `oracle9`. -/
def wNine : GData :=
  { geometry := [("m", ⟨0, 6, 0, 6, none, none⟩)],
    maps := [("m", ⟨[], none, "m", some [], [⟨2, 2⟩]⟩)],
    npcs := [], version := 1 }

def stNine : PState := (prepare wNine oracle9).getD default

/-- 8-wide map pushed against the top of the `i32` range: the wall
`[3, -2147483558, 2147483642]` covers the whole box in world coordinates,
but its translated start column wraps to 100 (past the grid), so nothing
is painted; the spawn x-coordinate 2^31 saturates on the `f32 as i32`
cast, and its wrapped seed cell floods the grid. -/
def wWrapWall : GData :=
  { geometry := [("m", ⟨2147483638, 2147483646, 0, 8, none,
      some [[3, -2147483558, 2147483642]]⟩)],
    maps := [("m", ⟨[], none, "m", some [], [⟨(2147483648 : ℚ), 0⟩]⟩)],
    npcs := [], version := 1 }

def stWrapWall : PState := (prepare wWrapWall oracle0).getD default

/-- All the coordinate data of a map geometry is bounded by
`COORD_LIMIT` in magnitude and the bounding box is non-degenerate: under
this range condition (satisfied by the game data, whose maps are a few
thousand pixels wide) none of the builder arithmetic reaches the `i32`
wrap points. -/
def GeomInRange (geom : GGeometry) : Prop :=
  -COORD_LIMIT ≤ geom.min_x ∧ geom.min_x ≤ COORD_LIMIT ∧
  -COORD_LIMIT ≤ geom.max_x ∧ geom.max_x ≤ COORD_LIMIT ∧
  -COORD_LIMIT ≤ geom.min_y ∧ geom.min_y ≤ COORD_LIMIT ∧
  -COORD_LIMIT ≤ geom.max_y ∧ geom.max_y ≤ COORD_LIMIT ∧
  geom.min_x ≤ geom.max_x ∧ geom.min_y ≤ geom.max_y ∧
  (∀ l ∈ geom.y_lines.getD [], ∀ a ∈ l, -COORD_LIMIT ≤ a ∧ a ≤ COORD_LIMIT) ∧
  (∀ l ∈ geom.x_lines.getD [], ∀ a ∈ l, -COORD_LIMIT ≤ a ∧ a ≤ COORD_LIMIT)

instance GeomInRange_dec (geom : GGeometry) : Decidable (GeomInRange geom) := by
  unfold GeomInRange
  infer_instance

/-- Every spawn of the map has truncated world coordinates bounded by
`COORD_LIMIT` in magnitude. -/
def SpawnsInRange (mp : GMap) : Prop :=
  ∀ s ∈ mp.spawns, -COORD_LIMIT ≤ ratTrunc s.x ∧ ratTrunc s.x ≤ COORD_LIMIT ∧
    -COORD_LIMIT ≤ ratTrunc s.y ∧ ratTrunc s.y ≤ COORD_LIMIT

instance SpawnsInRange_dec (mp : GMap) : Decidable (SpawnsInRange mp) := by
  unfold SpawnsInRange
  infer_instance

/-- Interning soundness: every entry of the node-index map points at its
node in the graph's node list. -/
def NodesOK (st : PState) : Prop :=
  ∀ p ∈ st.node_map, st.nodes.get? p.2 = some p.1

/-- The `WALK`-edge shape invariant on an edge list: no self-loops, and
every `WALK` edge has a reverse mate with the same method. -/
def EdgesOKl (l : List GEdge) : Prop :=
  ∀ e ∈ l, e.method = WALK → e.src ≠ e.dst ∧
    ∃ e' ∈ l, e'.src = e.dst ∧ e'.dst = e.src ∧ e'.method = WALK

/-- Both graph invariants. -/
def GraphInv (st : PState) : Prop := NodesOK st ∧ EdgesOKl st.edges

/-! ### C4: degenerate path versus point query -/

/-- C4 counterexample: on the prepared all-walkable 6×6 map, at the point
(-2,3) (negative translated x, but flattened index 3*6-2 = 16 still in
range) `can_walk_path m p p` is true while `is_walkable m p` is false, so
the two queries differ. -/
theorem c4_counterexample :
    prepare wAll oracle0 = some stAll ∧
    can_walk_path stAll.grids "m" (-2) 3 (-2) 3 = true ∧
    is_walkable stAll.grids "m" (-2) 3 = false := by
  refine ⟨by decide, by decide, by decide⟩

/-! ### Shared helper lemmas -/

theorem foldl_none {α β : Type} (f : Option α → β → Option α)
    (hf : ∀ b, f none b = none) : ∀ l : List β, l.foldl f none = none := by
  intro l
  induction l with
  | nil => rfl
  | cons b t ih => simpa [hf] using ih

theorem alookup_of_mem_nodup {α β : Type} [DecidableEq α] (l : List (α × β))
    (k : α) (b : β) (hm : (k, b) ∈ l) (hnd : (l.map Prod.fst).Nodup) :
    alookup l k = some b := by
  induction l with
  | nil => cases hm
  | cons p t ih =>
      simp only [List.map_cons, List.nodup_cons] at hnd
      rcases List.mem_cons.mp hm with h | h
      · simp [alookup, ← h]
      · have hk : p.1 ≠ k := by
          intro he
          exact hnd.1 (he ▸ (List.mem_map.mpr ⟨(k, b), h, rfl⟩))
        simp [alookup, hk, ih h hnd.2]

theorem destStep_bad (g : GData) (name : String) (entry : String × Nat)
    (hne : entry.1 ≠ name)
    (hbad : alookup g.maps entry.1 = none ∨
      ∃ dmap, alookup g.maps entry.1 = some dmap ∧ dmap.spawns.length ≤ entry.2) :
    ∀ z, destStep g name (some z) entry = none := by
  rintro ⟨st, dests⟩
  unfold destStep
  rcases hbad with h | ⟨dmap, h, hlen⟩
  · simp [hne, h]
  · simp [hne, h, List.getElem?_eq_none hlen]

theorem destFold_bad (g : GData) (name : String) (entry : String × Nat)
    (hne : entry.1 ≠ name)
    (hbad : alookup g.maps entry.1 = none ∨
      ∃ dmap, alookup g.maps entry.1 = some dmap ∧ dmap.spawns.length ≤ entry.2) :
    ∀ (places : List (String × Nat)), entry ∈ places →
      ∀ z, places.foldl (destStep g name) (some z) = none := by
  intro places
  induction places with
  | nil => intro h; cases h
  | cons p t ih =>
      intro hm z
      rcases List.mem_cons.mp hm with h | h
      · subst h
        rw [List.foldl_cons, destStep_bad g name entry hne hbad z]
        exact foldl_none _ (fun _ => rfl) t
      · rw [List.foldl_cons]
        cases hd : destStep g name (some z) p with
        | none => exact foldl_none _ (fun _ => rfl) t
        | some z' => exact ih h z'

theorem npcFold_bad (g : GData) (oracle : TriOracle) (name : String) (map_id : Nat)
    (npc : GNpc) (hid : npc.id = "transporter")
    (catalog : GNpcEntry) (hcat : alookup g.npcs "transporter" = some catalog)
    (places : List (String × Nat)) (hpl : catalog.places = some places)
    (hdf : ∀ z, places.foldl (destStep g name) (some z) = none) :
    ∀ (npcs : List GNpc), npc ∈ npcs →
      ∀ s, npcs.foldl (npcStep g oracle name map_id) (some s) = none := by
  intro npcs
  induction npcs with
  | nil => intro h; cases h
  | cons p t ih =>
      intro hm s
      rcases List.mem_cons.mp hm with h | h
      · subst h
        have hstep : npcStep g oracle name map_id (some s) npc = none := by
          obtain ⟨vs, st⟩ := s
          unfold npcStep
          simp [hid, hcat, hpl, hdf (st, [])]
        rw [List.foldl_cons, hstep]
        exact foldl_none _ (fun _ => rfl) t
      · rw [List.foldl_cons]
        cases hd : npcStep g oracle name map_id (some s) p with
        | none => exact foldl_none _ (fun _ => rfl) t
        | some s' => exact ih h s'

theorem prepare_map_badNpcs (g : GData) (oracle : TriOracle) (name : String)
    (mp : GMap) (hmp : alookup g.maps name = some mp)
    (npcs : List GNpc) (hnp : mp.npcs = some npcs)
    (hfold : ∀ map_id s, npcs.foldl (npcStep g oracle name map_id) (some s) = none) :
    ∀ st, prepare_map g oracle st name = none := by
  intro st
  unfold prepare_map
  rw [hmp]
  dsimp only
  cases hgeo : alookup g.geometry name with
  | none => rfl
  | some geometry =>
      dsimp only
      cases hw : prepare_walkable_vec mp geometry (wrap32 (geometry.max_x - geometry.min_x))
          (wrap32 (geometry.max_y - geometry.min_y)) with
      | none => rfl
      | some walkable =>
          dsimp only
          simp only [hnp, hfold]

theorem paintRowGo_length (width y : Int) :
    ∀ (n : Nat) (v : List Nat) (x : Int), (paintRowGoU width y v x n).length = v.length := by
  intro n
  induction n with
  | zero => intro v x; rfl
  | succ n ih => intro v x; rw [paintRowGoU, ih]; exact List.length_set ..

theorem paintYGo_length (width min_x l1 l2 : Int) :
    ∀ (n : Nat) (v : List Nat) (y : Int), (paintYGoU width min_x l1 l2 v y n).length = v.length := by
  intro n
  induction n with
  | zero => intro v y; rfl
  | succ n ih => intro v y; rw [paintYGoU, ih, paintRowGo_length]

theorem paintColGo_length (width x : Int) :
    ∀ (n : Nat) (v : List Nat) (y : Int), (paintColGoU width x v y n).length = v.length := by
  intro n
  induction n with
  | zero => intro v y; rfl
  | succ n ih => intro v y; rw [paintColGoU, ih]; exact List.length_set ..

theorem paintXGo_length (width height min_y l1 l2 : Int) :
    ∀ (n : Nat) (v : List Nat) (x : Int),
      (paintXGoU width height min_y l1 l2 v x n).length = v.length := by
  intro n
  induction n with
  | zero => intro v x; rfl
  | succ n ih => intro v x; rw [paintXGoU, ih, paintColGo_length]

theorem paintYLine_length (geometry : GGeometry) (width height : Int)
    (v : List Nat) (line : List Int) (v' : List Nat)
    (h : paintYLineU geometry width height v line = some v') :
    v'.length = v.length := by
  unfold paintYLineU at h
  match line, h with
  | l0 :: l1 :: l2 :: _, h =>
      cases h
      exact paintYGo_length ..

theorem paintXLine_length (geometry : GGeometry) (width height : Int)
    (v : List Nat) (line : List Int) (v' : List Nat)
    (h : paintXLineU geometry width height v line = some v') :
    v'.length = v.length := by
  unfold paintXLineU at h
  match line, h with
  | l0 :: l1 :: l2 :: _, h =>
      cases h
      exact paintXGo_length ..

theorem paintLines_length (f : List Nat → List Int → Option (List Nat))
    (hf : ∀ v line v', f v line = some v' → v'.length = v.length)
    (lines : Option (List (List Int))) (v v' : List Nat)
    (h : paintLines f lines v = some v') : v'.length = v.length := by
  unfold paintLines at h
  cases lines with
  | none => cases h; rfl
  | some ls =>
      dsimp only at h
      induction ls generalizing v with
      | nil => cases h; rfl
      | cons l t ih =>
          rw [List.foldl_cons] at h
          cases hf1 : f v l with
          | none =>
              rw [show paintStep f (some v) l = none from hf1 ▸ rfl] at h
              rw [foldl_none _ (fun _ => rfl) t] at h
              cases h
          | some v1 =>
              rw [show paintStep f (some v) l = some v1 from hf1 ▸ rfl] at h
              rw [ih v1 h, hf _ _ _ hf1]

theorem fillScanGo_length (width height y : Int) :
    ∀ (n : Nat) (v : List Nat) (stack : List (Int × Int)) (sa sb : Bool) (x : Int)
      (v' : List Nat) (s' : List (Int × Int)),
      fillScanGoU width height y n v stack sa sb x = some (v', s') →
      v'.length = v.length := by
  intro n
  induction n with
  | zero => intro v stack sa sb x v' s' h; cases h; rfl
  | succ n ih =>
      intro v stack sa sb x v' s' h
      rw [fillScanGoU] at h
      dsimp only at h
      split at h
      · split at h
        · cases h
        · split at h
          · split at h
            · cases h
            · split at h
              · cases h
              · have h1 := ih _ _ _ _ _ _ _ h
                rw [h1]
                exact List.length_set ..
          · cases h; rfl
      · cases h; rfl

theorem fillLoop_length (width height : Int) :
    ∀ (n : Nat) (v : List Nat) (stack : List (Int × Int)) (v' : List Nat),
      fillLoopU width height n v stack = some v' → v'.length = v.length := by
  intro n
  induction n with
  | zero =>
      intro v stack v' h
      cases stack with
      | nil => cases h; rfl
      | cons p rest => cases h
  | succ n ih =>
      intro v stack v' h
      cases stack with
      | nil => cases h; rfl
      | cons p rest =>
          obtain ⟨y, x0⟩ := p
          rw [fillLoopU] at h
          cases hL : fillLeftU v width y x0 with
          | none => rw [hL] at h; cases h
          | some xL =>
              rw [hL] at h
              dsimp only at h
              cases hS : fillScanU width height y v rest false false (xL + 1) with
              | none => rw [hS] at h; cases h
              | some pr =>
                  obtain ⟨v1, stack1⟩ := pr
                  rw [hS] at h
                  dsimp only at h
                  rw [ih _ _ _ h]
                  exact fillScanGo_length _ _ _ _ _ _ _ _ _ _ _ hS

theorem fillFromSpawn_length (geometry : GGeometry) (width height : Int)
    (v : List Nat) (spawn : GSpawn) (v' : List Nat)
    (h : fillFromSpawnU geometry width height v spawn = some v') :
    v'.length = v.length := by
  unfold fillFromSpawnU at h
  dsimp only at h
  split at h
  · cases h
  · split at h
    · cases h; rfl
    · exact fillLoop_length _ _ _ _ _ _ h

theorem fillFold_bad (geometry : GGeometry) (width height : Int)
    (spawn : GSpawn) (hidx :
      (ratTrunc spawn.y - geometry.min_y) * width + (ratTrunc spawn.x - geometry.min_x) < 0 ∨
      width * height ≤ (ratTrunc spawn.y - geometry.min_y) * width + (ratTrunc spawn.x - geometry.min_x)) :
    ∀ (l : List GSpawn), spawn ∈ l → ∀ (v : List Nat), v.length = (width * height).toNat →
      l.foldl (fillStepU geometry width height) (some v) = none := by
  intro l
  induction l with
  | nil => intro h; cases h
  | cons s t ih =>
      intro hm v hlen
      rcases List.mem_cons.mp hm with h | h
      · subst h
        have hbad : fillFromSpawnU geometry width height v spawn = none := by
          unfold fillFromSpawnU
          dsimp only
          have : readCellU v ((ratTrunc spawn.y - geometry.min_y) * width +
              (ratTrunc spawn.x - geometry.min_x)) = none := by
            unfold readCellU
            by_cases h0 : 0 ≤ (ratTrunc spawn.y - geometry.min_y) * width +
                (ratTrunc spawn.x - geometry.min_x)
            · rw [if_pos h0]
              refine List.get?_eq_none.mpr ?_
              rw [hlen]
              rcases hidx with h1 | h1 <;> omega
            · rw [if_neg h0]
          rw [this]
        rw [List.foldl_cons, show fillStepU geometry width height (some v) spawn = none from by
          unfold fillStepU; dsimp only; rw [hbad]]
        exact foldl_none _ (fun _ => rfl) t
      · rw [List.foldl_cons]
        cases hd : fillStepU geometry width height (some v) s with
        | none => exact foldl_none _ (fun _ => rfl) t
        | some v1 =>
            refine ih h v1 ?_
            unfold fillStepU at hd
            rw [fillFromSpawn_length _ _ _ _ _ _ hd, hlen]

theorem prepare_walkable_vec_badSpawn (map : GMap) (geometry : GGeometry)
    (width height : Int) (spawn : GSpawn) (hs : spawn ∈ map.spawns)
    (hidx :
      (ratTrunc spawn.y - geometry.min_y) * width + (ratTrunc spawn.x - geometry.min_x) < 0 ∨
      width * height ≤ (ratTrunc spawn.y - geometry.min_y) * width + (ratTrunc spawn.x - geometry.min_x)) :
    prepare_walkable_vecU map geometry width height = none := by
  unfold prepare_walkable_vecU
  dsimp only
  cases h1 : paintLines (paintYLineU geometry width height) geometry.y_lines
      (List.replicate (width * height).toNat UNKNOWN) with
  | none => rfl
  | some w1 =>
      dsimp only
      cases h2 : paintLines (paintXLineU geometry width height) geometry.x_lines w1 with
      | none => rfl
      | some w2 =>
          dsimp only
          refine fillFold_bad geometry width height spawn hidx map.spawns hs w2 ?_
          rw [paintLines_length (paintXLineU geometry width height)
              (fun v line v' h => paintXLine_length geometry width height v line v' h)
              geometry.x_lines w1 w2 h2]
          rw [paintLines_length (paintYLineU geometry width height)
              (fun v line v' h => paintYLine_length geometry width height v line v' h)
              geometry.y_lines _ w1 h1]
          exact List.length_replicate ..

/-! ### State-preservation lemmas and C8: ignored maps -/

theorem foldlO_pres {σ α : Type} (f : Option σ → α → Option σ)
    (hnone : ∀ a, f none a = none) (P : σ → σ → Prop)
    (hrefl : ∀ s, P s s) (htrans : ∀ a b c, P a b → P b c → P a c)
    (hf : ∀ s a s', f (some s) a = some s' → P s s') :
    ∀ (l : List α) (s s' : σ), l.foldl f (some s) = some s' → P s s' := by
  intro l
  induction l with
  | nil => intro s s' h; cases h; exact hrefl s
  | cons a t ih =>
      intro s s' h
      rw [List.foldl_cons] at h
      cases hd : f (some s) a with
      | none =>
          rw [hd, foldl_none _ hnone] at h
          cases h
      | some s1 =>
          rw [hd] at h
          exact htrans _ _ _ (hf s a s1 hd) (ih s1 s' h)

theorem foldl_pres {σ α : Type} (f : σ → α → σ) (P : σ → Prop)
    (hf : ∀ s a, P s → P (f s a)) :
    ∀ (l : List α) (s : σ), P s → P (l.foldl f s) := by
  intro l
  induction l with
  | nil => intro s h; exact h
  | cons a t ih => intro s h; exact ih _ (hf s a h)

theorem get_or_add_node_grids (st : PState) (n : Node) :
    (get_or_add_node st n).1.grids = st.grids := by
  unfold get_or_add_node
  split <;> rfl

theorem get_or_create_map_id_grids (st : PState) (s : String) :
    (get_or_create_map_id st s).1.grids = st.grids := by
  unfold get_or_create_map_id
  split <;> rfl

theorem cornerCell_grids (walkable : List Nat) (width min_x min_y : Int)
    (map_id : Nat) (y : Int) (acc : List Node × PState) (x : Int) :
    (cornerCell walkable width min_x min_y map_id y acc x).2.grids = acc.2.grids := by
  unfold cornerCell
  dsimp only
  split
  · rfl
  · split
    · exact get_or_add_node_grids ..
    · rfl

theorem cornerRow_grids (walkable : List Nat) (width min_x min_y : Int)
    (map_id : Nat) (acc : List Node × PState) (y : Int) :
    (cornerRow walkable width min_x min_y map_id acc y).2.grids = acc.2.grids := by
  unfold cornerRow
  refine foldl_pres (cornerCell walkable width min_x min_y map_id y)
    (fun a => a.2.grids = acc.2.grids) ?_ _ _ rfl
  intro s a hs
  rw [cornerCell_grids, hs]

theorem cornerFold_grids (walkable : List Nat) (width height min_x min_y : Int)
    (map_id : Nat) (st : PState) :
    (cornerFold walkable width height min_x min_y map_id st).2.grids = st.grids := by
  unfold cornerFold
  refine foldl_pres (cornerRow walkable width min_x min_y map_id)
    (fun a => a.2.grids = st.grids) ?_ _ _ rfl
  intro s a hs
  rw [cornerRow_grids, hs]

theorem spawnFold_grids (map_id : Nat) (l : List GSpawn) (acc : List Node × PState) :
    (l.foldl (spawnStep map_id) acc).2.grids = acc.2.grids := by
  refine foldl_pres (spawnStep map_id) (fun a => a.2.grids = acc.2.grids) ?_ _ _ rfl
  intro s a hs
  unfold spawnStep
  dsimp only
  rw [get_or_add_node_grids, hs]

theorem tEdgeStep_grids (src : Nat) (st : PState) (d : Nat) :
    (tEdgeStep src st d).grids = st.grids := rfl

theorem nearStep_grids (dests : List Nat) (st : PState) (n : Node) :
    (nearStep dests st n).grids = st.grids := by
  unfold nearStep
  dsimp only
  have h1 := get_or_add_node_grids st n
  refine Eq.trans (foldl_pres (tEdgeStep (get_or_add_node st n).2)
    (fun a => a.grids = (get_or_add_node st n).1.grids) ?_ _ _ rfl) h1
  intro s a hs
  rw [tEdgeStep_grids, hs]

theorem transportAt_grids (oracle : TriOracle) (map_id : Nat) (dests : List Nat)
    (acc : List Node × PState) (px py : ℚ) :
    (transportAt oracle map_id dests acc px py).2.grids = acc.2.grids := by
  unfold transportAt
  dsimp only
  refine foldl_pres (nearStep dests) (fun a => a.grids = acc.2.grids) ?_ _ _ rfl
  intro s a hs
  rw [nearStep_grids, hs]

theorem destStep_grids (g : GData) (map_name : String) (st : PState)
    (dests : List Nat) (a : String × Nat) (s' : PState × List Nat)
    (h : destStep g map_name (some (st, dests)) a = some s') :
    s'.1.grids = st.grids := by
  unfold destStep at h
  dsimp only at h
  split at h
  · cases h; rfl
  · split at h
    · cases h
    · split at h
      · cases h
      · cases h
        rw [get_or_add_node_grids, get_or_create_map_id_grids]

theorem posStep_grids (oracle : TriOracle) (map_id : Nat) (dests : List Nat)
    (vs : List Node) (st : PState) (p : List ℚ) (s' : List Node × PState)
    (h : posStep oracle map_id dests (some (vs, st)) p = some s') :
    s'.2.grids = st.grids := by
  unfold posStep at h
  dsimp only at h
  split at h
  · cases h
    exact transportAt_grids ..
  · cases h

theorem npcPosPart_grids (oracle : TriOracle)
    (map_id : Nat) (npc : GNpc) (vs : List Node) (st1 : PState) (dests : List Nat)
    (vst2 : List Node × PState)
    (h : (match npc.position with
          | none => some (vs, st1)
          | some pos =>
              match pos with
              | px :: py :: _ => some (transportAt oracle map_id dests (vs, st1) px py)
              | _ => none) = some vst2) :
    vst2.2.grids = st1.grids := by
  split at h
  · cases h; rfl
  · split at h
    · cases h; exact transportAt_grids ..
    · cases h

theorem npcStep_grids (g : GData) (oracle : TriOracle) (map_name : String)
    (map_id : Nat) (vs : List Node) (st : PState) (npc : GNpc)
    (s' : List Node × PState)
    (h : npcStep g oracle map_name map_id (some (vs, st)) npc = some s') :
    s'.2.grids = st.grids := by
  unfold npcStep at h
  dsimp only at h
  split at h
  · cases h; rfl
  · split at h
    · cases h
    · split at h
      · cases h
      · split at h
        · cases h
        · rename_i st1 dests hfold
          have hd : st1.grids = st.grids := by
            refine foldlO_pres (destStep g map_name) (fun _ => rfl)
              (fun a b => b.1.grids = a.1.grids) (fun _ => rfl) ?_ ?_ _ _ _ hfold
            · intro a b c h1 h2; rw [h2, h1]
            · intro a b c hstep
              obtain ⟨sta, da⟩ := a
              exact destStep_grids _ _ _ _ _ _ hstep
          split at h
          · cases h
          · rename_i vs2 st2 hpos
            have hp : st2.grids = st1.grids := by
              have := npcPosPart_grids oracle map_id npc vs st1 dests (vs2, st2) hpos
              exact this
            split at h
            · cases h
              rw [hp, hd]
            · rename_i ps
              have hq : s'.2.grids = st2.grids := by
                refine foldlO_pres (posStep oracle map_id dests) (fun _ => rfl)
                  (fun a b => b.2.grids = a.2.grids) (fun _ => rfl) ?_ ?_ _ _ _ h
                · intro a b c h1 h2; rw [h2, h1]
                · intro a b c hstep
                  obtain ⟨va, sa⟩ := a
                  exact posStep_grids _ _ _ _ _ _ _ hstep
              rw [hq, hp, hd]

theorem walkEdgeStep_grids (map_name : String) (st : PState) (e : Node × Node) :
    (walkEdgeStep map_name st e).grids = st.grids := by
  unfold walkEdgeStep
  split
  · rw [show ({ (get_or_add_node (get_or_add_node st e.1).1 e.2).1 with
        edges := (get_or_add_node (get_or_add_node st e.1).1 e.2).1.edges ++
          [⟨(get_or_add_node st e.1).2, (get_or_add_node (get_or_add_node st e.1).1 e.2).2, WALK⟩,
           ⟨(get_or_add_node (get_or_add_node st e.1).1 e.2).2, (get_or_add_node st e.1).2, WALK⟩]} : PState).grids
      = (get_or_add_node (get_or_add_node st e.1).1 e.2).1.grids from rfl]
    rw [get_or_add_node_grids, get_or_add_node_grids]
  · rfl

theorem prepare_map_gridsShape (g : GData) (oracle : TriOracle) (st : PState)
    (name : String) (st' : PState) (h : prepare_map g oracle st name = some st') :
    ∃ gr, st'.grids = (name, gr) :: st.grids := by
  unfold prepare_map at h
  split at h
  · cases h
  · split at h
    · cases h
    · split at h
      · dsimp only at h
        split at h
        · cases h
        · cases h
      · rename_i om mp hmp og geom hgeo on2 npcs hnpcs
        dsimp only at h
        split at h
        · cases h
        · rename_i walkable hw
          split at h
          · cases h
          · rename_i vs st4 hfold
            cases h
            refine ⟨⟨wrap32 (geom.max_x - geom.min_x), geom.min_x, geom.min_y,
              walkable.map (fun state => decide (state = WALKABLE))⟩, ?_⟩
            have h4 : ((oracle.edges vs).foldl (walkEdgeStep name) st4).grids = st4.grids := by
              refine foldl_pres (walkEdgeStep name) (fun a => a.grids = st4.grids) ?_ _ _ rfl
              intro s a hs
              rw [walkEdgeStep_grids, hs]
            rw [h4]
            have h3 : st4.grids = (List.foldl (spawnStep
                (get_or_create_map_id { st with grids := (name, ⟨wrap32 (geom.max_x - geom.min_x),
                  geom.min_x, geom.min_y,
                  walkable.map (fun state => decide (state = WALKABLE))⟩) :: st.grids } name).2)
                (cornerFold walkable (wrap32 (geom.max_x - geom.min_x)) (wrap32 (geom.max_y - geom.min_y))
                  geom.min_x geom.min_y
                  (get_or_create_map_id { st with grids := (name, ⟨wrap32 (geom.max_x - geom.min_x),
                    geom.min_x, geom.min_y,
                    walkable.map (fun state => decide (state = WALKABLE))⟩) :: st.grids } name).2
                  (get_or_create_map_id { st with grids := (name, ⟨wrap32 (geom.max_x - geom.min_x),
                    geom.min_x, geom.min_y,
                    walkable.map (fun state => decide (state = WALKABLE))⟩) :: st.grids } name).1)
                mp.spawns).2.grids := by
              refine foldlO_pres (npcStep g oracle name _) (fun _ => rfl)
                (fun a b => b.2.grids = a.2.grids) (fun _ => rfl) ?_ ?_ _ _ _ hfold
              · intro a b c h1 h2; rw [h2, h1]
              · intro a b c hstep
                obtain ⟨va, sa⟩ := a
                exact npcStep_grids _ _ _ _ _ _ _ _ hstep
            rw [h3, spawnFold_grids, cornerFold_grids, get_or_create_map_id_grids]

theorem alookup_cons_ne {α β : Type} [DecidableEq α] (l : List (α × β))
    (a : α × β) (k : α) (h : a.1 ≠ k) : alookup (a :: l) k = alookup l k := by
  obtain ⟨a1, a2⟩ := a
  simp only [alookup, if_neg h]

theorem mem_key_unique {α β : Type} [DecidableEq α] (l : List (α × β))
    (hnd : (l.map Prod.fst).Nodup) (k : α) (b : β) (hm : (k, b) ∈ l) :
    ∀ q ∈ l, q.1 = k → q = (k, b) := by
  induction l with
  | nil => cases hm
  | cons p t ih =>
      simp only [List.map_cons, List.nodup_cons] at hnd
      intro q hq hk
      rcases List.mem_cons.mp hm with h1 | h1
      · rcases List.mem_cons.mp hq with h2 | h2
        · rw [h2, ← h1]
        · exact absurd (hk ▸ (List.mem_map.mpr ⟨q, h2, rfl⟩)) (h1 ▸ hnd.1)
      · rcases List.mem_cons.mp hq with h2 | h2
        · exact absurd ((h2 ▸ hk) ▸ (List.mem_map.mpr ⟨(k, b), h1, rfl⟩)) hnd.1
        · exact ih hnd.2 h1 q h2 hk

theorem c8aux (g : GData) (oracle : TriOracle) (name : String) :
    ∀ (l : List (String × GMap)) (st : PState),
      (∀ q ∈ l, q.1 = name → q.2.ignore.isSome) →
      alookup st.grids name = none →
      ∀ st', l.foldl (prepareStep g oracle) (some st) = some st' →
        alookup st'.grids name = none := by
  intro l
  induction l with
  | nil => intro st _ h0 st' h; cases h; exact h0
  | cons p t ih =>
      intro st hq h0 st' h
      rw [List.foldl_cons] at h
      have hstep : prepareStep g oracle (some st) p =
          if p.2.ignore.isSome = true then some st
          else prepare_map g oracle st p.1 := rfl
      by_cases hig : p.2.ignore.isSome
      · rw [hstep, if_pos hig] at h
        exact ih st (fun q hq2 => hq q (List.mem_cons_of_mem p hq2)) h0 st' h
      · have hp1 : p.1 ≠ name := fun he => hig (hq p (List.mem_cons_self ..) he)
        rw [hstep, if_neg hig] at h
        cases hpm : prepare_map g oracle st p.1 with
        | none =>
            rw [hpm, foldl_none _ (fun _ => rfl)] at h
            cases h
        | some st1 =>
            rw [hpm] at h
            obtain ⟨gr, hgr⟩ := prepare_map_gridsShape g oracle st p.1 st1 hpm
            refine ih st1 (fun q hq2 => hq q (List.mem_cons_of_mem p hq2)) ?_ st' h
            rw [hgr, alookup_cons_ne st.grids (p.1, gr) name hp1, h0]

/-- C8: a map whose input record contains the `ignore` field (whatever
its value) is skipped entirely by `prepare` (under the HashMap guarantee
of unique map names): no grid is installed under its name, and both
`is_walkable` and `can_walk_pathU` answer false for every coordinate on
that map. -/
theorem c8_ignoredMapAbsent (g : GData) (oracle : TriOracle) (name : String)
    (mp : GMap) (hm : (name, mp) ∈ g.maps)
    (hnd : (g.maps.map Prod.fst).Nodup)
    (hig : mp.ignore.isSome) (st : PState) (hp : prepare g oracle = some st) :
    alookup st.grids name = none ∧
    (∀ x y, is_walkable st.grids name x y = false) ∧
    (∀ x1 y1 x2 y2, can_walk_pathU st.grids name x1 y1 x2 y2 = false) := by
  have hnone : alookup st.grids name = none := by
    refine c8aux g oracle name g.maps default ?_ rfl st hp
    intro q hq hk
    rw [mem_key_unique g.maps hnd name mp hm q hq hk]
    exact hig
  refine ⟨hnone, fun x y => ?_, fun x1 y1 x2 y2 => ?_⟩
  · unfold is_walkable
    rw [hnone]
  · unfold can_walk_pathU
    rw [hnone]

/-- C8 witness: in the prepared two-map world whose map "skip" carries
`ignore`, the registry has no grid for "skip" and concrete queries
against it return false. -/
theorem c8_ignoredMapAbsent_witness :
    alookup stIgnore.grids "skip" = none ∧
    is_walkable stIgnore.grids "skip" 3 3 = false ∧
    can_walk_pathU stIgnore.grids "skip" 0 0 3 3 = false := by
  have h := c8_ignoredMapAbsent wIgnore oracle0 "skip"
    ⟨[], some true, "skip", none, []⟩ (by decide) (by decide) (by decide)
    stIgnore (by decide)
  exact ⟨h.1, h.2.1 3 3, h.2.2 0 0 3 3⟩

/-! ### C2: transporter destination errors -/

/-- C2 (amended): when a non-ignored map has a transporter NPC and the
catalog names a destination map absent from `maps` (or a spawn index out
of range for the destination's spawn list), preparation FAILS (the source
`unwrap`s the lookups and panics); it does not skip the edge set and
continue.  The original claim (skip and continue to completion) is
refuted by `c2_counterexample`. -/
theorem c2_badTransporterDestPanics (g : GData) (oracle : TriOracle)
    (name : String) (mp : GMap) (hm : (name, mp) ∈ g.maps)
    (hnd : (g.maps.map Prod.fst).Nodup)
    (hig : mp.ignore = none)
    (npcs : List GNpc) (hnp : mp.npcs = some npcs)
    (npc : GNpc) (hin : npc ∈ npcs) (hid : npc.id = "transporter")
    (catalog : GNpcEntry) (hcat : alookup g.npcs "transporter" = some catalog)
    (places : List (String × Nat)) (hpl : catalog.places = some places)
    (entry : String × Nat) (hent : entry ∈ places) (hne : entry.1 ≠ name)
    (hbad : alookup g.maps entry.1 = none ∨
      ∃ dmap, alookup g.maps entry.1 = some dmap ∧ dmap.spawns.length ≤ entry.2) :
    prepare g oracle = none := by
  have hmp : alookup g.maps name = some mp := alookup_of_mem_nodup _ _ _ hm hnd
  have hpm : ∀ st, prepare_map g oracle st name = none := by
    refine prepare_map_badNpcs g oracle name mp hmp npcs hnp (fun map_id s => ?_)
    exact npcFold_bad g oracle name map_id npc hid catalog hcat places hpl
      (destFold_bad g name entry hne hbad places hent) npcs hin s
  have main : ∀ (l : List (String × GMap)) (st : PState), (name, mp) ∈ l →
      l.foldl (prepareStep g oracle) (some st) = none := by
    intro l
    induction l with
    | nil => intro st h; cases h
    | cons p t ih =>
        intro st hm2
        rcases List.mem_cons.mp hm2 with h | h
        · subst h
          have : prepareStep g oracle (some st) (name, mp) = none := by
            unfold prepareStep
            simp [hig, hpm]
          rw [List.foldl_cons, this]
          exact foldl_none _ (fun _ => rfl) t
        · rw [List.foldl_cons]
          cases hd : prepareStep g oracle (some st) p with
          | none => exact foldl_none _ (fun _ => rfl) t
          | some st' => exact ih st' h
  exact main g.maps default hm

/-- C2 witness: preparing the concrete world whose transporter names
spawn index 5 of map "B" (which has a single spawn) fails. -/
theorem c2_badTransporterDestPanics_witness : prepare wBadIdx oracle0 = none :=
  c2_badTransporterDestPanics wBadIdx oracle0 "m"
    ⟨[], none, "m", some [⟨"transporter", some [3, 3], none⟩], [⟨2, 2⟩]⟩
    (by decide) (by decide) rfl
    [⟨"transporter", some [3, 3], none⟩] rfl
    ⟨"transporter", some [3, 3], none⟩ (by decide) rfl
    ⟨some [("B", 5)]⟩ (by decide)
    [("B", 5)] rfl
    ("B", 5) (by decide) (by decide)
    (Or.inr ⟨⟨[], none, "B", some [], [⟨1, 1⟩]⟩, by decide, by decide⟩)

/-- C2 counterexample: on the world whose transporter names the absent
destination map "B", preparation does not run to completion — it fails
(panics on the unwrapped `maps.get` of the destination), refuting the
claim that the edge set is skipped and preparation continues. -/
theorem c2_counterexample : prepare wBadDest oracle0 = none := by decide

/-! ### C7: spawn out-of-range failure -/

/-- C7 counterexample: the spawn (-2,3) of `wOutBox` lies outside the 8×8
bounding box after truncation and translation (its translated x is
negative), yet preparation succeeds and a grid for the map IS committed
to the registry, refuting the claim that such a spawn makes the builder
fail. -/
theorem c7_counterexample :
    prepare wOutBox oracle0 = some stOutBox ∧
    ratTrunc (-2 : ℚ) - (0 : Int) < 0 ∧
    (alookup stOutBox.grids "m").isSome = true := by
  refine ⟨by decide, by decide, by decide⟩

/-! ### Wall rasterization and flood-fill characterization (C1, C6) -/

theorem cellIdx_inj (width x y cx cy : Int) (hx : 0 ≤ x) (hxw : x < width)
    (hcx : 0 ≤ cx) (hcxw : cx < width) (hy : 0 ≤ y) (hcy : 0 ≤ cy)
    (h : (y * width + x).toNat = (cy * width + cx).toNat) : x = cx ∧ y = cy := by
  have hw : 0 < width := by omega
  have h0 : 0 ≤ y * width := mul_nonneg hy (by omega)
  have h0' : 0 ≤ cy * width := mul_nonneg hcy (by omega)
  have he : y * width + x = cy * width + cx := by omega
  rcases lt_trichotomy y cy with hlt | heq | hgt
  · exfalso
    have h1 : (y + 1) * width ≤ cy * width :=
      mul_le_mul_of_nonneg_right (by omega) (by omega)
    have h2 : (y + 1) * width = y * width + width := by ring
    omega
  · subst heq
    omega
  · exfalso
    have h1 : (cy + 1) * width ≤ y * width :=
      mul_le_mul_of_nonneg_right (by omega) (by omega)
    have h2 : (cy + 1) * width = cy * width + width := by ring
    omega

theorem cellIdx_lt (width height x y : Int) (hx : 0 ≤ x) (hxw : x < width)
    (hy : 0 ≤ y) (hyh : y < height) :
    0 ≤ y * width + x ∧ y * width + x < width * height := by
  have h0 : 0 ≤ y * width := mul_nonneg hy (by omega)
  have h1 : (y + 1) * width ≤ height * width :=
    mul_le_mul_of_nonneg_right (by omega) (by omega)
  have h2 : (y + 1) * width = y * width + width := by ring
  have h3 : height * width = width * height := by ring
  omega

theorem paintRowGo_get (width y : Int) :
    ∀ (n : Nat) (v : List Nat) (x : Int), 0 ≤ y → 0 ≤ x → x + n ≤ width →
      (y * width + x + n).toNat ≤ v.length →
      ∀ (cx cy : Int), 0 ≤ cx → cx < width → 0 ≤ cy →
        (paintRowGoU width y v x n).get? (cy * width + cx).toNat =
          if cy = y ∧ x ≤ cx ∧ cx < x + n then some NOT_WALKABLE
          else v.get? (cy * width + cx).toNat := by
  intro n
  induction n with
  | zero =>
      intro v x hy hx hxw hvl cx cy hcx hcxw hcy
      rw [if_neg (by omega)]
      rfl
  | succ n ih =>
      intro v x hy hx hxw hvl cx cy hcx hcxw hcy
      rw [paintRowGoU]
      have hxlt : x < width := by omega
      have hset : (v.set (y * width + x).toNat NOT_WALKABLE).length = v.length :=
        List.length_set ..
      have hrec := ih (v.set (y * width + x).toNat NOT_WALKABLE) (x + 1) hy
        (by omega) (by omega) (by rw [hset]; omega) cx cy hcx hcxw hcy
      rw [hrec]
      by_cases hc : cy = y ∧ x ≤ cx ∧ cx < x + (n + 1 : Nat)
      · rw [if_pos hc]
        by_cases hc2 : cy = y ∧ x + 1 ≤ cx ∧ cx < x + 1 + n
        · rw [if_pos hc2]
        · rw [if_neg hc2]
          have hcxx : cx = x ∧ cy = y := by
            push_cast at hc hc2
            omega
          rw [hcxx.1, hcxx.2]
          have h0 : 0 ≤ y * width := mul_nonneg hy (by omega)
          refine List.get?_set_eq_of_lt _ ?_
          push_cast at hvl
          omega
      · rw [if_neg hc]
        have hc2 : ¬(cy = y ∧ x + 1 ≤ cx ∧ cx < x + 1 + n) := by
          push_cast at hc ⊢
          omega
        rw [if_neg hc2]
        refine List.get?_set_ne _ _ ?_
        intro he
        have := cellIdx_inj width x y cx cy hx hxlt hcx hcxw hy hcy he
        push_cast at hc
        omega

theorem paintColGo_get (width x height : Int) :
    ∀ (n : Nat) (v : List Nat) (y : Int), 0 ≤ x → x < width → 0 ≤ y →
      y + n ≤ height → v.length = (width * height).toNat →
      ∀ (cx cy : Int), 0 ≤ cx → cx < width → 0 ≤ cy →
        (paintColGoU width x v y n).get? (cy * width + cx).toNat =
          if cx = x ∧ y ≤ cy ∧ cy < y + n then some NOT_WALKABLE
          else v.get? (cy * width + cx).toNat := by
  intro n
  induction n with
  | zero =>
      intro v y hx hxw hy hyh hvl cx cy hcx hcxw hcy
      rw [if_neg (by omega)]
      rfl
  | succ n ih =>
      intro v y hx hxw hy hyh hvl cx cy hcx hcxw hcy
      rw [paintColGoU]
      have hset : (v.set (y * width + x).toNat NOT_WALKABLE).length = v.length :=
        List.length_set ..
      have hrec := ih (v.set (y * width + x).toNat NOT_WALKABLE) (y + 1) hx hxw
        (by omega) (by omega) (by rw [hset, hvl]) cx cy hcx hcxw hcy
      rw [hrec]
      have hbound := cellIdx_lt width height x y hx hxw hy (by omega)
      by_cases hc : cx = x ∧ y ≤ cy ∧ cy < y + (n + 1 : Nat)
      · rw [if_pos hc]
        by_cases hc2 : cx = x ∧ y + 1 ≤ cy ∧ cy < y + 1 + n
        · rw [if_pos hc2]
        · rw [if_neg hc2]
          have hcxx : cx = x ∧ cy = y := by
            push_cast at hc hc2
            omega
          rw [hcxx.1, hcxx.2]
          refine List.get?_set_eq_of_lt _ ?_
          omega
      · rw [if_neg hc]
        have hc2 : ¬(cx = x ∧ y + 1 ≤ cy ∧ cy < y + 1 + n) := by
          push_cast at hc ⊢
          omega
        rw [if_neg hc2]
        refine List.get?_set_ne _ _ ?_
        intro he
        have := cellIdx_inj width x y cx cy hx hxw hcx hcxw hy hcy he
        push_cast at hc
        omega

theorem paintYGo_get (width height min_x l1 l2 : Int) :
    ∀ (n : Nat) (v : List Nat) (y : Int), 0 ≤ y → y + n ≤ height →
      v.length = (width * height).toNat →
      ∀ (cx cy : Int), 0 ≤ cx → cx < width → 0 ≤ cy →
        (paintYGoU width min_x l1 l2 v y n).get? (cy * width + cx).toNat =
          if y ≤ cy ∧ cy < y + n ∧ max 0 (l1 - min_x - BASE_H) ≤ cx ∧
              cx < min width (l2 - min_x + BASE_H) then some NOT_WALKABLE
          else v.get? (cy * width + cx).toNat := by
  intro n
  induction n with
  | zero =>
      intro v y hy hyh hvl cx cy hcx hcxw hcy
      rw [if_neg (by omega)]
      rfl
  | succ n ih =>
      intro v y hy hyh hvl cx cy hcx hcxw hcy
      rw [paintYGoU]
      have hxf : 0 ≤ max 0 (l1 - min_x - BASE_H) := le_max_left ..
      have hxt : min width (l2 - min_x + BASE_H) ≤ width := min_le_left ..
      have hrowlen : (paintRowGoU width y v (max 0 (l1 - min_x - BASE_H))
          (min width (l2 - min_x + BASE_H) - max 0 (l1 - min_x - BASE_H)).toNat).length
          = v.length := paintRowGo_length ..
      have hrow : (paintRowGoU width y v (max 0 (l1 - min_x - BASE_H))
          (min width (l2 - min_x + BASE_H) - max 0 (l1 - min_x - BASE_H)).toNat).get?
            (cy * width + cx).toNat =
          if cy = y ∧ max 0 (l1 - min_x - BASE_H) ≤ cx ∧
              cx < min width (l2 - min_x + BASE_H) then some NOT_WALKABLE
          else v.get? (cy * width + cx).toNat := by
        by_cases hne : max 0 (l1 - min_x - BASE_H) < min width (l2 - min_x + BASE_H)
        · have h1 := paintRowGo_get width y
            (min width (l2 - min_x + BASE_H) - max 0 (l1 - min_x - BASE_H)).toNat v
            (max 0 (l1 - min_x - BASE_H)) hy hxf (by omega)
            (by
              have hb := cellIdx_lt width height (min width (l2 - min_x + BASE_H) - 1) y
                (by omega) (by omega) hy (by omega)
              omega)
            cx cy hcx hcxw hcy
          rw [h1]
          by_cases hc : cy = y ∧ max 0 (l1 - min_x - BASE_H) ≤ cx ∧
              cx < min width (l2 - min_x + BASE_H)
          · rw [if_pos (by omega), if_pos hc]
          · rw [if_neg (by omega), if_neg hc]
        · have h0 : (min width (l2 - min_x + BASE_H) - max 0 (l1 - min_x - BASE_H)).toNat = 0 := by
            omega
          rw [h0]
          rw [if_neg (by omega)]
          rfl
      have hrec := ih (paintRowGoU width y v (max 0 (l1 - min_x - BASE_H))
          (min width (l2 - min_x + BASE_H) - max 0 (l1 - min_x - BASE_H)).toNat) (y + 1)
        (by omega) (by omega) (by rw [hrowlen, hvl]) cx cy hcx hcxw hcy
      rw [hrec, hrow]
      by_cases hcA : y + 1 ≤ cy ∧ cy < y + 1 + n ∧ max 0 (l1 - min_x - BASE_H) ≤ cx ∧
          cx < min width (l2 - min_x + BASE_H)
      · rw [if_pos hcA, if_pos (by push_cast at hcA ⊢; omega)]
      · rw [if_neg hcA]
        by_cases hcB : cy = y ∧ max 0 (l1 - min_x - BASE_H) ≤ cx ∧
            cx < min width (l2 - min_x + BASE_H)
        · rw [if_pos hcB, if_pos (by push_cast at hcB ⊢; omega)]
        · rw [if_neg hcB, if_neg (by push_cast at hcA hcB ⊢; omega)]

theorem paintXGo_get (width height min_y l1 l2 : Int) :
    ∀ (n : Nat) (v : List Nat) (x : Int), 0 ≤ x → x + n ≤ width →
      v.length = (width * height).toNat →
      ∀ (cx cy : Int), 0 ≤ cx → cx < width → 0 ≤ cy →
        (paintXGoU width height min_y l1 l2 v x n).get? (cy * width + cx).toNat =
          if x ≤ cx ∧ cx < x + n ∧ max 0 (l1 - min_y - BASE_VN) ≤ cy ∧
              cy < min height (l2 - min_y + BASE_V) then some NOT_WALKABLE
          else v.get? (cy * width + cx).toNat := by
  intro n
  induction n with
  | zero =>
      intro v x hx hxw hvl cx cy hcx hcxw hcy
      rw [if_neg (by omega)]
      rfl
  | succ n ih =>
      intro v x hx hxw hvl cx cy hcx hcxw hcy
      rw [paintXGoU]
      have hyf : 0 ≤ max 0 (l1 - min_y - BASE_VN) := le_max_left ..
      have hyt : min height (l2 - min_y + BASE_V) ≤ height := min_le_left ..
      have hcollen : (paintColGoU width x v (max 0 (l1 - min_y - BASE_VN))
          (min height (l2 - min_y + BASE_V) - max 0 (l1 - min_y - BASE_VN)).toNat).length
          = v.length := paintColGo_length ..
      have hcol : (paintColGoU width x v (max 0 (l1 - min_y - BASE_VN))
          (min height (l2 - min_y + BASE_V) - max 0 (l1 - min_y - BASE_VN)).toNat).get?
            (cy * width + cx).toNat =
          if cx = x ∧ max 0 (l1 - min_y - BASE_VN) ≤ cy ∧
              cy < min height (l2 - min_y + BASE_V) then some NOT_WALKABLE
          else v.get? (cy * width + cx).toNat := by
        by_cases hne : max 0 (l1 - min_y - BASE_VN) < min height (l2 - min_y + BASE_V)
        · have h1 := paintColGo_get width x height
            (min height (l2 - min_y + BASE_V) - max 0 (l1 - min_y - BASE_VN)).toNat v
            (max 0 (l1 - min_y - BASE_VN)) hx (by omega) hyf (by omega) hvl
            cx cy hcx hcxw hcy
          rw [h1]
          by_cases hc : cx = x ∧ max 0 (l1 - min_y - BASE_VN) ≤ cy ∧
              cy < min height (l2 - min_y + BASE_V)
          · rw [if_pos (by omega), if_pos hc]
          · rw [if_neg (by omega), if_neg hc]
        · have h0 : (min height (l2 - min_y + BASE_V) - max 0 (l1 - min_y - BASE_VN)).toNat = 0 := by
            omega
          rw [h0]
          rw [if_neg (by omega)]
          rfl
      have hrec := ih (paintColGoU width x v (max 0 (l1 - min_y - BASE_VN))
          (min height (l2 - min_y + BASE_V) - max 0 (l1 - min_y - BASE_VN)).toNat) (x + 1)
        (by omega) (by omega) (by rw [hcollen, hvl]) cx cy hcx hcxw hcy
      rw [hrec, hcol]
      by_cases hcA : x + 1 ≤ cx ∧ cx < x + 1 + n ∧ max 0 (l1 - min_y - BASE_VN) ≤ cy ∧
          cy < min height (l2 - min_y + BASE_V)
      · rw [if_pos hcA, if_pos (by push_cast at hcA ⊢; omega)]
      · rw [if_neg hcA]
        by_cases hcB : cx = x ∧ max 0 (l1 - min_y - BASE_VN) ≤ cy ∧
            cy < min height (l2 - min_y + BASE_V)
        · rw [if_pos hcB, if_pos (by push_cast at hcB ⊢; omega)]
        · rw [if_neg hcB, if_neg (by push_cast at hcA hcB ⊢; omega)]

theorem paintYLine_get (geom : GGeometry) (width height : Int) (v : List Nat)
    (line : List Int) (v' : List Nat)
    (h : paintYLineU geom width height v line = some v')
    (hvl : v.length = (width * height).toNat)
    (cx cy : Int) (hcx : 0 ≤ cx) (hcxw : cx < width) (hcy : 0 ≤ cy) :
    v'.get? (cy * width + cx).toNat =
      if coversY geom width height cx cy line then some NOT_WALKABLE
      else v.get? (cy * width + cx).toNat := by
  unfold paintYLineU at h
  match line, h with
  | l0 :: l1 :: l2 :: rest, h => ?_
  dsimp only at h
  cases h
  have hyf : 0 ≤ max 0 (l0 - geom.min_y - BASE_VN) := le_max_left ..
  have hyt : min height (l0 - geom.min_y + BASE_V) ≤ height := min_le_left ..
  have hcov : coversY geom width height cx cy (l0 :: l1 :: l2 :: rest) ↔
      (max 0 (l0 - geom.min_y - BASE_VN) ≤ cy ∧
       cy < min height (l0 - geom.min_y + BASE_V) ∧
       max 0 (l1 - geom.min_x - BASE_H) ≤ cx ∧
       cx < min width (l2 - geom.min_x + BASE_H)) := by
    unfold coversY
    simp only [List.getD_cons_zero, List.getD_cons_succ, List.length_cons]
    constructor
    · rintro ⟨_, h1, h2, h3, h4⟩
      exact ⟨h1, h2, h3, h4⟩
    · rintro ⟨h1, h2, h3, h4⟩
      exact ⟨by omega, h1, h2, h3, h4⟩
  by_cases hne : max 0 (l0 - geom.min_y - BASE_VN) <
      min height (l0 - geom.min_y + BASE_V)
  · rw [paintYGo_get width height geom.min_x l1 l2 _ v _ hyf (by omega) hvl
      cx cy hcx hcxw hcy]
    by_cases hc : coversY geom width height cx cy (l0 :: l1 :: l2 :: rest)
    · rw [if_pos hc]
      rw [hcov] at hc
      rw [if_pos (by push_cast; omega)]
    · rw [if_neg hc]
      rw [hcov] at hc
      rw [if_neg (by push_cast; omega)]
  · have h0 : (min height (l0 - geom.min_y + BASE_V) -
        max 0 (l0 - geom.min_y - BASE_VN)).toNat = 0 := by omega
    rw [h0]
    rw [if_neg (by rw [hcov]; omega)]
    rfl

theorem paintXLine_get (geom : GGeometry) (width height : Int) (v : List Nat)
    (line : List Int) (v' : List Nat)
    (h : paintXLineU geom width height v line = some v')
    (hvl : v.length = (width * height).toNat)
    (cx cy : Int) (hcx : 0 ≤ cx) (hcxw : cx < width) (hcy : 0 ≤ cy) :
    v'.get? (cy * width + cx).toNat =
      if coversX geom width height cx cy line then some NOT_WALKABLE
      else v.get? (cy * width + cx).toNat := by
  unfold paintXLineU at h
  match line, h with
  | l0 :: l1 :: l2 :: rest, h => ?_
  dsimp only at h
  cases h
  have hxf : 0 ≤ max 0 (l0 - geom.min_x - BASE_H) := le_max_left ..
  have hxt : min width (l0 - geom.min_x + BASE_H) ≤ width := min_le_left ..
  have hcov : coversX geom width height cx cy (l0 :: l1 :: l2 :: rest) ↔
      (max 0 (l0 - geom.min_x - BASE_H) ≤ cx ∧
       cx < min width (l0 - geom.min_x + BASE_H) ∧
       max 0 (l1 - geom.min_y - BASE_VN) ≤ cy ∧
       cy < min height (l2 - geom.min_y + BASE_V)) := by
    unfold coversX
    simp only [List.getD_cons_zero, List.getD_cons_succ, List.length_cons]
    constructor
    · rintro ⟨_, h1, h2, h3, h4⟩
      exact ⟨h1, h2, h3, h4⟩
    · rintro ⟨h1, h2, h3, h4⟩
      exact ⟨by omega, h1, h2, h3, h4⟩
  by_cases hne : max 0 (l0 - geom.min_x - BASE_H) <
      min width (l0 - geom.min_x + BASE_H)
  · rw [paintXGo_get width height geom.min_y l1 l2 _ v _ hxf (by omega) hvl
      cx cy hcx hcxw hcy]
    by_cases hc : coversX geom width height cx cy (l0 :: l1 :: l2 :: rest)
    · rw [if_pos hc]
      rw [hcov] at hc
      rw [if_pos (by push_cast; omega)]
    · rw [if_neg hc]
      rw [hcov] at hc
      rw [if_neg (by push_cast; omega)]
  · have h0 : (min width (l0 - geom.min_x + BASE_H) -
        max 0 (l0 - geom.min_x - BASE_H)).toNat = 0 := by omega
    rw [h0]
    rw [if_neg (by rw [hcov]; omega)]
    rfl

theorem paintFold_char (f : List Nat → List Int → Option (List Nat))
    (P : List Int → Prop) [DecidablePred P] (k : Nat)
    (hlen : ∀ v line v', f v line = some v' → v'.length = v.length)
    (hq : Nat)
    (hchar : ∀ v line v', f v line = some v' → v.length = hq →
      v'.get? k = if P line then some NOT_WALKABLE else v.get? k) :
    ∀ (ls : List (List Int)) (v v' : List Nat), v.length = hq →
      ls.foldl (paintStep f) (some v) = some v' →
      v'.get? k = if ∃ line ∈ ls, P line then some NOT_WALKABLE
        else v.get? k := by
  intro ls
  induction ls with
  | nil =>
      intro v v' hl h
      cases h
      rw [if_neg (by simp)]
  | cons l t ih =>
      intro v v' hl h
      rw [List.foldl_cons] at h
      cases hf1 : f v l with
      | none =>
          rw [show paintStep f (some v) l = none from hf1 ▸ rfl,
            foldl_none _ (fun _ => rfl)] at h
          cases h
      | some v1 =>
          rw [show paintStep f (some v) l = some v1 from hf1 ▸ rfl] at h
          have h1 := hchar v l v1 hf1 hl
          have h2 := ih v1 v' (by rw [hlen _ _ _ hf1, hl]) h
          rw [h2]
          by_cases hP : P l
          · by_cases hT : ∃ line ∈ t, P line
            · rw [if_pos hT, if_pos (by exact ⟨l, List.mem_cons_self .., hP⟩)]
            · rw [if_neg hT, h1, if_pos hP,
                if_pos (⟨l, List.mem_cons_self .., hP⟩ :
                  ∃ line ∈ l :: t, P line)]
          · by_cases hT : ∃ line ∈ t, P line
            · rw [if_pos hT, if_pos (by
                obtain ⟨q, hq2, hPq⟩ := hT
                exact ⟨q, List.mem_cons_of_mem _ hq2, hPq⟩)]
            · rw [if_neg hT, h1, if_neg hP, if_neg (by
                intro hcon
                obtain ⟨q, hq2, hPq⟩ := hcon
                rcases List.mem_cons.mp hq2 with hh | hh
                · exact hP (hh ▸ hPq)
                · exact hT ⟨q, hh, hPq⟩)]

theorem paintLines_charY (geom : GGeometry) (width height : Int)
    (v v' : List Nat) (hvl : v.length = (width * height).toNat)
    (h : paintLines (paintYLineU geom width height) geom.y_lines v = some v')
    (cx cy : Int) (hcx : 0 ≤ cx) (hcxw : cx < width) (hcy : 0 ≤ cy) :
    v'.get? (cy * width + cx).toNat =
      if ∃ line ∈ geom.y_lines.getD [], coversY geom width height cx cy line
      then some NOT_WALKABLE else v.get? (cy * width + cx).toNat := by
  unfold paintLines at h
  cases hyl : geom.y_lines with
  | none =>
      rw [hyl] at h
      cases h
      rw [if_neg (by simp [hyl])]
  | some ls =>
      rw [hyl] at h
      dsimp only at h
      have := paintFold_char (paintYLineU geom width height)
        (coversY geom width height cx cy) (cy * width + cx).toNat
        (fun v line v' hh => paintYLine_length geom width height v line v' hh)
        ((width * height).toNat)
        (fun v line v' hh hl => paintYLine_get geom width height v line v' hh hl
          cx cy hcx hcxw hcy)
        ls v v' hvl h
      rw [this]
      rfl

theorem paintLines_charX (geom : GGeometry) (width height : Int)
    (v v' : List Nat) (hvl : v.length = (width * height).toNat)
    (h : paintLines (paintXLineU geom width height) geom.x_lines v = some v')
    (cx cy : Int) (hcx : 0 ≤ cx) (hcxw : cx < width) (hcy : 0 ≤ cy) :
    v'.get? (cy * width + cx).toNat =
      if ∃ line ∈ geom.x_lines.getD [], coversX geom width height cx cy line
      then some NOT_WALKABLE else v.get? (cy * width + cx).toNat := by
  unfold paintLines at h
  cases hyl : geom.x_lines with
  | none =>
      rw [hyl] at h
      cases h
      rw [if_neg (by simp [hyl])]
  | some ls =>
      rw [hyl] at h
      dsimp only at h
      have := paintFold_char (paintXLineU geom width height)
        (coversX geom width height cx cy) (cy * width + cx).toNat
        (fun v line v' hh => paintXLine_length geom width height v line v' hh)
        ((width * height).toNat)
        (fun v line v' hh hl => paintXLine_get geom width height v line v' hh hl
          cx cy hcx hcxw hcy)
        ls v v' hvl h
      rw [this]
      rfl

theorem replicate_get (n : Nat) (a : Nat) (k : Nat) (h : k < n) :
    (List.replicate n a).get? k = some a := by
  rw [List.get?_eq_getElem?, List.getElem?_replicate, if_pos h]

theorem paint_phase_char (geom : GGeometry) (width height : Int)
    (w1 w2 : List Nat)
    (h1 : paintLines (paintYLineU geom width height) geom.y_lines
      (List.replicate (width * height).toNat UNKNOWN) = some w1)
    (h2 : paintLines (paintXLineU geom width height) geom.x_lines w1 = some w2)
    (cx cy : Int) (hcx : 0 ≤ cx) (hcxw : cx < width) (hcy : 0 ≤ cy)
    (hcyh : cy < height) :
    w2.get? (cy * width + cx).toNat =
      if (∃ line ∈ geom.y_lines.getD [], coversY geom width height cx cy line) ∨
         (∃ line ∈ geom.x_lines.getD [], coversX geom width height cx cy line)
      then some NOT_WALKABLE else some UNKNOWN := by
  have hl0 : (List.replicate (width * height).toNat UNKNOWN).length =
      (width * height).toNat := List.length_replicate ..
  have hl1 : w1.length = (width * height).toNat := by
    rw [paintLines_length (paintYLineU geom width height)
      (fun v line v' hh => paintYLine_length geom width height v line v' hh)
      geom.y_lines _ w1 h1, hl0]
  have hrep : (List.replicate (width * height).toNat UNKNOWN).get?
      (cy * width + cx).toNat = some UNKNOWN := by
    refine replicate_get _ _ _ ?_
    have := cellIdx_lt width height cx cy hcx hcxw hcy hcyh
    omega
  have hy := paintLines_charY geom width height _ w1 hl0 h1 cx cy hcx hcxw hcy
  have hx := paintLines_charX geom width height w1 w2 hl1 h2 cx cy hcx hcxw hcy
  rw [hx, hy, hrep]
  by_cases hX : ∃ line ∈ geom.x_lines.getD [], coversX geom width height cx cy line
  · rw [if_pos hX, if_pos (Or.inr hX)]
  · rw [if_neg hX]
    by_cases hY : ∃ line ∈ geom.y_lines.getD [], coversY geom width height cx cy line
    · rw [if_pos hY, if_pos (Or.inl hY)]
    · rw [if_neg hY, if_neg (by rintro (hh | hh) <;> [exact hY hh; exact hX hh])]

theorem cellsMono_refl (v : List Nat) : cellsMono v v := fun _ => Or.inl rfl

theorem cellsMono_trans (a b c : List Nat) (h1 : cellsMono a b)
    (h2 : cellsMono b c) : cellsMono a c := by
  intro i
  rcases h2 i with h | ⟨hb, hc⟩
  · rw [h]
    exact h1 i
  · rcases h1 i with h | ⟨ha, hb2⟩
    · exact Or.inr ⟨h ▸ hb, hc⟩
    · exact Or.inr ⟨ha, hc⟩

theorem cellsMono_set (v : List Nat) (i : Nat) (h : v.get? i = some UNKNOWN) :
    cellsMono v (v.set i WALKABLE) := by
  intro j
  by_cases hj : i = j
  · subst hj
    refine Or.inr ⟨h, ?_⟩
    refine List.get?_set_eq_of_lt _ ?_
    exact List.get?_eq_some.mp h |>.1
  · exact Or.inl (List.get?_set_ne _ _ hj)

theorem cellsMono_nw (v v' : List Nat) (h : cellsMono v v') (i : Nat)
    (hv : v.get? i = some NOT_WALKABLE) : v'.get? i = some NOT_WALKABLE := by
  rcases h i with hh | ⟨hu, _⟩
  · rw [hh, hv]
  · rw [hv] at hu
    cases hu

theorem cellsMono_w (v v' : List Nat) (h : cellsMono v v') (i : Nat)
    (hv : v.get? i = some WALKABLE) : v'.get? i = some WALKABLE := by
  rcases h i with hh | ⟨hu, hw⟩
  · rw [hh, hv]
  · exact hw

theorem readCell_some (v : List Nat) (idx : Int) (c : Nat)
    (h : readCellU v idx = some c) : 0 ≤ idx ∧ v.get? idx.toNat = some c := by
  unfold readCellU at h
  split at h
  · exact ⟨by omega, h⟩
  · cases h

theorem fillScanGo_mono (width height y : Int) :
    ∀ (n : Nat) (v : List Nat) (stack : List (Int × Int)) (sa sb : Bool) (x : Int)
      (v' : List Nat) (s' : List (Int × Int)),
      fillScanGoU width height y n v stack sa sb x = some (v', s') →
      cellsMono v v' := by
  intro n
  induction n with
  | zero => intro v stack sa sb x v' s' h; cases h; exact cellsMono_refl v
  | succ n ih =>
      intro v stack sa sb x v' s' h
      rw [fillScanGoU] at h
      dsimp only at h
      split at h
      · split at h
        · cases h
        · rename_i c hread
          split at h
          · rename_i hc
            split at h
            · cases h
            · split at h
              · cases h
              · have hm1 : cellsMono v (v.set (y * width + x).toNat WALKABLE) := by
                  refine cellsMono_set v _ ?_
                  have := readCell_some v (y * width + x) c hread
                  rw [hc] at this
                  exact this.2
                exact cellsMono_trans _ _ _ hm1 (ih _ _ _ _ _ _ _ h)
          · cases h
            exact cellsMono_refl v
      · cases h
        exact cellsMono_refl v

theorem fillLoop_mono (width height : Int) :
    ∀ (n : Nat) (v : List Nat) (stack : List (Int × Int)) (v' : List Nat),
      fillLoopU width height n v stack = some v' → cellsMono v v' := by
  intro n
  induction n with
  | zero =>
      intro v stack v' h
      cases stack with
      | nil => cases h; exact cellsMono_refl v
      | cons p rest => cases h
  | succ n ih =>
      intro v stack v' h
      cases stack with
      | nil => cases h; exact cellsMono_refl v
      | cons p rest =>
          obtain ⟨y, x0⟩ := p
          rw [fillLoopU] at h
          cases hL : fillLeftU v width y x0 with
          | none => rw [hL] at h; cases h
          | some xL =>
              rw [hL] at h
              dsimp only at h
              cases hS : fillScanU width height y v rest false false (xL + 1) with
              | none => rw [hS] at h; cases h
              | some pr =>
                  obtain ⟨v1, stack1⟩ := pr
                  rw [hS] at h
                  dsimp only at h
                  exact cellsMono_trans _ _ _
                    (fillScanGo_mono _ _ _ _ _ _ _ _ _ _ _ hS) (ih _ _ _ h)

theorem fillFromSpawn_mono (geometry : GGeometry) (width height : Int)
    (v : List Nat) (spawn : GSpawn) (v' : List Nat)
    (h : fillFromSpawnU geometry width height v spawn = some v') :
    cellsMono v v' := by
  unfold fillFromSpawnU at h
  dsimp only at h
  split at h
  · cases h
  · split at h
    · cases h
      exact cellsMono_refl v
    · exact fillLoop_mono _ _ _ _ _ _ h

theorem fillFold_mono (geometry : GGeometry) (width height : Int) :
    ∀ (l : List GSpawn) (v v' : List Nat),
      l.foldl (fillStepU geometry width height) (some v) = some v' →
      cellsMono v v' := by
  intro l
  induction l with
  | nil => intro v v' h; cases h; exact cellsMono_refl v
  | cons s t ih =>
      intro v v' h
      rw [List.foldl_cons] at h
      cases hd : fillFromSpawnU geometry width height v s with
      | none =>
          rw [show fillStepU geometry width height (some v) s = none from by
            unfold fillStepU; dsimp only; rw [hd], foldl_none _ (fun _ => rfl)] at h
          cases h
      | some v1 =>
          rw [show fillStepU geometry width height (some v) s = some v1 from by
            unfold fillStepU; dsimp only; rw [hd]] at h
          exact cellsMono_trans _ _ _ (fillFromSpawn_mono _ _ _ _ _ _ hd) (ih _ _ h)

theorem fillLeftGo_spec (v : List Nat) (width y : Int) :
    ∀ (n : Nat) (x : Int), (x + 1).toNat < n → -1 ≤ x →
      (∀ t, 0 ≤ t → t ≤ x → ∃ c, readCellU v (y * width + t) = some c) →
      ∃ r, fillLeftGoU v width y n x = some r ∧ -1 ≤ r ∧ r ≤ x ∧
        (∀ t, r < t → t ≤ x → readCellU v (y * width + t) = some UNKNOWN) ∧
        (0 ≤ r → readCellU v (y * width + r) ≠ some UNKNOWN) := by
  intro n
  induction n with
  | zero => intro x hn; omega
  | succ n ih =>
      intro x hn hx1 hread
      rw [fillLeftGoU]
      by_cases hx : 0 ≤ x
      · rw [if_pos hx]
        obtain ⟨c, hc⟩ := hread x hx le_rfl
        rw [hc]
        dsimp only
        by_cases hcu : c = UNKNOWN
        · rw [if_pos hcu]
          obtain ⟨r, hr, hr1, hr2, hr3, hr4⟩ := ih (x - 1) (by omega) (by omega)
            (fun t ht1 ht2 => hread t ht1 (by omega))
          refine ⟨r, hr, hr1, by omega, ?_, hr4⟩
          intro t ht1 ht2
          by_cases ht3 : t ≤ x - 1
          · exact hr3 t ht1 ht3
          · have : t = x := by omega
            rw [this, hc, hcu]
        · rw [if_neg hcu]
          refine ⟨x, rfl, hx1, le_rfl, by omega, ?_⟩
          intro _
          rw [hc]
          intro hcon
          exact hcu (Option.some.inj hcon)
      · rw [if_neg hx]
        exact ⟨x, rfl, hx1, le_rfl, by omega, by omega⟩

theorem readCell_in_range (v : List Nat) (idx : Int) (h0 : 0 ≤ idx)
    (h1 : idx.toNat < v.length) : ∃ c, readCellU v idx = some c := by
  unfold readCellU
  rw [if_pos h0]
  cases hc : v.get? idx.toNat with
  | none => exact absurd (List.get?_eq_none.mp hc) (by omega)
  | some c => exact ⟨c, rfl⟩

theorem fillScanGo_some (width height y : Int) (hy : 0 ≤ y) (hyh : y < height)
    (hh : 0 ≤ height) :
    ∀ (n : Nat) (x : Int) (v : List Nat) (stack : List (Int × Int)) (sa sb : Bool),
      (width - x).toNat < n → 0 ≤ x →
      v.length = (width * height).toNat →
      ∃ v' s', fillScanGoU width height y n v stack sa sb x = some (v', s') := by
  intro n
  induction n with
  | zero => intro x v stack sa sb hn; omega
  | succ n ih =>
      intro x v stack sa sb hn hx hvl
      rw [fillScanGoU]
      dsimp only
      by_cases hxw : x < width
      · rw [if_pos hxw]
        have hidx := cellIdx_lt width height x y hx hxw hy hyh
        obtain ⟨c, hc⟩ := readCell_in_range v (y * width + x) (by omega) (by omega)
        rw [hc]
        dsimp only
        by_cases hcu : c = UNKNOWN
        · rw [if_pos hcu]
          have hvl1 : (v.set (y * width + x).toNat WALKABLE).length = v.length :=
            List.length_set ..
          have hw0 : 0 < width := by omega
          obtain ⟨sa1, stack1, ha⟩ : ∃ sa1 stack1,
              (if 0 < y then
                match readCellU (v.set (y * width + x).toNat WALKABLE)
                    ((y - 1) * width + x) with
                | none => none
                | some cu =>
                    if sa = false ∧ cu = UNKNOWN then
                      some (true, (y - 1, x) :: stack)
                    else if sa = true ∧ cu ≠ UNKNOWN then some (false, stack)
                    else some (sa, stack)
              else some (sa, stack)) = some (sa1, stack1) := by
            by_cases hy0 : 0 < y
            · rw [if_pos hy0]
              have hup : (y - 1) * width + x < y * width + x := by
                have : (y - 1) * width = y * width - width := by ring
                omega
              have hup0 : 0 ≤ (y - 1) * width + x := by
                have := mul_nonneg (by omega : (0:Int) ≤ y - 1) (by omega : (0:Int) ≤ width)
                omega
              obtain ⟨cu, hcu2⟩ := readCell_in_range
                (v.set (y * width + x).toNat WALKABLE) ((y - 1) * width + x)
                hup0 (by rw [hvl1]; omega)
              rw [hcu2]
              dsimp only
              split
              · exact ⟨_, _, rfl⟩
              · split
                · exact ⟨_, _, rfl⟩
                · exact ⟨_, _, rfl⟩
            · rw [if_neg hy0]
              exact ⟨_, _, rfl⟩
          rw [ha]
          dsimp only
          obtain ⟨sb1, stack2, hb⟩ : ∃ sb1 stack2,
              (if y < height - 1 then
                match readCellU (v.set (y * width + x).toNat WALKABLE)
                    ((y + 1) * width + x) with
                | none => none
                | some cb =>
                    if sb = false ∧ cb = UNKNOWN then
                      some (true, (y + 1, x) :: stack1)
                    else if sb = true ∧ cb ≠ UNKNOWN then some (false, stack1)
                    else some (sb, stack1)
              else some (sb, stack1)) = some (sb1, stack2) := by
            by_cases hy1 : y < height - 1
            · rw [if_pos hy1]
              have hdn := cellIdx_lt width height x (y + 1) hx hxw (by omega) (by omega)
              obtain ⟨cb, hcb⟩ := readCell_in_range
                (v.set (y * width + x).toNat WALKABLE) ((y + 1) * width + x)
                (by omega) (by rw [hvl1]; omega)
              rw [hcb]
              dsimp only
              split
              · exact ⟨_, _, rfl⟩
              · split
                · exact ⟨_, _, rfl⟩
                · exact ⟨_, _, rfl⟩
            · rw [if_neg hy1]
              exact ⟨_, _, rfl⟩
          rw [hb]
          dsimp only
          exact ih (x + 1) _ stack2 sa1 sb1 (by omega) (by omega) (by rw [hvl1, hvl])
        · rw [if_neg hcu]
          exact ⟨v, stack, rfl⟩
      · rw [if_neg hxw]
        exact ⟨v, stack, rfl⟩

theorem fillScanGo_seed (width height y : Int) (hy : 0 ≤ y) (hyh : y < height)
    (hh : 0 ≤ height) (xT : Int) (hxT : xT < width) :
    ∀ (n : Nat) (x : Int) (v : List Nat) (stack : List (Int × Int)) (sa sb : Bool),
      (width - x).toNat < n → 0 ≤ x → x ≤ xT →
      v.length = (width * height).toNat →
      (∀ t, x ≤ t → t ≤ xT → v.get? (y * width + t).toNat = some UNKNOWN) →
      ∃ v' s', fillScanGoU width height y n v stack sa sb x = some (v', s') ∧
        v'.get? (y * width + xT).toNat = some WALKABLE := by
  intro n
  induction n with
  | zero => intro x v stack sa sb hn; omega
  | succ n ih =>
      intro x v stack sa sb hn hx hxxT hvl hcells
      rw [fillScanGoU]
      dsimp only
      have hxw : x < width := by omega
      rw [if_pos hxw]
      have hidx := cellIdx_lt width height x y hx hxw hy hyh
      have hread : readCellU v (y * width + x) = some UNKNOWN := by
        unfold readCellU
        rw [if_pos (by omega)]
        exact hcells x le_rfl hxxT
      rw [hread]
      dsimp only
      rw [if_pos rfl]
      have hvl1 : (v.set (y * width + x).toNat WALKABLE).length = v.length :=
        List.length_set ..
      have hw0 : 0 < width := by omega
      have hsetW : (v.set (y * width + x).toNat WALKABLE).get?
          (y * width + x).toNat = some WALKABLE := by
        refine List.get?_set_eq_of_lt _ ?_
        omega
      have hsetKeep : ∀ t, x < t → t ≤ xT →
          (v.set (y * width + x).toNat WALKABLE).get? (y * width + t).toNat =
            some UNKNOWN := by
        intro t ht1 ht2
        rw [List.get?_set_ne _ _ (by omega), hcells t (by omega) ht2]
      obtain ⟨sa1, stack1, ha⟩ : ∃ sa1 stack1,
          (if 0 < y then
            match readCellU (v.set (y * width + x).toNat WALKABLE)
                ((y - 1) * width + x) with
            | none => none
            | some cu =>
                if sa = false ∧ cu = UNKNOWN then
                  some (true, (y - 1, x) :: stack)
                else if sa = true ∧ cu ≠ UNKNOWN then some (false, stack)
                else some (sa, stack)
          else some (sa, stack)) = some (sa1, stack1) := by
        by_cases hy0 : 0 < y
        · rw [if_pos hy0]
          have hup : (y - 1) * width + x < y * width + x := by
            have : (y - 1) * width = y * width - width := by ring
            omega
          have hup0 : 0 ≤ (y - 1) * width + x := by
            have := mul_nonneg (by omega : (0:Int) ≤ y - 1) (by omega : (0:Int) ≤ width)
            omega
          obtain ⟨cu, hcu2⟩ := readCell_in_range
            (v.set (y * width + x).toNat WALKABLE) ((y - 1) * width + x)
            hup0 (by rw [hvl1]; omega)
          rw [hcu2]
          dsimp only
          split
          · exact ⟨_, _, rfl⟩
          · split
            · exact ⟨_, _, rfl⟩
            · exact ⟨_, _, rfl⟩
        · rw [if_neg hy0]
          exact ⟨_, _, rfl⟩
      rw [ha]
      dsimp only
      obtain ⟨sb1, stack2, hb⟩ : ∃ sb1 stack2,
          (if y < height - 1 then
            match readCellU (v.set (y * width + x).toNat WALKABLE)
                ((y + 1) * width + x) with
            | none => none
            | some cb =>
                if sb = false ∧ cb = UNKNOWN then
                  some (true, (y + 1, x) :: stack1)
                else if sb = true ∧ cb ≠ UNKNOWN then some (false, stack1)
                else some (sb, stack1)
          else some (sb, stack1)) = some (sb1, stack2) := by
        by_cases hy1 : y < height - 1
        · rw [if_pos hy1]
          have hdn := cellIdx_lt width height x (y + 1) hx hxw (by omega) (by omega)
          obtain ⟨cb, hcb⟩ := readCell_in_range
            (v.set (y * width + x).toNat WALKABLE) ((y + 1) * width + x)
            (by omega) (by rw [hvl1]; omega)
          rw [hcb]
          dsimp only
          split
          · exact ⟨_, _, rfl⟩
          · split
            · exact ⟨_, _, rfl⟩
            · exact ⟨_, _, rfl⟩
        · rw [if_neg hy1]
          exact ⟨_, _, rfl⟩
      rw [hb]
      dsimp only
      by_cases hend : x = xT
      · obtain ⟨v', s', hrec⟩ := fillScanGo_some width height y hy hyh hh n (x + 1)
          (v.set (y * width + x).toNat WALKABLE) stack2 sa1 sb1 (by omega)
          (by omega) (by rw [hvl1, hvl])
        refine ⟨v', s', hrec, ?_⟩
        have hm := fillScanGo_mono width height y n _ _ _ _ _ _ _ hrec
        rw [← hend]
        exact cellsMono_w _ _ hm _ hsetW
      · obtain ⟨v', s', hrec, hW⟩ := ih (x + 1)
          (v.set (y * width + x).toNat WALKABLE) stack2 sa1 sb1 (by omega)
          (by omega) (by omega) (by rw [hvl1, hvl])
          (fun t ht1 ht2 => hsetKeep t (by omega) ht2)
        exact ⟨v', s', hrec, hW⟩

theorem fillFromSpawn_seed (geom : GGeometry) (width height : Int)
    (v : List Nat) (spawn : GSpawn) (v' : List Nat)
    (h : fillFromSpawnU geom width height v spawn = some v')
    (hvl : v.length = (width * height).toNat)
    (hcx : 0 ≤ ratTrunc spawn.x - geom.min_x)
    (hcxw : ratTrunc spawn.x - geom.min_x < width)
    (hcy : 0 ≤ ratTrunc spawn.y - geom.min_y)
    (hcyh : ratTrunc spawn.y - geom.min_y < height)
    (hcell : v.get? ((ratTrunc spawn.y - geom.min_y) * width +
        (ratTrunc spawn.x - geom.min_x)).toNat = some UNKNOWN ∨
      v.get? ((ratTrunc spawn.y - geom.min_y) * width +
        (ratTrunc spawn.x - geom.min_x)).toNat = some WALKABLE) :
    v'.get? ((ratTrunc spawn.y - geom.min_y) * width +
      (ratTrunc spawn.x - geom.min_x)).toNat = some WALKABLE := by
  set cx := ratTrunc spawn.x - geom.min_x with hcxdef
  set cy := ratTrunc spawn.y - geom.min_y with hcydef
  have hidx := cellIdx_lt width height cx cy hcx hcxw hcy hcyh
  have hh : 0 ≤ height := by omega
  have hw0 : 0 < width := by omega
  unfold fillFromSpawnU at h
  rw [← hcxdef, ← hcydef] at h
  dsimp only at h
  have hreadv : readCellU v (cy * width + cx) =
      some (if v.get? (cy * width + cx).toNat = some WALKABLE then WALKABLE
        else UNKNOWN) := by
    unfold readCellU
    rw [if_pos (by omega)]
    rcases hcell with hc | hc <;> rw [hc] <;> simp [hc, UNKNOWN, WALKABLE]
  rw [hreadv] at h
  dsimp only at h
  by_cases hcw : v.get? (cy * width + cx).toNat = some WALKABLE
  · rw [if_pos hcw] at h
    rw [if_pos (by rfl)] at h
    cases h
    exact hcw
  · rw [if_neg hcw] at h
    rw [if_neg (by decide)] at h
    have hcu : v.get? (cy * width + cx).toNat = some UNKNOWN := by
      rcases hcell with hc | hc
      · exact hc
      · exact absurd hc hcw
    have hunf : fillLoopU width height (2 * v.length + 2) v [(cy, cx)] =
        (match fillLeftU v width cy cx with
         | none => none
         | some xL =>
             match fillScanU width height cy v [] false false (xL + 1) with
             | none => none
             | some (v1, stack1) =>
                 fillLoopU width height (2 * v.length + 1) v1 stack1) := rfl
    rw [hunf] at h
    obtain ⟨r, hr, hr1, hr2, hr3, hr4⟩ := fillLeftGo_spec v width cy
      ((cx + 1).toNat + 1) cx (by omega) (by omega)
      (fun t ht1 ht2 => readCell_in_range v (cy * width + t) (by
          have := mul_nonneg hcy (by omega : (0:Int) ≤ width)
          omega)
        (by
          have := cellIdx_lt width height t cy ht1 (by omega) hcy hcyh
          omega))
    have hLeq : fillLeftU v width cy cx = some r := hr
    have hrcx : r < cx := by
      rcases lt_or_eq_of_le hr2 with hlt | heq
      · exact hlt
      · exfalso
        refine hr4 (by omega) ?_
        rw [heq]
        unfold readCellU
        rw [if_pos (by omega)]
        exact hcu
    obtain ⟨v1, s1, hS, hW⟩ := fillScanGo_seed width height cy hcy hcyh hh cx
      hcxw ((width - (r + 1)).toNat + 1) (r + 1) v [] false false (by omega)
      (by omega) (by omega) hvl
      (fun t ht1 ht2 => by
        have := hr3 t (by omega) ht2
        exact (readCell_some _ _ _ this).2)
    have hSeq : fillScanU width height cy v [] false false (r + 1) = some (v1, s1) := hS
    rw [hLeq] at h
    dsimp only at h
    rw [hSeq] at h
    dsimp only at h
    exact cellsMono_w _ _ (fillLoop_mono _ _ _ _ _ _ h) _ hW

theorem fillFold_seed (geom : GGeometry) (width height : Int) (spawn : GSpawn)
    (hcx : 0 ≤ ratTrunc spawn.x - geom.min_x)
    (hcxw : ratTrunc spawn.x - geom.min_x < width)
    (hcy : 0 ≤ ratTrunc spawn.y - geom.min_y)
    (hcyh : ratTrunc spawn.y - geom.min_y < height) :
    ∀ (l : List GSpawn) (v v' : List Nat), spawn ∈ l →
      v.length = (width * height).toNat →
      (v.get? ((ratTrunc spawn.y - geom.min_y) * width +
          (ratTrunc spawn.x - geom.min_x)).toNat = some UNKNOWN ∨
       v.get? ((ratTrunc spawn.y - geom.min_y) * width +
          (ratTrunc spawn.x - geom.min_x)).toNat = some WALKABLE) →
      l.foldl (fillStepU geom width height) (some v) = some v' →
      v'.get? ((ratTrunc spawn.y - geom.min_y) * width +
        (ratTrunc spawn.x - geom.min_x)).toNat = some WALKABLE := by
  intro l
  induction l with
  | nil => intro v v' hm; cases hm
  | cons s t ih =>
      intro v v' hm hvl hcell h
      rw [List.foldl_cons] at h
      cases hd : fillFromSpawnU geom width height v s with
      | none =>
          rw [show fillStepU geom width height (some v) s = none from by
            unfold fillStepU; dsimp only; rw [hd], foldl_none _ (fun _ => rfl)] at h
          cases h
      | some v1 =>
          rw [show fillStepU geom width height (some v) s = some v1 from by
            unfold fillStepU; dsimp only; rw [hd]] at h
          rcases List.mem_cons.mp hm with hs | hs
          · subst hs
            have hW := fillFromSpawn_seed geom width height v spawn v1 hd hvl
              hcx hcxw hcy hcyh hcell
            exact cellsMono_w _ _ (fillFold_mono geom width height t v1 v' h) _ hW
          · have hmono := fillFromSpawn_mono geom width height v s v1 hd
            refine ih v1 v' hs ?_ ?_ h
            · rw [fillFromSpawn_length _ _ _ _ _ _ hd, hvl]
            · rcases hcell with hc | hc
              · rcases hmono _ with hh2 | ⟨_, hh2⟩
                · exact Or.inl (by rw [hh2, hc])
                · exact Or.inr hh2
              · exact Or.inr (cellsMono_w _ _ hmono _ hc)

theorem prepare_walkable_vec_seed (mp : GMap) (geom : GGeometry)
    (width height : Int) (walkable : List Nat) (spawn : GSpawn)
    (h : prepare_walkable_vecU mp geom width height = some walkable)
    (hs : spawn ∈ mp.spawns)
    (hcx : 0 ≤ ratTrunc spawn.x - geom.min_x)
    (hcxw : ratTrunc spawn.x - geom.min_x < width)
    (hcy : 0 ≤ ratTrunc spawn.y - geom.min_y)
    (hcyh : ratTrunc spawn.y - geom.min_y < height)
    (hnc : ¬((∃ line ∈ geom.y_lines.getD [], coversY geom width height
        (ratTrunc spawn.x - geom.min_x) (ratTrunc spawn.y - geom.min_y) line) ∨
      (∃ line ∈ geom.x_lines.getD [], coversX geom width height
        (ratTrunc spawn.x - geom.min_x) (ratTrunc spawn.y - geom.min_y) line))) :
    walkable.get? ((ratTrunc spawn.y - geom.min_y) * width +
      (ratTrunc spawn.x - geom.min_x)).toNat = some WALKABLE := by
  unfold prepare_walkable_vecU at h
  dsimp only at h
  split at h
  · cases h
  · rename_i w1 h1
    split at h
    · cases h
    · rename_i w2 h2
      have hchar := paint_phase_char geom width height w1 w2 h1 h2 _ _
        hcx hcxw hcy hcyh
      rw [if_neg hnc] at hchar
      have hl2 : w2.length = (width * height).toNat := by
        rw [paintLines_length (paintXLineU geom width height)
          (fun v line v' hh => paintXLine_length geom width height v line v' hh)
          geom.x_lines w1 w2 h2]
        rw [paintLines_length (paintYLineU geom width height)
          (fun v line v' hh => paintYLine_length geom width height v line v' hh)
          geom.y_lines _ w1 h1]
        exact List.length_replicate ..
      exact fillFold_seed geom width height spawn hcx hcxw hcy hcyh
        mp.spawns w2 walkable hs hl2 (Or.inl hchar) h

theorem prepare_walkable_vec_wall (mp : GMap) (geom : GGeometry)
    (width height : Int) (walkable : List Nat) (cx cy : Int)
    (h : prepare_walkable_vecU mp geom width height = some walkable)
    (hcx : 0 ≤ cx) (hcxw : cx < width) (hcy : 0 ≤ cy) (hcyh : cy < height)
    (hc : (∃ line ∈ geom.y_lines.getD [], coversY geom width height cx cy line) ∨
      (∃ line ∈ geom.x_lines.getD [], coversX geom width height cx cy line)) :
    walkable.get? (cy * width + cx).toNat = some NOT_WALKABLE := by
  unfold prepare_walkable_vecU at h
  dsimp only at h
  split at h
  · cases h
  · rename_i w1 h1
    split at h
    · cases h
    · rename_i w2 h2
      have hchar := paint_phase_char geom width height w1 w2 h1 h2 cx cy
        hcx hcxw hcy hcyh
      rw [if_pos hc] at hchar
      exact cellsMono_nw _ _ (fillFold_mono geom width height mp.spawns w2
        walkable h) _ hchar

theorem prepare_map_gridContent (g : GData) (oracle : TriOracle) (st : PState)
    (name : String) (mp : GMap) (geom : GGeometry)
    (hmp : alookup g.maps name = some mp)
    (hgeo : alookup g.geometry name = some geom)
    (st' : PState) (h : prepare_map g oracle st name = some st') :
    ∃ walkable, prepare_walkable_vec mp geom (wrap32 (geom.max_x - geom.min_x))
        (wrap32 (geom.max_y - geom.min_y)) = some walkable ∧
      alookup st'.grids name = some ⟨wrap32 (geom.max_x - geom.min_x), geom.min_x,
        geom.min_y, walkable.map (fun state => decide (state = WALKABLE))⟩ := by
  obtain ⟨gr, hgr⟩ := prepare_map_gridsShape g oracle st name st' h
  unfold prepare_map at h
  rw [hmp] at h
  try dsimp only at h
  rw [hgeo] at h
  try dsimp only at h
  split at h
  · cases h
  · rename_i walkable hw
    refine ⟨walkable, hw, ?_⟩
    try dsimp only at h
    split at h
    · cases h
    · rename_i npcs hnpcs
      split at h
      · cases h
      · rename_i vs st4 hfold
        cases h
        have h3 := foldlO_pres _ (fun _ => rfl)
          (fun (a b : List Node × PState) => b.2.grids = a.2.grids) (fun _ => rfl)
          (fun a b c h1 h2 => Eq.trans h2 h1)
          (fun a b c hstep => by
            obtain ⟨va, sa⟩ := a
            exact npcStep_grids _ _ _ _ _ _ _ _ hstep)
          npcs _ (vs, st4) hfold
        dsimp only at h3
        rw [spawnFold_grids, cornerFold_grids, get_or_create_map_id_grids] at h3
        have h4 : ((oracle.edges vs).foldl (walkEdgeStep name) st4).grids =
            st4.grids := by
          refine foldl_pres (walkEdgeStep name) (fun a => a.grids = st4.grids) ?_ _ _ rfl
          intro s a hs
          rw [walkEdgeStep_grids, hs]
        rw [h4, h3]
        simp [alookup]

theorem prepareFold_preserves (g : GData) (oracle : TriOracle) (name : String) :
    ∀ (t : List (String × GMap)) (st1 st : PState), (∀ q ∈ t, q.1 ≠ name) →
      t.foldl (prepareStep g oracle) (some st1) = some st →
      alookup st.grids name = alookup st1.grids name := by
  intro t
  induction t with
  | nil => intro st1 st _ h; cases h; rfl
  | cons p r ih =>
      intro st1 st hq h
      rw [List.foldl_cons] at h
      have hstep : prepareStep g oracle (some st1) p =
          if p.2.ignore.isSome = true then some st1
          else prepare_map g oracle st1 p.1 := rfl
      by_cases hig : p.2.ignore.isSome
      · rw [hstep, if_pos hig] at h
        exact ih st1 st (fun q hq2 => hq q (List.mem_cons_of_mem p hq2)) h
      · rw [hstep, if_neg hig] at h
        cases hpm : prepare_map g oracle st1 p.1 with
        | none =>
            rw [hpm, foldl_none _ (fun _ => rfl)] at h
            cases h
        | some st2 =>
            rw [hpm] at h
            obtain ⟨gr, hgr⟩ := prepare_map_gridsShape g oracle st1 p.1 st2 hpm
            rw [ih st2 st (fun q hq2 => hq q (List.mem_cons_of_mem p hq2)) h,
              hgr, alookup_cons_ne st1.grids (p.1, gr) name
                (hq p (List.mem_cons_self ..))]

theorem prepare_found (g : GData) (oracle : TriOracle) (name : String)
    (mp : GMap) (hig : mp.ignore = none) :
    ∀ (l : List (String × GMap)) (st0 : PState), (name, mp) ∈ l →
      (l.map Prod.fst).Nodup →
      ∀ st, l.foldl (prepareStep g oracle) (some st0) = some st →
        ∃ st1 st2, prepare_map g oracle st1 name = some st2 ∧
          alookup st.grids name = alookup st2.grids name := by
  intro l
  induction l with
  | nil => intro st0 hm; cases hm
  | cons p t ih =>
      intro st0 hm hnd st h
      simp only [List.map_cons, List.nodup_cons] at hnd
      rw [List.foldl_cons] at h
      have hstep : prepareStep g oracle (some st0) p =
          if p.2.ignore.isSome = true then some st0
          else prepare_map g oracle st0 p.1 := rfl
      rcases List.mem_cons.mp hm with hp | hp
      · have hig2 : p.2.ignore.isSome = false := by
          rw [← hp]
          simp [hig]
        rw [hstep, hig2] at h
        simp only [Bool.false_eq_true, if_false] at h
        cases hpm : prepare_map g oracle st0 p.1 with
        | none =>
            rw [hpm, foldl_none _ (fun _ => rfl)] at h
            cases h
        | some st2 =>
            rw [hpm] at h
            refine ⟨st0, st2, by rw [← hp] at hpm; exact hpm, ?_⟩
            refine prepareFold_preserves g oracle name t st2 st ?_ h
            intro q hq2 hqe
            refine hnd.1 ?_
            rw [← hp]
            dsimp only
            rw [← hqe]
            exact List.mem_map.mpr ⟨q, hq2, rfl⟩
      · have hp1 : p.1 ≠ name := by
          intro he
          refine hnd.1 ?_
          rw [he]
          exact List.mem_map.mpr ⟨(name, mp), hp, rfl⟩
        by_cases hig2 : p.2.ignore.isSome
        · rw [hstep, if_pos hig2] at h
          exact ih st0 hp hnd.2 st h
        · rw [hstep, if_neg hig2] at h
          cases hpm : prepare_map g oracle st0 p.1 with
          | none =>
              rw [hpm, foldl_none _ (fun _ => rfl)] at h
              cases h
          | some st1 =>
              rw [hpm] at h
              exact ih st1 hp hnd.2 st h

theorem envelope_iff_covers (geom : GGeometry) (X Y : Int)
    (hbx : geom.min_x ≤ X) (hbx2 : X < geom.max_x)
    (hby : geom.min_y ≤ Y) (hby2 : Y < geom.max_y) :
    inWallEnvelope geom X Y ↔
      ((∃ line ∈ geom.y_lines.getD [], coversY geom (geom.max_x - geom.min_x)
          (geom.max_y - geom.min_y) (X - geom.min_x) (Y - geom.min_y) line) ∨
       (∃ line ∈ geom.x_lines.getD [], coversX geom (geom.max_x - geom.min_x)
          (geom.max_y - geom.min_y) (X - geom.min_x) (Y - geom.min_y) line)) := by
  unfold inWallEnvelope coversY coversX
  constructor
  · rintro ⟨-, hl | hl⟩
    · obtain ⟨l, hlm, h3, h4, h5, h6, h7⟩ := hl
      exact Or.inl ⟨l, hlm, h3, by omega, by omega, by omega, by omega⟩
    · obtain ⟨l, hlm, h3, h4, h5, h6, h7⟩ := hl
      exact Or.inr ⟨l, hlm, h3, by omega, by omega, by omega, by omega⟩
  · rintro (hl | hl)
    · obtain ⟨l, hlm, h3, h4, h5, h6, h7⟩ := hl
      exact ⟨⟨hbx, hbx2, hby, hby2⟩,
        Or.inl ⟨l, hlm, h3, by omega, by omega, by omega, by omega⟩⟩
    · obtain ⟨l, hlm, h3, h4, h5, h6, h7⟩ := hl
      exact ⟨⟨hbx, hbx2, hby, hby2⟩,
        Or.inr ⟨l, hlm, h3, by omega, by omega, by omega, by omega⟩⟩

theorem gridBit_of_cell (walkable : List Nat) (grid : Grid)
    (hgrid : grid = ⟨grid.width, grid.min_x, grid.min_y,
      walkable.map (fun state => decide (state = WALKABLE))⟩)
    (k : Nat) (c : Nat) (hc : walkable.get? k = some c) :
    grid.data.get? k = some (decide (c = WALKABLE)) := by
  conv_lhs => rw [hgrid]
  rw [List.get?_map, hc]
  rfl

/-- C1 counterexample: in `wSpawnWall` the only spawn (2,4) sits inside
the padded envelope of the wall `[4, 0, 8]`; preparation succeeds, yet the
spawn's truncated cell is NOT walkable, refuting the unconditional claim. -/
theorem c1_counterexample :
    prepare wSpawnWall oracle0 = some stSpawnWall ∧
    is_walkable stSpawnWall.grids "m" (ratTrunc (2 : ℚ)) (ratTrunc (4 : ℚ)) = false := by
  refine ⟨by decide, by decide⟩

/-! ### C10: missing `npcs` field panics -/

/-- C10: on a valid world whose single non-ignored map lacks the optional
`npcs` field, `prepare` fails (the source unwraps `map.npcs`, modelled by
`none`) instead of treating the map as having no NPCs. -/
theorem c10_missingNpcsPanics : prepare wNoNpcs oracle0 = none := by decide

theorem alookup_mem {α β : Type} [DecidableEq α] :
    ∀ (l : List (α × β)) (k : α) (b : β), alookup l k = some b → (k, b) ∈ l := by
  intro l
  induction l with
  | nil => intro k b h; cases h
  | cons p t ih =>
      intro k b h
      obtain ⟨a, c⟩ := p
      unfold alookup at h
      split at h
      · cases h
        rename_i he
        rw [he]
        exact List.mem_cons_self ..
      · exact List.mem_cons_of_mem _ (ih k b h)

theorem get_or_add_node_inv (st : PState) (n : Node) (h : NodesOK st) :
    NodesOK (get_or_add_node st n).1 ∧
    (get_or_add_node st n).1.nodes.get? (get_or_add_node st n).2 = some n ∧
    (get_or_add_node st n).1.edges = st.edges := by
  unfold get_or_add_node
  cases ha : alookup st.node_map n with
  | some i =>
      exact ⟨h, h _ (alookup_mem st.node_map n i ha), rfl⟩
  | none =>
      refine ⟨?_, ?_, rfl⟩
      · intro p hp
        rcases List.mem_cons.mp hp with hp1 | hp1
        · rw [hp1]
          exact List.get?_concat_length ..
        · have := h p hp1
          have hlt : p.2 < st.nodes.length := (List.get?_eq_some.mp this).1
          dsimp only
          rw [List.get?_append hlt]
          exact this
      · exact List.get?_concat_length ..

theorem get_or_add_node_keep (st : PState) (n : Node) (i : Nat) (m : Node)
    (h : st.nodes.get? i = some m) :
    (get_or_add_node st n).1.nodes.get? i = some m := by
  unfold get_or_add_node
  cases ha : alookup st.node_map n with
  | some j => exact h
  | none =>
      dsimp only
      rw [List.get?_append (List.get?_eq_some.mp h).1]
      exact h

theorem get_or_add_node_ne (st : PState) (n1 n2 : Node) (h : NodesOK st)
    (hne : n1 ≠ n2) :
    (get_or_add_node (get_or_add_node st n1).1 n2).2 ≠
      (get_or_add_node st n1).2 := by
  obtain ⟨h1, h2, h3⟩ := get_or_add_node_inv st n1 h
  obtain ⟨h4, h5, h6⟩ := get_or_add_node_inv (get_or_add_node st n1).1 n2 h1
  intro heq
  have hkeep := get_or_add_node_keep (get_or_add_node st n1).1 n2
    (get_or_add_node st n1).2 n1 h2
  rw [heq] at h5
  rw [h5] at hkeep
  exact hne (Option.some.inj hkeep).symm


theorem edgesOKl_append_nonwalk (l : List GEdge) (e : GEdge)
    (h : EdgesOKl l) (hm : e.method ≠ WALK) : EdgesOKl (l ++ [e]) := by
  intro e' he' hw
  rcases List.mem_append.mp he' with h1 | h1
  · obtain ⟨hne, e2, hm2, h2⟩ := h e' h1 hw
    exact ⟨hne, e2, List.mem_append_left _ hm2, h2⟩
  · rw [List.mem_singleton.mp h1] at hw
    exact absurd hw hm

theorem edgesOKl_append_pair (l : List GEdge) (u v : Nat)
    (h : EdgesOKl l) (huv : u ≠ v) :
    EdgesOKl (l ++ [⟨u, v, WALK⟩, ⟨v, u, WALK⟩]) := by
  intro e' he' hw
  rcases List.mem_append.mp he' with h1 | h1
  · obtain ⟨hne, e2, hm2, h2⟩ := h e' h1 hw
    exact ⟨hne, e2, List.mem_append_left _ hm2, h2⟩
  · rcases List.mem_cons.mp h1 with h2 | h2
    · rw [h2]
      refine ⟨huv, ⟨v, u, WALK⟩, ?_, rfl, rfl, rfl⟩
      exact List.mem_append_right _ (List.mem_cons_of_mem _ (List.mem_singleton.mpr rfl))
    · rw [List.mem_singleton.mp h2]
      refine ⟨Ne.symm huv, ⟨u, v, WALK⟩, ?_, rfl, rfl, rfl⟩
      exact List.mem_append_right _ (List.mem_cons_self ..)

theorem graphInv_of_fields (st st' : PState) (hn : st'.nodes = st.nodes)
    (hm : st'.node_map = st.node_map) (he : st'.edges = st.edges)
    (h : GraphInv st) : GraphInv st' := by
  unfold GraphInv NodesOK at h ⊢
  rw [hn, hm, he]
  exact h

theorem get_or_add_node_graphInv (st : PState) (n : Node)
    (h : GraphInv st) : GraphInv (get_or_add_node st n).1 := by
  obtain ⟨h1, _, h3⟩ := get_or_add_node_inv st n h.1
  refine ⟨h1, ?_⟩
  rw [h3]
  exact h.2

theorem get_or_create_map_id_fields (st : PState) (s : String) :
    (get_or_create_map_id st s).1.nodes = st.nodes ∧
    (get_or_create_map_id st s).1.node_map = st.node_map ∧
    (get_or_create_map_id st s).1.edges = st.edges := by
  unfold get_or_create_map_id
  split <;> exact ⟨rfl, rfl, rfl⟩

theorem tEdgeStep_graphInv (src : Nat) (st : PState) (d : Nat)
    (h : GraphInv st) : GraphInv (tEdgeStep src st d) := by
  refine ⟨h.1, ?_⟩
  exact edgesOKl_append_nonwalk st.edges ⟨src, d, TRANSPORT⟩ h.2
    ((by decide : TRANSPORT ≠ WALK))

theorem nearStep_graphInv (dests : List Nat) (st : PState) (n : Node)
    (h : GraphInv st) : GraphInv (nearStep dests st n) := by
  unfold nearStep
  dsimp only
  refine foldl_pres _ GraphInv ?_ _ _ (get_or_add_node_graphInv st n h)
  intro s a hs
  exact tEdgeStep_graphInv _ _ _ hs

theorem transportAt_graphInv (oracle : TriOracle) (map_id : Nat)
    (dests : List Nat) (acc : List Node × PState) (px py : ℚ)
    (h : GraphInv acc.2) :
    GraphInv (transportAt oracle map_id dests acc px py).2 := by
  unfold transportAt
  dsimp only
  refine foldl_pres _ GraphInv ?_ _ _ h
  intro s a hs
  exact nearStep_graphInv _ _ _ hs

theorem cornerCell_graphInv (walkable : List Nat) (width min_x min_y : Int)
    (map_id : Nat) (y : Int) (acc : List Node × PState) (x : Int)
    (h : GraphInv acc.2) :
    GraphInv (cornerCell walkable width min_x min_y map_id y acc x).2 := by
  unfold cornerCell
  dsimp only
  split
  · exact h
  · split
    · exact get_or_add_node_graphInv _ _ h
    · exact h

theorem cornerRow_graphInv (walkable : List Nat) (width min_x min_y : Int)
    (map_id : Nat) (acc : List Node × PState) (y : Int) (h : GraphInv acc.2) :
    GraphInv (cornerRow walkable width min_x min_y map_id acc y).2 := by
  unfold cornerRow
  refine foldl_pres _ (fun (a : List Node × PState) => GraphInv a.2) ?_ _ _ h
  intro s a hs
  exact cornerCell_graphInv _ _ _ _ _ _ _ _ hs

theorem cornerFold_graphInv (walkable : List Nat) (width height min_x min_y : Int)
    (map_id : Nat) (st : PState) (h : GraphInv st) :
    GraphInv (cornerFold walkable width height min_x min_y map_id st).2 := by
  unfold cornerFold
  refine foldl_pres _ (fun (a : List Node × PState) => GraphInv a.2) ?_ _ _ h
  intro s a hs
  exact cornerRow_graphInv _ _ _ _ _ _ _ hs

theorem spawnFold_graphInv (map_id : Nat) (l : List GSpawn)
    (acc : List Node × PState) (h : GraphInv acc.2) :
    GraphInv (l.foldl (spawnStep map_id) acc).2 := by
  refine foldl_pres _ (fun (a : List Node × PState) => GraphInv a.2) ?_ _ _ h
  intro s a hs
  unfold spawnStep
  dsimp only
  exact get_or_add_node_graphInv _ _ hs

theorem destStep_graphInv (g : GData) (map_name : String) (st : PState)
    (dests : List Nat) (a : String × Nat) (s' : PState × List Nat)
    (h : destStep g map_name (some (st, dests)) a = some s')
    (hinv : GraphInv st) : GraphInv s'.1 := by
  unfold destStep at h
  dsimp only at h
  split at h
  · cases h; exact hinv
  · split at h
    · cases h
    · split at h
      · cases h
      · cases h
        obtain ⟨hn, hm, he⟩ := get_or_create_map_id_fields st a.1
        exact get_or_add_node_graphInv _ _
          (graphInv_of_fields st _ hn hm he hinv)

theorem posStep_graphInv (oracle : TriOracle) (map_id : Nat) (dests : List Nat)
    (vs : List Node) (st : PState) (p : List ℚ) (s' : List Node × PState)
    (h : posStep oracle map_id dests (some (vs, st)) p = some s')
    (hinv : GraphInv st) : GraphInv s'.2 := by
  unfold posStep at h
  dsimp only at h
  split at h
  · cases h
    exact transportAt_graphInv _ _ _ _ _ _ hinv
  · cases h

theorem npcStep_graphInv (g : GData) (oracle : TriOracle) (map_name : String)
    (map_id : Nat) (vs : List Node) (st : PState) (npc : GNpc)
    (s' : List Node × PState)
    (h : npcStep g oracle map_name map_id (some (vs, st)) npc = some s')
    (hinv : GraphInv st) : GraphInv s'.2 := by
  unfold npcStep at h
  dsimp only at h
  split at h
  · cases h; exact hinv
  · split at h
    · cases h
    · split at h
      · cases h
      · split at h
        · cases h
        · rename_i st1 dests hfold
          have hd : GraphInv st1 := by
            have := foldlO_pres (destStep g map_name) (fun _ => rfl)
              (fun (a b : PState × List Nat) => GraphInv a.1 → GraphInv b.1) (fun _ h => h)
              (fun a b c h1 h2 h => h2 (h1 h)) ?_ _ _ _ hfold
            · exact this hinv
            · intro a b c hstep
              obtain ⟨sta, da⟩ := a
              intro ha
              exact destStep_graphInv _ _ _ _ _ _ hstep ha
          split at h
          · cases h
          · rename_i vs2 st2 hpos
            have hp : GraphInv st2 := by
              split at hpos
              · cases hpos; exact hd
              · split at hpos
                · cases hpos
                  exact transportAt_graphInv _ _ _ _ _ _ hd
                · cases hpos
            split at h
            · cases h; exact hp
            · rename_i ps
              have := foldlO_pres (posStep oracle map_id dests) (fun _ => rfl)
                (fun (a b : List Node × PState) => GraphInv a.2 → GraphInv b.2) (fun _ h => h)
                (fun a b c h1 h2 h => h2 (h1 h)) ?_ _ _ _ h
              · exact this hp
              · intro a b c hstep
                obtain ⟨va, sa⟩ := a
                intro ha
                exact posStep_graphInv _ _ _ _ _ _ _ hstep ha

theorem walkEdgeStep_graphInv (map_name : String) (st : PState)
    (e : Node × Node) (hne : e.1 ≠ e.2) (h : GraphInv st) :
    GraphInv (walkEdgeStep map_name st e) := by
  unfold walkEdgeStep
  split
  · obtain ⟨h1, h2, h3⟩ := get_or_add_node_inv st e.1 h.1
    obtain ⟨h4, h5, h6⟩ := get_or_add_node_inv (get_or_add_node st e.1).1 e.2 h1
    refine ⟨h4, ?_⟩
    show EdgesOKl ((get_or_add_node (get_or_add_node st e.1).1 e.2).1.edges ++ _)
    rw [h6, h3]
    exact edgesOKl_append_pair st.edges _ _ h.2
      (Ne.symm (get_or_add_node_ne st e.1 e.2 h.1 hne))
  · exact h

theorem foldl_pres_mem {σ α : Type} (f : σ → α → σ) (P : σ → Prop) :
    ∀ (l : List α), (∀ s a, a ∈ l → P s → P (f s a)) →
      ∀ s, P s → P (l.foldl f s) := by
  intro l
  induction l with
  | nil => intro _ s h; exact h
  | cons a t ih =>
      intro hf s h
      exact ih (fun s b hb => hf s b (List.mem_cons_of_mem _ hb)) _
        (hf s a (List.mem_cons_self ..) h)

theorem prepare_map_graphInv (g : GData) (oracle : TriOracle) (st : PState)
    (name : String) (st' : PState)
    (horacle : ∀ vs e, e ∈ oracle.edges vs → e.1 ≠ e.2)
    (h : prepare_map g oracle st name = some st') (hinv : GraphInv st) :
    GraphInv st' := by
  unfold prepare_map at h
  split at h
  · cases h
  · split at h
    · cases h
    · split at h
      · dsimp only at h
        split at h
        · cases h
        · cases h
      · rename_i om mp hmp og geom hgeo on2 npcs hnpcs
        dsimp only at h
        split at h
        · cases h
        · rename_i walkable hw
          split at h
          · cases h
          · rename_i vs st4 hfold
            cases h
            have hinv5 : GraphInv st4 := by
              refine (foldlO_pres (npcStep g oracle name _) (fun _ => rfl)
                (fun (a b : List Node × PState) => GraphInv a.2 → GraphInv b.2)
                (fun _ h => h) (fun a b c h1 h2 h => h2 (h1 h)) ?_ _ _ _ hfold) ?_
              · intro a b c hstep
                obtain ⟨va, sa⟩ := a
                intro ha
                exact npcStep_graphInv _ _ _ _ _ _ _ _ hstep ha
              · refine spawnFold_graphInv _ _ _ ?_
                refine cornerFold_graphInv _ _ _ _ _ _ _ ?_
                obtain ⟨hgn, hgm, hge⟩ := get_or_create_map_id_fields _ name
                exact graphInv_of_fields _ _ hgn hgm hge
                  (graphInv_of_fields st _ rfl rfl rfl hinv)
            refine foldl_pres_mem (walkEdgeStep name) GraphInv _ ?_ _ hinv5
            intro s a ha hs
            exact walkEdgeStep_graphInv name s a (horacle vs a ha) hs

theorem prepare_graphInv (g : GData) (oracle : TriOracle) (st : PState)
    (horacle : ∀ vs e, e ∈ oracle.edges vs → e.1 ≠ e.2)
    (h : prepare g oracle = some st) : GraphInv st := by
  unfold prepare at h
  have hdef : GraphInv (default : PState) := by
    constructor
    · intro p hp; cases hp
    · intro e he; cases he
  have := foldlO_pres (prepareStep g oracle) (fun _ => rfl)
    (fun a b => GraphInv a → GraphInv b) (fun _ h => h)
    (fun a b c h1 h2 h => h2 (h1 h)) ?_ _ _ _ h
  · exact this hdef
  · intro a b c hstep ha
    unfold prepareStep at hstep
    dsimp only at hstep
    split at hstep
    · cases hstep; exact ha
    · exact prepare_map_graphInv _ _ _ _ _ horacle hstep ha


/-- C9: in the final graph after `prepare` — run with a triangulation
oracle whose reported edges join distinct vertices, as Delaunay
triangulation edges do — every edge labeled `WALK` connects two distinct
node indices (no `WALK` self-loops), and every `WALK` edge from `u` to
`v` has a matching reverse edge from `v` to `u` with the same method
bit. -/
theorem c9_walkEdgesSymmetric (g : GData) (oracle : TriOracle) (st : PState)
    (horacle : ∀ vs e, e ∈ oracle.edges vs → e.1 ≠ e.2)
    (hprep : prepare g oracle = some st) :
    ∀ e ∈ st.edges, e.method = WALK → e.src ≠ e.dst ∧
      ∃ e' ∈ st.edges, e'.src = e.dst ∧ e'.dst = e.src ∧ e'.method = WALK :=
  (prepare_graphInv g oracle st horacle hprep).2

/-- C9 witness: the concrete world `wNine`, prepared with the one-edge
oracle `oracle9`, yields the `WALK` edge `0 → 1`, and the theorem applied
there produces its reverse mate. -/
theorem c9_walkEdgesSymmetric_witness :
    (⟨0, 1, WALK⟩ : GEdge) ∈ stNine.edges ∧
    ((0 : Nat) ≠ (1 : Nat) ∧
      ∃ e' ∈ stNine.edges, e'.src = 1 ∧ e'.dst = 0 ∧ e'.method = WALK) :=
  ⟨by decide,
    c9_walkEdgesSymmetric wNine oracle9 stNine
      (by
        intro vs e he
        rw [show oracle9.edges vs = [(⟨0, 2, 2⟩, ⟨0, 3, 3⟩)] from rfl,
          List.mem_singleton] at he
        rw [he]
        decide)
      (by decide) ⟨0, 1, WALK⟩ (by decide) rfl⟩


/-- A product `C*dx` squeezed strictly inside `(-dx, dx]`-style bounds
forces `C = 0`. -/
theorem mul_sign_bound (C dx : Int) (hdx : 0 < dx)
    (h1 : -dx ≤ 2*(C*dx)) (h2 : 2*(C*dx) < dx) : C = 0 := by
  rcases lt_trichotomy C 0 with h | h | h
  · have hC : C ≤ -1 := by omega
    have := mul_le_mul_of_nonneg_right hC hdx.le
    nlinarith
  · exact h
  · have hC : (1 : Int) ≤ C := by omega
    have := mul_le_mul_of_nonneg_right hC hdx.le
    nlinarith

/-- While the running error stays positive the y index cannot pass `dy`. -/
theorem k_le_dy (dx dy t k : Int) (hdx : 0 < dx) (hdy : 0 ≤ dy) (ht : t ≤ dx)
    (he : 0 < dx + 2*(t*dy) - 2*(k*dx)) : k ≤ dy := by
  by_contra hcon
  have hk : dy + 1 ≤ k := by omega
  have h1 : t*dy ≤ dx*dy := mul_le_mul_of_nonneg_right ht hdy
  have h2 : (dy+1)*dx ≤ k*dx := mul_le_mul_of_nonneg_right hk hdx.le
  have h3 : (dy+1)*dx = dx*dy + dx := by ring
  linarith

/-- The cell `(t+1, k)` is in the supercover when the error plus `dy`
still fits under `2*dx`. -/
theorem memS_right (dx dy t k : Int) (hdx : 0 < dx) (hdy0 : 0 ≤ dy)
    (ht0 : 0 ≤ t) (ht : t + 1 ≤ dx) (hk0 : 0 ≤ k)
    (he1 : 0 < dx + 2*(t*dy) - 2*(k*dx))
    (hs : dx + 2*(t*dy) - 2*(k*dx) + dy ≤ 2*dx) :
    inS dx dy (t+1) k := by
  have hkdy : k ≤ dy := k_le_dy dx dy t k hdx hdy0 (by omega) he1
  have hb : (t+1)*dy = t*dy + dy := by ring
  exact ⟨by omega, by omega, hk0, hkdy, by linarith, by linarith⟩

/-- The diagonal cell `(t+1, k+1)` is in the supercover when the loop
steps in y. -/
theorem memS_diag (dx dy t k : Int) (hdx : 0 < dx) (hdy0 : 0 ≤ dy)
    (hdxy : dy ≤ dx) (ht0 : 0 ≤ t) (ht : t + 1 ≤ dx) (hk0 : 0 ≤ k)
    (he2 : dx + 2*(t*dy) - 2*(k*dx) ≤ 2*dx)
    (hbr : 2*dx < dx + 2*(t*dy) - 2*(k*dx) + 2*dy) :
    inS dx dy (t+1) (k+1) := by
  have hb1 : (t+1)*dy = t*dy + dy := by ring
  have hb2 : (k+1)*dx = k*dx + dx := by ring
  have hkdy : k + 1 ≤ dy := by
    refine k_le_dy dx dy (t+1) (k+1) hdx hdy0 (by omega) ?_
    linarith
  exact ⟨by omega, by omega, by omega, hkdy, by linarith, by linarith⟩

/-- The upper tie cell `(t, k+1)` is in the supercover when the doubled
balance reaches `2*dx`. -/
theorem memS_y (dx dy t k : Int) (hdx : 0 < dx) (hdy0 : 0 ≤ dy)
    (hdxy : dy ≤ dx) (ht0 : 0 ≤ t) (ht : t + 1 ≤ dx) (hk0 : 0 ≤ k)
    (he2 : dx + 2*(t*dy) - 2*(k*dx) ≤ 2*dx)
    (hbr : 2*dx < dx + 2*(t*dy) - 2*(k*dx) + 2*dy)
    (hs : 2*dx ≤ dx + 2*(t*dy) - 2*(k*dx) + dy) :
    inS dx dy t (k+1) := by
  have hb1 : (t+1)*dy = t*dy + dy := by ring
  have hb2 : (k+1)*dx = k*dx + dx := by ring
  have hkdy : k + 1 ≤ dy := by
    refine k_le_dy dx dy (t+1) (k+1) hdx hdy0 (by omega) ?_
    linarith
  exact ⟨ht0, by omega, by omega, hkdy, by linarith, by linarith⟩

/-- The lower tie cell `(t+1, k)` is not in the supercover when the
doubled balance exceeds `2*dx`. -/
theorem excl_x (dx dy t k : Int) (hdy0 : 0 ≤ dy)
    (hs : 2*dx < dx + 2*(t*dy) - 2*(k*dx) + dy)
    (hmem : inS dx dy (t+1) k) : False := by
  obtain ⟨h1, h2, h3, h4, h5, h6⟩ := hmem
  have hb : (t+1)*dy = t*dy + dy := by ring
  linarith

/-- The upper tie cell `(t, k+1)` is not in the supercover when the
doubled balance stays below `2*dx`. -/
theorem excl_y (dx dy t k : Int) (hdy0 : 0 ≤ dy)
    (hs : dx + 2*(t*dy) - 2*(k*dx) + dy < 2*dx)
    (hmem : inS dx dy t (k+1)) : False := by
  obtain ⟨h1, h2, h3, h4, h5, h6⟩ := hmem
  have hb : (k+1)*dx = k*dx + dx := by ring
  linarith

/-- In the no-step branch no cell strictly above the current row at the
current column is in the supercover. -/
theorem exclA_high (dx dy t k j : Int) (hdx : 0 < dx) (hdy0 : 0 ≤ dy)
    (hk0 : 0 ≤ k) (hj : k + 1 ≤ j)
    (he1 : 0 < dx + 2*(t*dy) - 2*(k*dx))
    (hbr : dx + 2*(t*dy) - 2*(k*dx) + 2*dy ≤ 2*dx)
    (hmem : inS dx dy t j) : False := by
  obtain ⟨h1, h2, h3, h4, h5, h6⟩ := hmem
  have hb1 : j*dx = k*dx + (j-k)*dx := by ring
  have hb2 : 1*dx ≤ (j-k)*dx :=
    mul_le_mul_of_nonneg_right (by omega) hdx.le
  have hdyz : dy ≤ 0 := by linarith
  linarith

/-- In the step branch no cell two or more rows above the current row at
the current column is in the supercover. -/
theorem exclB_high (dx dy t k j : Int) (hdx : 0 < dx) (hdy0 : 0 ≤ dy)
    (hdxy : dy ≤ dx) (hj : k + 2 ≤ j)
    (he2 : dx + 2*(t*dy) - 2*(k*dx) ≤ 2*dx)
    (hmem : inS dx dy t j) : False := by
  obtain ⟨h1, h2, h3, h4, h5, h6⟩ := hmem
  have hb1 : j*dx = k*dx + (j-k)*dx := by ring
  have hb2 : 2*dx ≤ (j-k)*dx :=
    mul_le_mul_of_nonneg_right (by omega) hdx.le
  linarith

/-- No cell strictly below the current row at the next column is in the
supercover while the error is positive. -/
theorem excl_low (dx dy t k j : Int) (hdx : 0 < dx) (hdy0 : 0 ≤ dy)
    (hj : j + 1 ≤ k)
    (he1 : 0 < dx + 2*(t*dy) - 2*(k*dx))
    (hmem : inS dx dy (t+1) j) : False := by
  obtain ⟨h1, h2, h3, h4, h5, h6⟩ := hmem
  have hb1 : j*dx = k*dx + (j-k)*dx := by ring
  have hb2 : (j-k)*dx ≤ (-1)*dx :=
    mul_le_mul_of_nonneg_right (by omega) hdx.le
  have hb3 : (t+1)*dy = t*dy + dy := by ring
  linarith


/-- Characterization of the x-major loop with unit steps: from state
`(t, k)` with the loop error satisfying its closed form, the remaining
run succeeds iff every supercover cell strictly beyond `(t, k)` in the
traversal order passes `test`. -/
theorem cwpX_char (test : Int → Int → Bool) (dx dy : Int)
    (hdy0 : 0 ≤ dy) (hdxy : dy ≤ dx) (hdx : 0 < dx) :
    ∀ (n : Nat) (t k e : Int), 0 ≤ t → 0 ≤ k → t + (n : Int) = dx →
      e = dx + 2*(t*dy) - 2*(k*dx) → 0 < e → e ≤ 2*dx →
      (cwpLoopXU test 1 1 (2*dx) (2*dy) n t k e e = true ↔
       ∀ i j : Int, inS dx dy i j → (t < i ∨ (t = i ∧ k < j)) →
         test i j = true) := by
  intro n
  induction n with
  | zero =>
      intro t k e ht0 hk0 htn he he1 he2
      have ht : t = dx := by push_cast at htn; omega
      constructor
      · intro _ i j hS hb
        obtain ⟨h1, h2, h3, h4, h5, h6⟩ := hS
        have hbr1 : (k - dy)*dx = k*dx - dx*dy := by ring
        have hbr2 : t*dy = dx*dy := by rw [ht]
        have hkdy : k - dy = 0 := by
          refine mul_sign_bound (k - dy) dx hdx ?_ ?_
          · linarith
          · linarith
        rcases hb with hlt | ⟨heq, hklt⟩ <;> omega
      · intro _
        rfl
  | succ n ih =>
      intro t k e ht0 hk0 htn he he1 he2
      have htn' : t + 1 + (n : Int) = dx := by push_cast at htn; omega
      have ht1 : t + 1 ≤ dx := by omega
      rw [show cwpLoopXU test 1 1 (2*dx) (2*dy) (n+1) t k e e =
          (let x1 := t + 1
           let eA := e + 2*dy
           if eA > 2*dx then
             let y1 := k + 1
             let eB := eA - 2*dx
             let extra :=
               if eB + e < 2*dx then test x1 (y1 - 1)
               else if eB + e > 2*dx then test (x1 - 1) y1
               else test x1 (y1 - 1) && test (x1 - 1) y1
             extra && test x1 y1 && cwpLoopXU test 1 1 (2*dx) (2*dy) n x1 y1 eB eB
           else
             test x1 k && cwpLoopXU test 1 1 (2*dx) (2*dy) n x1 k eA eA) from rfl]
      dsimp only
      by_cases hbr : e + 2*dy > 2*dx
      · rw [if_pos hbr]
        rw [show k + 1 - 1 = k from by ring, show t + 1 - 1 = t from by ring]
        have harg : e + 2*dy - 2*dx = dx + 2*((t+1)*dy) - 2*((k+1)*dx) := by
          rw [he]; ring
        have hrec := ih (t+1) (k+1) (e + 2*dy - 2*dx) (by omega) (by omega)
          htn' harg (by linarith) (by linarith)
        by_cases hs : e + 2*dy - 2*dx + e < 2*dx
        · rw [if_pos hs, Bool.and_eq_true, Bool.and_eq_true, hrec]
          have hsd : dx + 2*(t*dy) - 2*(k*dx) + dy < 2*dx := by linarith [he.symm.le, he.symm.ge]
          constructor
          · rintro ⟨⟨hx, hm⟩, hr⟩ i j hS hb
            rcases hb with hlt | ⟨heq, hklt⟩
            · rcases lt_or_eq_of_le (show t + 1 ≤ i by omega) with hgt | hie
              · exact hr i j hS (Or.inl hgt)
              · rcases lt_trichotomy j (k+1) with hj | hj | hj
                · rcases lt_or_eq_of_le (show j ≤ k by omega) with hj2 | hj2
                  · exact absurd (hie ▸ hS)
                      (fun hmem => excl_low dx dy t k j hdx hdy0 (by omega)
                        (by linarith) hmem)
                  · rw [← hie, hj2]; exact hx
                · rw [← hie, hj]; exact hm
                · exact hr i j hS (Or.inr ⟨hie, by omega⟩)
            · rcases lt_or_eq_of_le (show k + 1 ≤ j by omega) with hj | hj
              · exact absurd (heq ▸ hS)
                  (fun hmem => exclB_high dx dy t k j hdx hdy0 hdxy (by omega)
                    (by linarith) hmem)
              · exact absurd (heq ▸ hj ▸ hS)
                  (fun hmem => excl_y dx dy t k hdy0 hsd hmem)
          · intro h
            refine ⟨⟨?_, ?_⟩, ?_⟩
            · exact h (t+1) k
                (memS_right dx dy t k hdx hdy0 ht0 ht1 hk0 (by linarith) (by linarith))
                (Or.inl (by omega))
            · exact h (t+1) (k+1)
                (memS_diag dx dy t k hdx hdy0 hdxy ht0 ht1 hk0 (by linarith) (by linarith))
                (Or.inl (by omega))
            · intro i j hS hb
              refine h i j hS ?_
              rcases hb with h1 | ⟨h1, h2⟩
              · exact Or.inl (by omega)
              · exact Or.inl (by omega)
        · rw [if_neg hs]
          by_cases hs2 : e + 2*dy - 2*dx + e > 2*dx
          · rw [if_pos hs2, Bool.and_eq_true, Bool.and_eq_true, hrec]
            have hsd : 2*dx < dx + 2*(t*dy) - 2*(k*dx) + dy := by linarith [he.symm.le, he.symm.ge]
            constructor
            · rintro ⟨⟨hy, hm⟩, hr⟩ i j hS hb
              rcases hb with hlt | ⟨heq, hklt⟩
              · rcases lt_or_eq_of_le (show t + 1 ≤ i by omega) with hgt | hie
                · exact hr i j hS (Or.inl hgt)
                · rcases lt_trichotomy j (k+1) with hj | hj | hj
                  · rcases lt_or_eq_of_le (show j ≤ k by omega) with hj2 | hj2
                    · exact absurd (hie ▸ hS)
                        (fun hmem => excl_low dx dy t k j hdx hdy0 (by omega)
                          (by linarith) hmem)
                    · exact absurd (hie ▸ hj2 ▸ hS)
                        (fun hmem => excl_x dx dy t k hdy0 hsd hmem)
                  · rw [← hie, hj]; exact hm
                  · exact hr i j hS (Or.inr ⟨hie, by omega⟩)
              · rcases lt_or_eq_of_le (show k + 1 ≤ j by omega) with hj | hj
                · exact absurd (heq ▸ hS)
                    (fun hmem => exclB_high dx dy t k j hdx hdy0 hdxy (by omega)
                      (by linarith) hmem)
                · rw [← heq, ← hj]; exact hy
            · intro h
              refine ⟨⟨?_, ?_⟩, ?_⟩
              · exact h t (k+1)
                  (memS_y dx dy t k hdx hdy0 hdxy ht0 ht1 hk0 (by linarith)
                    (by linarith) (by linarith))
                  (Or.inr ⟨rfl, by omega⟩)
              · exact h (t+1) (k+1)
                  (memS_diag dx dy t k hdx hdy0 hdxy ht0 ht1 hk0 (by linarith) (by linarith))
                  (Or.inl (by omega))
              · intro i j hS hb
                refine h i j hS ?_
                rcases hb with h1 | ⟨h1, h2⟩
                · exact Or.inl (by omega)
                · exact Or.inl (by omega)
          · rw [if_neg hs2, Bool.and_eq_true, Bool.and_eq_true, Bool.and_eq_true, hrec]
            have hsd : 2*dx ≤ dx + 2*(t*dy) - 2*(k*dx) + dy := by linarith [he.symm.le, he.symm.ge]
            have hsd2 : dx + 2*(t*dy) - 2*(k*dx) + dy ≤ 2*dx := by linarith [he.symm.le, he.symm.ge]
            constructor
            · rintro ⟨⟨⟨hx, hy⟩, hm⟩, hr⟩ i j hS hb
              rcases hb with hlt | ⟨heq, hklt⟩
              · rcases lt_or_eq_of_le (show t + 1 ≤ i by omega) with hgt | hie
                · exact hr i j hS (Or.inl hgt)
                · rcases lt_trichotomy j (k+1) with hj | hj | hj
                  · rcases lt_or_eq_of_le (show j ≤ k by omega) with hj2 | hj2
                    · exact absurd (hie ▸ hS)
                        (fun hmem => excl_low dx dy t k j hdx hdy0 (by omega)
                          (by linarith) hmem)
                    · rw [← hie, hj2]; exact hx
                  · rw [← hie, hj]; exact hm
                  · exact hr i j hS (Or.inr ⟨hie, by omega⟩)
              · rcases lt_or_eq_of_le (show k + 1 ≤ j by omega) with hj | hj
                · exact absurd (heq ▸ hS)
                    (fun hmem => exclB_high dx dy t k j hdx hdy0 hdxy (by omega)
                      (by linarith) hmem)
                · rw [← heq, ← hj]; exact hy
            · intro h
              refine ⟨⟨⟨?_, ?_⟩, ?_⟩, ?_⟩
              · exact h (t+1) k
                  (memS_right dx dy t k hdx hdy0 ht0 ht1 hk0 (by linarith) (by linarith))
                  (Or.inl (by omega))
              · exact h t (k+1)
                  (memS_y dx dy t k hdx hdy0 hdxy ht0 ht1 hk0 (by linarith)
                    (by linarith) (by linarith))
                  (Or.inr ⟨rfl, by omega⟩)
              · exact h (t+1) (k+1)
                  (memS_diag dx dy t k hdx hdy0 hdxy ht0 ht1 hk0 (by linarith) (by linarith))
                  (Or.inl (by omega))
              · intro i j hS hb
                refine h i j hS ?_
                rcases hb with h1 | ⟨h1, h2⟩
                · exact Or.inl (by omega)
                · exact Or.inl (by omega)
      · rw [if_neg hbr, Bool.and_eq_true]
        have hbrA : e + 2*dy ≤ 2*dx := by omega
        have harg : e + 2*dy = dx + 2*((t+1)*dy) - 2*(k*dx) := by
          rw [he]; ring
        have hrec := ih (t+1) k (e + 2*dy) (by omega) hk0 htn' harg
          (by linarith) hbrA
        rw [hrec]
        constructor
        · rintro ⟨h1, h2⟩ i j hS hb
          rcases hb with hlt | ⟨heq, hklt⟩
          · rcases lt_or_eq_of_le (show t + 1 ≤ i by omega) with hgt | hie
            · exact h2 i j hS (Or.inl hgt)
            · rcases lt_trichotomy j k with hj | hj | hj
              · exact absurd (hie ▸ hS)
                  (fun hmem => excl_low dx dy t k j hdx hdy0 (by omega)
                    (by linarith [he.symm.le]) hmem)
              · rw [← hie, hj]; exact h1
              · exact h2 i j hS (Or.inr ⟨hie, hj⟩)
          · exact absurd (heq ▸ hS)
              (fun hmem => exclA_high dx dy t k j hdx hdy0 hk0 (by omega)
                (by linarith [he.symm.le]) (by linarith [he.symm.le]) hmem)
        · intro h
          refine ⟨?_, ?_⟩
          · exact h (t+1) k
              (memS_right dx dy t k hdx hdy0 ht0 ht1 hk0 (by linarith) (by linarith))
              (Or.inl (by omega))
          · intro i j hS hb
            refine h i j hS ?_
            rcases hb with h1 | ⟨h1, h2⟩
            · exact Or.inl (by omega)
            · exact Or.inl (by omega)


/-- Reparametrize the x-major loop from world coordinates with signed
unit steps to offsets from the start with positive unit steps. -/
theorem cwpLoopX_transport (test : Int → Int → Bool) (xS yS ddx ddy c d : Int) :
    ∀ (n : Nat) (x y e ep : Int),
      cwpLoopXU test xS yS ddx ddy n (c + xS*x) (d + yS*y) e ep =
      cwpLoopXU (fun i j => test (c + xS*i) (d + yS*j)) 1 1 ddx ddy n x y e ep := by
  intro n
  induction n with
  | zero => intro x y e ep; rfl
  | succ n ih =>
      intro x y e ep
      rw [show cwpLoopXU test xS yS ddx ddy (n+1) (c + xS*x) (d + yS*y) e ep =
          (let x1 := c + xS*x + xS
           let eA := e + ddy
           if eA > ddx then
             let y1 := d + yS*y + yS
             let eB := eA - ddx
             let extra :=
               if eB + ep < ddx then test x1 (y1 - yS)
               else if eB + ep > ddx then test (x1 - xS) y1
               else test x1 (y1 - yS) && test (x1 - xS) y1
             extra && test x1 y1 && cwpLoopXU test xS yS ddx ddy n x1 y1 eB eB
           else
             test x1 (d + yS*y) && cwpLoopXU test xS yS ddx ddy n x1 (d + yS*y) eA eA)
          from rfl]
      rw [show cwpLoopXU (fun i j => test (c + xS*i) (d + yS*j)) 1 1 ddx ddy (n+1)
            x y e ep =
          (let x1 := x + 1
           let eA := e + ddy
           if eA > ddx then
             let y1 := y + 1
             let eB := eA - ddx
             let extra :=
               if eB + ep < ddx then test (c + xS*x1) (d + yS*(y1 - 1))
               else if eB + ep > ddx then test (c + xS*(x1 - 1)) (d + yS*y1)
               else test (c + xS*x1) (d + yS*(y1 - 1)) &&
                 test (c + xS*(x1 - 1)) (d + yS*y1)
             extra && test (c + xS*x1) (d + yS*y1) &&
               cwpLoopXU (fun i j => test (c + xS*i) (d + yS*j)) 1 1 ddx ddy n x1 y1 eB eB
           else
             test (c + xS*x1) (d + yS*y) &&
               cwpLoopXU (fun i j => test (c + xS*i) (d + yS*j)) 1 1 ddx ddy n x1 y eA eA)
          from rfl]
      dsimp only
      have e1 : c + xS*x + xS = c + xS*(x+1) := by ring
      have e2 : d + yS*y + yS = d + yS*(y+1) := by ring
      have e3 : d + yS*(y+1) - yS = d + yS*((y+1) - 1) := by ring
      have e4 : c + xS*(x+1) - xS = c + xS*((x+1) - 1) := by ring
      rw [e1, e2, e3, e4]
      rw [ih (x+1) (y+1) (e + ddy - ddx) (e + ddy - ddx)]
      rw [ih (x+1) y (e + ddy) (e + ddy)]


/-- The y-major loop is the x-major loop with the two axes exchanged. -/
theorem cwpLoopY_eq_X (test : Int → Int → Bool) (xS yS ddx ddy : Int) :
    ∀ (n : Nat) (x y e ep : Int),
      cwpLoopYU test xS yS ddx ddy n x y e ep =
      cwpLoopXU (fun a b => test b a) yS xS ddy ddx n y x e ep := by
  intro n
  induction n with
  | zero => intro x y e ep; rfl
  | succ n ih =>
      intro x y e ep
      rw [show cwpLoopYU test xS yS ddx ddy (n+1) x y e ep =
          (let y1 := y + yS
           let eA := e + ddx
           if eA > ddy then
             let x1 := x + xS
             let eB := eA - ddy
             let extra :=
               if eB + ep < ddy then test (x1 - xS) y1
               else if eB + ep > ddy then test x1 (y1 - yS)
               else test (x1 - xS) y1 && test x1 (y1 - yS)
             extra && test x1 y1 && cwpLoopYU test xS yS ddx ddy n x1 y1 eB eB
           else
             test x y1 && cwpLoopYU test xS yS ddx ddy n x y1 eA eA)
          from rfl]
      rw [show cwpLoopXU (fun a b => test b a) yS xS ddy ddx (n+1) y x e ep =
          (let y1 := y + yS
           let eA := e + ddx
           if eA > ddy then
             let x1 := x + xS
             let eB := eA - ddy
             let extra :=
               if eB + ep < ddy then test (x1 - xS) y1
               else if eB + ep > ddy then test x1 (y1 - yS)
               else test (x1 - xS) y1 && test x1 (y1 - yS)
             extra && test x1 y1 &&
               cwpLoopXU (fun a b => test b a) yS xS ddy ddx n y1 x1 eB eB
           else
             test x y1 && cwpLoopXU (fun a b => test b a) yS xS ddy ddx n y1 x eA eA)
          from rfl]
      dsimp only
      rw [ih (x + xS) (y + yS) (e + ddx - ddy) (e + ddx - ddy)]
      rw [ih x (y + yS) (e + ddx) (e + ddx)]

/-- Supercover membership is symmetric in the two axes. -/
theorem inS_swap (a b i j : Int) : inS a b i j ↔ inS b a j i := by
  unfold inS
  constructor <;> intro h <;> obtain ⟨h1, h2, h3, h4, h5, h6⟩ := h <;>
    exact ⟨h3, h4, h1, h2, by linarith, by linarith⟩

/-- World-coordinate supercover membership at a signed offset from the
start equals normalized membership of the offset pair. -/
theorem supercover_reparam (x1 y1 x2 y2 sx sy dx2 dy2 i j : Int)
    (hsx : sx = 1 ∨ sx = -1) (hsy : sy = 1 ∨ sy = -1)
    (hdx2 : 0 ≤ dx2) (hdy2 : 0 ≤ dy2)
    (hdx : x2 - x1 = sx * dx2) (hdy : y2 - y1 = sy * dy2) :
    supercover x1 y1 x2 y2 (x1 + sx*i) (y1 + sy*j) ↔ inS dx2 dy2 i j := by
  have habsx : |x2 - x1| = dx2 := by
    rw [hdx]
    rcases hsx with h | h <;> rw [h]
    · rw [one_mul, abs_of_nonneg hdx2]
    · rw [neg_one_mul, abs_neg, abs_of_nonneg hdx2]
  have habsy : |y2 - y1| = dy2 := by
    rw [hdy]
    rcases hsy with h | h <;> rw [h]
    · rw [one_mul, abs_of_nonneg hdy2]
    · rw [neg_one_mul, abs_neg, abs_of_nonneg hdy2]
  have hcross : (y1 + sy*j - y1) * (x2 - x1) - (x1 + sx*i - x1) * (y2 - y1)
      = (sx*sy) * (j*dx2 - i*dy2) := by rw [hdx, hdy]; ring
  unfold supercover inS
  rw [habsx, habsy, hcross]
  rcases hsx with h | h <;> rcases hsy with h' | h' <;> subst h <;> subst h' <;>
    generalize j*dx2 - i*dy2 = C <;> omega

/-- Quantifying a test over the normalized supercover equals quantifying
it over the world-coordinate supercover via the signed-offset map. -/
theorem forall_inS_iff (test : Int → Int → Bool) (x1 y1 x2 y2 sx sy dx2 dy2 : Int)
    (hsx : sx = 1 ∨ sx = -1) (hsy : sy = 1 ∨ sy = -1)
    (hdx2 : 0 ≤ dx2) (hdy2 : 0 ≤ dy2)
    (hdx : x2 - x1 = sx * dx2) (hdy : y2 - y1 = sy * dy2) :
    (∀ i j, inS dx2 dy2 i j → test i j = true) ↔
    (∀ X Y, supercover x1 y1 x2 y2 X Y → test (sx*(X - x1)) (sy*(Y - y1)) = true) := by
  constructor
  · intro h X Y hsc
    have hX : X = x1 + sx*(sx*(X - x1)) := by
      rcases hsx with h' | h' <;> rw [h'] <;> ring
    have hY : Y = y1 + sy*(sy*(Y - y1)) := by
      rcases hsy with h' | h' <;> rw [h'] <;> ring
    refine h _ _ ?_
    refine (supercover_reparam x1 y1 x2 y2 sx sy dx2 dy2 _ _
      hsx hsy hdx2 hdy2 hdx hdy).mp ?_
    rw [← hX, ← hY]
    exact hsc
  · intro h i j hS
    have h1 := h (x1 + sx*i) (y1 + sy*j)
      ((supercover_reparam x1 y1 x2 y2 sx sy dx2 dy2 i j
        hsx hsy hdx2 hdy2 hdx hdy).mpr hS)
    have hi : sx*(x1 + sx*i - x1) = i := by
      rcases hsx with h' | h' <;> rw [h'] <;> ring
    have hj : sy*(y1 + sy*j - y1) = j := by
      rcases hsy with h' | h' <;> rw [h'] <;> ring
    rw [hi, hj] at h1
    exact h1

/-- The full normalized x-major run (start test plus loop) succeeds iff
every normalized supercover cell passes the test. -/
theorem covChar (test : Int → Int → Bool) (dx2 dy2 : Int)
    (hdy20 : 0 ≤ dy2) (hmaj : dy2 ≤ dx2) (hpos : 0 < dx2) :
    (test 0 0 && cwpLoopXU test 1 1 (2*dx2) (2*dy2) dx2.toNat 0 0 dx2 dx2) = true ↔
    ∀ i j, inS dx2 dy2 i j → test i j = true := by
  rw [Bool.and_eq_true]
  rw [cwpX_char test dx2 dy2 hdy20 hmaj hpos dx2.toNat 0 0 dx2 (le_refl 0)
    (le_refl 0) (by rw [Int.toNat_of_nonneg hpos.le]; ring) (by ring)
    hpos (by linarith)]
  constructor
  · rintro ⟨h0, h⟩ i j hS
    by_cases hc : 0 < i ∨ (0 = i ∧ 0 < j)
    · exact h i j hS hc
    · obtain ⟨b1, b2, b3, b4, b5, b6⟩ := hS
      have hij : i = 0 ∧ j = 0 := by omega
      rw [hij.1, hij.2]
      exact h0
  · intro h
    have hzero : (0:Int)*dx2 - 0*dy2 = 0 := by ring
    refine ⟨h 0 0 ⟨le_refl 0, hpos.le, le_refl 0, hdy20, ?_, ?_⟩, ?_⟩
    · rw [show (0:Int)*dx2 - 0*dy2 = 0 from by ring]; omega
    · rw [show (0:Int)*dx2 - 0*dy2 = 0 from by ring]; omega
    · intro i j hS hb
      exact h i j hS

/-- Bridging lemma: the transported loop test over normalized offsets
covers exactly the world-coordinate supercover probes. -/
theorem normalized_iff_world (grid : Grid) (x1 y1 x2 y2 sx sy dx2 dy2 : Int)
    (hsx : sx = 1 ∨ sx = -1) (hsy : sy = 1 ∨ sy = -1)
    (hdx2 : 0 ≤ dx2) (hdy2 : 0 ≤ dy2)
    (hdx : x2 - x1 = sx * dx2) (hdy : y2 - y1 = sy * dy2) :
    (∀ i j, inS dx2 dy2 i j →
      gridProbe grid (x1 - grid.min_x + sx*i) (y1 - grid.min_y + sy*j) = true) ↔
    (∀ X Y, supercover x1 y1 x2 y2 X Y →
      gridProbe grid (X - grid.min_x) (Y - grid.min_y) = true) := by
  rw [forall_inS_iff (fun i j =>
    gridProbe grid (x1 - grid.min_x + sx*i) (y1 - grid.min_y + sy*j))
    x1 y1 x2 y2 sx sy dx2 dy2 hsx hsy hdx2 hdy2 hdx hdy]
  have hargx : ∀ X : Int, x1 - grid.min_x + sx*(sx*(X - x1)) = X - grid.min_x := by
    intro X; rcases hsx with h | h <;> rw [h] <;> ring
  have hargy : ∀ Y : Int, y1 - grid.min_y + sy*(sy*(Y - y1)) = Y - grid.min_y := by
    intro Y; rcases hsy with h | h <;> rw [h] <;> ring
  constructor
  · intro h X Y hsc
    have h1 := h X Y hsc
    rwa [hargx X, hargy Y] at h1
  · intro h X Y hsc
    rw [hargx X, hargy Y]
    exact h X Y hsc


/-- The x-major leg of `can_walk_pathU` succeeds iff every world
supercover cell passes the grid probe. -/
theorem xmajor_leg (grid : Grid) (x1 y1 x2 y2 sx sy dx2 dy2 : Int)
    (hsx : sx = 1 ∨ sx = -1) (hsy : sy = 1 ∨ sy = -1)
    (hdx2 : 0 ≤ dx2) (hdy2 : 0 ≤ dy2)
    (hdx : x2 - x1 = sx * dx2) (hdy : y2 - y1 = sy * dy2)
    (hmaj : dy2 ≤ dx2)
    (hstart : gridProbe grid (x1 - grid.min_x) (y1 - grid.min_y) = true) :
    (cwpLoopXU (gridProbe grid) sx sy (2*dx2) (2*dy2) dx2.toNat
       (x1 - grid.min_x) (y1 - grid.min_y) dx2 dx2 = true ↔
     ∀ X Y, supercover x1 y1 x2 y2 X Y →
       gridProbe grid (X - grid.min_x) (Y - grid.min_y) = true) := by
  by_cases hpos : 0 < dx2
  · have htr := cwpLoopX_transport (gridProbe grid) sx sy (2*dx2) (2*dy2)
      (x1 - grid.min_x) (y1 - grid.min_y) dx2.toNat 0 0 dx2 dx2
    rw [show x1 - grid.min_x + sx*0 = x1 - grid.min_x from by ring,
        show y1 - grid.min_y + sy*0 = y1 - grid.min_y from by ring] at htr
    rw [htr]
    have h00 : (fun i j => gridProbe grid (x1 - grid.min_x + sx*i)
        (y1 - grid.min_y + sy*j)) 0 0 = true := by
      show gridProbe grid (x1 - grid.min_x + sx*0) (y1 - grid.min_y + sy*0) = true
      rw [show x1 - grid.min_x + sx*0 = x1 - grid.min_x from by ring,
          show y1 - grid.min_y + sy*0 = y1 - grid.min_y from by ring]
      exact hstart
    have hcc := covChar (fun i j => gridProbe grid (x1 - grid.min_x + sx*i)
      (y1 - grid.min_y + sy*j)) dx2 dy2 hdy2 hmaj hpos
    rw [h00, Bool.true_and] at hcc
    rw [hcc]
    exact normalized_iff_world grid x1 y1 x2 y2 sx sy dx2 dy2
      hsx hsy hdx2 hdy2 hdx hdy
  · have hdx20 : dx2 = 0 := by omega
    have hdy20 : dy2 = 0 := by omega
    have hx21 : x2 = x1 := by rcases hsx with h | h <;> rw [h] at hdx <;> omega
    have hy21 : y2 = y1 := by rcases hsy with h | h <;> rw [h] at hdy <;> omega
    rw [show dx2.toNat = 0 from by omega]
    constructor
    · intro _ X Y hsc
      obtain ⟨b1, b2, b3, b4, b5, b6⟩ := hsc
      have hX : X = x1 := by omega
      have hY : Y = y1 := by omega
      rw [hX, hY]
      exact hstart
    · intro _
      rfl

/-- The y-major leg of `can_walk_pathU` succeeds iff every world
supercover cell passes the grid probe. -/
theorem ymajor_leg (grid : Grid) (x1 y1 x2 y2 sx sy dx2 dy2 : Int)
    (hsx : sx = 1 ∨ sx = -1) (hsy : sy = 1 ∨ sy = -1)
    (hdx2 : 0 ≤ dx2) (hdy2 : 0 ≤ dy2)
    (hdx : x2 - x1 = sx * dx2) (hdy : y2 - y1 = sy * dy2)
    (hmaj : dx2 ≤ dy2) (hpos : 0 < dy2)
    (hstart : gridProbe grid (x1 - grid.min_x) (y1 - grid.min_y) = true) :
    (cwpLoopYU (gridProbe grid) sx sy (2*dx2) (2*dy2) dy2.toNat
       (x1 - grid.min_x) (y1 - grid.min_y) dy2 dy2 = true ↔
     ∀ X Y, supercover x1 y1 x2 y2 X Y →
       gridProbe grid (X - grid.min_x) (Y - grid.min_y) = true) := by
  rw [cwpLoopY_eq_X (gridProbe grid) sx sy (2*dx2) (2*dy2) dy2.toNat
    (x1 - grid.min_x) (y1 - grid.min_y) dy2 dy2]
  have htr := cwpLoopX_transport (fun a b => gridProbe grid b a) sy sx
    (2*dy2) (2*dx2) (y1 - grid.min_y) (x1 - grid.min_x) dy2.toNat 0 0 dy2 dy2
  rw [show y1 - grid.min_y + sy*0 = y1 - grid.min_y from by ring,
      show x1 - grid.min_x + sx*0 = x1 - grid.min_x from by ring] at htr
  rw [htr]
  have h00 : (fun i j => (fun a b => gridProbe grid b a)
      (y1 - grid.min_y + sy*i) (x1 - grid.min_x + sx*j)) 0 0 = true := by
    show gridProbe grid (x1 - grid.min_x + sx*0) (y1 - grid.min_y + sy*0) = true
    rw [show x1 - grid.min_x + sx*0 = x1 - grid.min_x from by ring,
        show y1 - grid.min_y + sy*0 = y1 - grid.min_y from by ring]
    exact hstart
  have hcc := covChar (fun i j => (fun a b => gridProbe grid b a)
    (y1 - grid.min_y + sy*i) (x1 - grid.min_x + sx*j)) dy2 dx2 hdx2 hmaj hpos
  rw [h00, Bool.true_and] at hcc
  rw [hcc]
  have hsw : (∀ i j, inS dy2 dx2 i j →
      gridProbe grid (x1 - grid.min_x + sx*j) (y1 - grid.min_y + sy*i) = true) ↔
      (∀ a b, inS dx2 dy2 a b →
        gridProbe grid (x1 - grid.min_x + sx*a) (y1 - grid.min_y + sy*b) = true) := by
    constructor
    · intro h a b hS
      exact h b a ((inS_swap dx2 dy2 a b).mp hS)
    · intro h i j hS
      exact h j i ((inS_swap dy2 dx2 i j).mp hS)
  rw [show (∀ i j, inS dy2 dx2 i j → (fun i j => (fun a b => gridProbe grid b a)
      (y1 - grid.min_y + sy*i) (x1 - grid.min_x + sx*j)) i j = true) ↔
      (∀ a b, inS dx2 dy2 a b →
        gridProbe grid (x1 - grid.min_x + sx*a) (y1 - grid.min_y + sy*b) = true)
    from hsw]
  exact normalized_iff_world grid x1 y1 x2 y2 sx sy dx2 dy2
    hsx hsy hdx2 hdy2 hdx hdy

/-- Master characterization: on a known map, `can_walk_pathU` returns true
iff the flattened grid probe passes at every world cell of the Bresenham
supercover of the segment. -/
theorem canWalkPath_iff (grids : List (String × Grid)) (name : String)
    (x1 y1 x2 y2 : Int) (grid : Grid) (hg : alookup grids name = some grid) :
    (can_walk_pathU grids name x1 y1 x2 y2 = true ↔
     ∀ X Y : Int, supercover x1 y1 x2 y2 X Y →
       gridProbe grid (X - grid.min_x) (Y - grid.min_y) = true) := by
  simp only [can_walk_pathU, hg]
  by_cases hstart : gridProbe grid (x1 - grid.min_x) (y1 - grid.min_y) = false
  · rw [if_pos hstart]
    constructor
    · intro h
      cases h
    · intro h
      exfalso
      have hzero : (y1 - y1) * (x2 - x1) - (x1 - x1) * (y2 - y1) = 0 := by ring
      have ha1 := abs_nonneg (x2 - x1)
      have ha2 := abs_nonneg (y2 - y1)
      have hsc0 : supercover x1 y1 x2 y2 x1 y1 := by
        refine ⟨min_le_left .., le_max_left .., min_le_left .., le_max_left .., ?_, ?_⟩ <;>
          rw [hzero] <;> linarith
      have hc := h x1 y1 hsc0
      rw [hc] at hstart
      cases hstart
  · rw [if_neg hstart]
    have hstart' : gridProbe grid (x1 - grid.min_x) (y1 - grid.min_y) = true := by
      rcases Bool.eq_false_or_eq_true
        (gridProbe grid (x1 - grid.min_x) (y1 - grid.min_y)) with h | h
      · exact h
      · exact absurd h hstart
    rcases lt_or_ge (x2 - x1) 0 with hx | hx <;>
      rcases lt_or_ge (y2 - y1) 0 with hy | hy
    · simp only [if_pos hx, if_pos hy]
      by_cases hmaj : 2 * -(x2 - x1) ≥ 2 * -(y2 - y1)
      · rw [if_pos hmaj]
        exact xmajor_leg grid x1 y1 x2 y2 (-1) (-1) (-(x2 - x1)) (-(y2 - y1))
          (Or.inr rfl) (Or.inr rfl) (by omega) (by omega) (by ring) (by ring)
          (by omega) hstart'
      · rw [if_neg hmaj]
        exact ymajor_leg grid x1 y1 x2 y2 (-1) (-1) (-(x2 - x1)) (-(y2 - y1))
          (Or.inr rfl) (Or.inr rfl) (by omega) (by omega) (by ring) (by ring)
          (by omega) (by omega) hstart'
    · simp only [if_pos hx, if_neg (show ¬(y2 - y1 < 0) by omega)]
      by_cases hmaj : 2 * -(x2 - x1) ≥ 2 * (y2 - y1)
      · rw [if_pos hmaj]
        exact xmajor_leg grid x1 y1 x2 y2 (-1) 1 (-(x2 - x1)) (y2 - y1)
          (Or.inr rfl) (Or.inl rfl) (by omega) (by omega) (by ring) (by ring)
          (by omega) hstart'
      · rw [if_neg hmaj]
        exact ymajor_leg grid x1 y1 x2 y2 (-1) 1 (-(x2 - x1)) (y2 - y1)
          (Or.inr rfl) (Or.inl rfl) (by omega) (by omega) (by ring) (by ring)
          (by omega) (by omega) hstart'
    · simp only [if_neg (show ¬(x2 - x1 < 0) by omega), if_pos hy]
      by_cases hmaj : 2 * (x2 - x1) ≥ 2 * -(y2 - y1)
      · rw [if_pos hmaj]
        exact xmajor_leg grid x1 y1 x2 y2 1 (-1) (x2 - x1) (-(y2 - y1))
          (Or.inl rfl) (Or.inr rfl) (by omega) (by omega) (by ring) (by ring)
          (by omega) hstart'
      · rw [if_neg hmaj]
        exact ymajor_leg grid x1 y1 x2 y2 1 (-1) (x2 - x1) (-(y2 - y1))
          (Or.inl rfl) (Or.inr rfl) (by omega) (by omega) (by ring) (by ring)
          (by omega) (by omega) hstart'
    · simp only [if_neg (show ¬(x2 - x1 < 0) by omega),
        if_neg (show ¬(y2 - y1 < 0) by omega)]
      by_cases hmaj : 2 * (x2 - x1) ≥ 2 * (y2 - y1)
      · rw [if_pos hmaj]
        exact xmajor_leg grid x1 y1 x2 y2 1 1 (x2 - x1) (y2 - y1)
          (Or.inl rfl) (Or.inl rfl) (by omega) (by omega) (by ring) (by ring)
          (by omega) hstart'
      · rw [if_neg hmaj]
        exact ymajor_leg grid x1 y1 x2 y2 1 1 (x2 - x1) (y2 - y1)
          (Or.inl rfl) (Or.inl rfl) (by omega) (by omega) (by ring) (by ring)
          (by omega) (by omega) hstart'


/-- The supercover of a segment does not depend on the segment's
orientation. -/
theorem supercover_swap (x1 y1 x2 y2 X Y : Int) :
    supercover x1 y1 x2 y2 X Y ↔ supercover x2 y2 x1 y1 X Y := by
  have hB : (Y - y2)*(x1 - x2) - (X - x2)*(y1 - y2) =
      -((Y - y1)*(x2 - x1) - (X - x1)*(y2 - y1)) := by ring
  have habs1 : |x1 - x2| = |x2 - x1| := abs_sub_comm ..
  have habs2 : |y1 - y2| = |y2 - y1| := abs_sub_comm ..
  unfold supercover
  rw [hB, habs1, habs2]
  constructor <;> intro h <;> obtain ⟨h1, h2, h3, h4, h5, h6⟩ := h <;>
    exact ⟨by omega, by omega, by omega, by omega, by linarith, by linarith⟩

/-- C3 counterexample: on the prepared all-walkable 6×6 map the path
from (-2,3) to (0,3) succeeds (its out-of-box start aliases the in-range
flattened index 16), the start cell (-2,3) lies on the supercover, yet
`is_walkable` is false there — so not every supercover cell of a
successful path is walkable. -/
theorem c3_counterexample :
    prepare wAll oracle0 = some stAll ∧
    can_walk_path stAll.grids "m" (-2) 3 0 3 = true ∧
    supercover (-2) 3 0 3 (-2) 3 ∧
    is_walkable stAll.grids "m" (-2) 3 = false :=
  ⟨by decide, by decide, by decide, by decide⟩


/-! ### Wrapping-arithmetic bridges -/

theorem wrap32_eq (n : Int) (h1 : -(2^31) ≤ n) (h2 : n < 2^31) : wrap32 n = n := by
  unfold wrap32
  omega

theorem wrap32_range (n : Int) : -(2^31) ≤ wrap32 n ∧ wrap32 n < 2^31 := by
  unfold wrap32
  omega

theorem usize32_toNat (n : Int) (h1 : 0 ≤ n) (h2 : n < 2^32) :
    usize32 n = n.toNat := by
  unfold usize32
  omega

theorem get_usize32_neg {α : Type} (l : List α) (n : Int)
    (hlen : (l.length : Int) ≤ 2^31) (h1 : -(2^31) ≤ n) (h2 : n < 0) :
    l.get? (usize32 n) = none := by
  refine List.get?_eq_none.mpr ?_
  unfold usize32
  omega

theorem readCell_eq_U (v : List Nat) (idx : Int) (hlen : (v.length : Int) ≤ 2^31)
    (h1 : -(2^31) ≤ idx) (h2 : idx < 2^31) : readCell v idx = readCellU v idx := by
  unfold readCell readCellU
  by_cases h0 : 0 ≤ idx
  · rw [if_pos h0, usize32_toNat idx h0 (by omega)]
  · rw [if_neg h0, get_usize32_neg v idx hlen (by omega) (by omega)]

theorem i32Cast_eq (q : ℚ) (h1 : -COORD_LIMIT ≤ ratTrunc q)
    (h2 : ratTrunc q ≤ COORD_LIMIT) : i32Cast q = ratTrunc q := by
  unfold i32Cast
  unfold COORD_LIMIT at h1 h2
  omega

theorem mul_range (a b A B : Int) (hA : 0 ≤ A) (ha1 : -A ≤ a) (ha2 : a ≤ A)
    (hb1 : 0 ≤ b) (hb2 : b ≤ B) : -(A*B) ≤ a*b ∧ a*b ≤ A*B := by
  constructor
  · have h1 : (-A)*b ≤ a*b := mul_le_mul_of_nonneg_right ha1 hb1
    have h2 : A*b ≤ A*B := mul_le_mul_of_nonneg_left hb2 hA
    have h3 : (-A)*b = -(A*b) := by ring
    linarith
  · have h1 : a*b ≤ A*b := mul_le_mul_of_nonneg_right ha2 hb1
    have h2 : A*b ≤ A*B := mul_le_mul_of_nonneg_left hb2 hA
    linarith


/-- Under the no-overflow invariants the wrapped x-major loop computes
exactly its unbounded counterpart. -/
theorem cwpLoopX_eq_U (test : Int → Int → Bool) (xS yS ddx ddy : Int)
    (hxs : xS = 1 ∨ xS = -1) (hys : yS = 1 ∨ yS = -1)
    (hddy : 0 ≤ ddy) (hdd : ddy ≤ ddx) (hddx : ddx ≤ 2^24) :
    ∀ (n : Nat) (x y e : Int),
      -(2^25) + (n : Int) ≤ x → x ≤ 2^25 - (n : Int) →
      -(2^25) + (n : Int) ≤ y → y ≤ 2^25 - (n : Int) →
      0 < e → e ≤ ddx →
      cwpLoopX test xS yS ddx ddy n x y e e =
        cwpLoopXU test xS yS ddx ddy n x y e e := by
  have hxsb : -1 ≤ xS ∧ xS ≤ 1 := by rcases hxs with h | h <;> rw [h] <;> omega
  have hysb : -1 ≤ yS ∧ yS ≤ 1 := by rcases hys with h | h <;> rw [h] <;> omega
  intro n
  induction n with
  | zero => intro x y e _ _ _ _ _ _; rfl
  | succ n ih =>
      intro x y e hxl hxr hyl hyr he1 he2
      have hn : (0:Int) ≤ (n:Int) := Int.natCast_nonneg n
      have hn1 : ((n+1 : Nat) : Int) = (n:Int) + 1 := by push_cast; ring
      rw [hn1] at hxl hxr hyl hyr
      have hw1 : wrap32 (x + xS) = x + xS := wrap32_eq _ (by omega) (by omega)
      have hw2 : wrap32 (e + ddy) = e + ddy := wrap32_eq _ (by omega) (by omega)
      have hw3 : wrap32 (e + ddy - ddx) = e + ddy - ddx :=
        wrap32_eq _ (by omega) (by omega)
      have hw4 : wrap32 (e + ddy - ddx + e) = e + ddy - ddx + e :=
        wrap32_eq _ (by omega) (by omega)
      have hw5 : wrap32 (y + yS) = y + yS := wrap32_eq _ (by omega) (by omega)
      have hw6 : wrap32 (y + yS - yS) = y + yS - yS :=
        wrap32_eq _ (by omega) (by omega)
      have hw7 : wrap32 (x + xS - xS) = x + xS - xS :=
        wrap32_eq _ (by omega) (by omega)
      rw [show cwpLoopX test xS yS ddx ddy (n+1) x y e e =
          (let x1 := wrap32 (x + xS)
           let eA := wrap32 (e + ddy)
           if eA > ddx then
             let y1 := wrap32 (y + yS)
             let eB := wrap32 (eA - ddx)
             let extra :=
               if wrap32 (eB + e) < ddx then test x1 (wrap32 (y1 - yS))
               else if wrap32 (eB + e) > ddx then test (wrap32 (x1 - xS)) y1
               else test x1 (wrap32 (y1 - yS)) && test (wrap32 (x1 - xS)) y1
             extra && test x1 y1 && cwpLoopX test xS yS ddx ddy n x1 y1 eB eB
           else
             test x1 y && cwpLoopX test xS yS ddx ddy n x1 y eA eA) from rfl]
      rw [show cwpLoopXU test xS yS ddx ddy (n+1) x y e e =
          (let x1 := x + xS
           let eA := e + ddy
           if eA > ddx then
             let y1 := y + yS
             let eB := eA - ddx
             let extra :=
               if eB + e < ddx then test x1 (y1 - yS)
               else if eB + e > ddx then test (x1 - xS) y1
               else test x1 (y1 - yS) && test (x1 - xS) y1
             extra && test x1 y1 && cwpLoopXU test xS yS ddx ddy n x1 y1 eB eB
           else
             test x1 y && cwpLoopXU test xS yS ddx ddy n x1 y eA eA) from rfl]
      dsimp only
      rw [hw1, hw2, hw3, hw5, hw4, hw6, hw7]
      by_cases hbr : e + ddy > ddx
      · rw [if_pos hbr, if_pos hbr]
        rw [ih (x + xS) (y + yS) (e + ddy - ddx) (by omega) (by omega)
          (by omega) (by omega) (by omega) (by omega)]
      · rw [if_neg hbr, if_neg hbr]
        rw [ih (x + xS) y (e + ddy) (by omega) (by omega)
          (by omega) (by omega) (by omega) (by omega)]

/-- Under the no-overflow invariants the wrapped y-major loop computes
exactly its unbounded counterpart. -/
theorem cwpLoopY_eq_U (test : Int → Int → Bool) (xS yS ddx ddy : Int)
    (hxs : xS = 1 ∨ xS = -1) (hys : yS = 1 ∨ yS = -1)
    (hddx : 0 ≤ ddx) (hdd : ddx ≤ ddy) (hddy : ddy ≤ 2^24) :
    ∀ (n : Nat) (x y e : Int),
      -(2^25) + (n : Int) ≤ x → x ≤ 2^25 - (n : Int) →
      -(2^25) + (n : Int) ≤ y → y ≤ 2^25 - (n : Int) →
      0 < e → e ≤ ddy →
      cwpLoopY test xS yS ddx ddy n x y e e =
        cwpLoopYU test xS yS ddx ddy n x y e e := by
  have hxsb : -1 ≤ xS ∧ xS ≤ 1 := by rcases hxs with h | h <;> rw [h] <;> omega
  have hysb : -1 ≤ yS ∧ yS ≤ 1 := by rcases hys with h | h <;> rw [h] <;> omega
  intro n
  induction n with
  | zero => intro x y e _ _ _ _ _ _; rfl
  | succ n ih =>
      intro x y e hxl hxr hyl hyr he1 he2
      have hn : (0:Int) ≤ (n:Int) := Int.natCast_nonneg n
      have hn1 : ((n+1 : Nat) : Int) = (n:Int) + 1 := by push_cast; ring
      rw [hn1] at hxl hxr hyl hyr
      have hw1 : wrap32 (y + yS) = y + yS := wrap32_eq _ (by omega) (by omega)
      have hw2 : wrap32 (e + ddx) = e + ddx := wrap32_eq _ (by omega) (by omega)
      have hw3 : wrap32 (e + ddx - ddy) = e + ddx - ddy :=
        wrap32_eq _ (by omega) (by omega)
      have hw4 : wrap32 (e + ddx - ddy + e) = e + ddx - ddy + e :=
        wrap32_eq _ (by omega) (by omega)
      have hw5 : wrap32 (x + xS) = x + xS := wrap32_eq _ (by omega) (by omega)
      have hw6 : wrap32 (x + xS - xS) = x + xS - xS :=
        wrap32_eq _ (by omega) (by omega)
      have hw7 : wrap32 (y + yS - yS) = y + yS - yS :=
        wrap32_eq _ (by omega) (by omega)
      rw [show cwpLoopY test xS yS ddx ddy (n+1) x y e e =
          (let y1 := wrap32 (y + yS)
           let eA := wrap32 (e + ddx)
           if eA > ddy then
             let x1 := wrap32 (x + xS)
             let eB := wrap32 (eA - ddy)
             let extra :=
               if wrap32 (eB + e) < ddy then test (wrap32 (x1 - xS)) y1
               else if wrap32 (eB + e) > ddy then test x1 (wrap32 (y1 - yS))
               else test (wrap32 (x1 - xS)) y1 && test x1 (wrap32 (y1 - yS))
             extra && test x1 y1 && cwpLoopY test xS yS ddx ddy n x1 y1 eB eB
           else
             test x y1 && cwpLoopY test xS yS ddx ddy n x y1 eA eA) from rfl]
      rw [show cwpLoopYU test xS yS ddx ddy (n+1) x y e e =
          (let y1 := y + yS
           let eA := e + ddx
           if eA > ddy then
             let x1 := x + xS
             let eB := eA - ddy
             let extra :=
               if eB + e < ddy then test (x1 - xS) y1
               else if eB + e > ddy then test x1 (y1 - yS)
               else test (x1 - xS) y1 && test x1 (y1 - yS)
             extra && test x1 y1 && cwpLoopYU test xS yS ddx ddy n x1 y1 eB eB
           else
             test x y1 && cwpLoopYU test xS yS ddx ddy n x y1 eA eA) from rfl]
      dsimp only
      rw [hw1, hw2, hw3, hw5, hw4, hw6, hw7]
      by_cases hbr : e + ddx > ddy
      · rw [if_pos hbr, if_pos hbr]
        rw [ih (x + xS) (y + yS) (e + ddx - ddy) (by omega) (by omega)
          (by omega) (by omega) (by omega) (by omega)]
      · rw [if_neg hbr, if_neg hbr]
        rw [ih x (y + yS) (e + ddx) (by omega) (by omega)
          (by omega) (by omega) (by omega) (by omega)]


/-- Under coordinate bounds the wrapped `can_walk_path` computes exactly
its unbounded counterpart. -/
theorem can_walk_path_eq_U (grids : List (String × Grid)) (name : String)
    (x1 y1 x2 y2 : Int) (grid : Grid) (hg : alookup grids name = some grid)
    (hx1l : -COORD_LIMIT ≤ x1) (hx1r : x1 ≤ COORD_LIMIT)
    (hy1l : -COORD_LIMIT ≤ y1) (hy1r : y1 ≤ COORD_LIMIT)
    (hx2l : -COORD_LIMIT ≤ x2) (hx2r : x2 ≤ COORD_LIMIT)
    (hy2l : -COORD_LIMIT ≤ y2) (hy2r : y2 ≤ COORD_LIMIT)
    (hmxl : -COORD_LIMIT ≤ grid.min_x) (hmxr : grid.min_x ≤ COORD_LIMIT)
    (hmyl : -COORD_LIMIT ≤ grid.min_y) (hmyr : grid.min_y ≤ COORD_LIMIT) :
    can_walk_path grids name x1 y1 x2 y2 =
      can_walk_pathU grids name x1 y1 x2 y2 := by
  unfold COORD_LIMIT at hx1l hx1r hy1l hy1r hx2l hx2r hy2l hy2r hmxl hmxr hmyl hmyr
  simp only [can_walk_path, can_walk_pathU, hg]
  rw [wrap32_eq (x1 - grid.min_x) (by omega) (by omega),
      wrap32_eq (y1 - grid.min_y) (by omega) (by omega),
      wrap32_eq (x2 - x1) (by omega) (by omega),
      wrap32_eq (y2 - y1) (by omega) (by omega)]
  by_cases hstart : gridProbe grid (x1 - grid.min_x) (y1 - grid.min_y) = false
  · rw [if_pos hstart, if_pos hstart]
  · rw [if_neg hstart, if_neg hstart]
    by_cases hdx : x2 - x1 < 0 <;> by_cases hdy : y2 - y1 < 0
    · simp only [if_pos hdx, if_pos hdy]
      rw [wrap32_eq (-(x2 - x1)) (by omega) (by omega),
          wrap32_eq (-(y2 - y1)) (by omega) (by omega),
          wrap32_eq (2 * -(x2 - x1)) (by omega) (by omega),
          wrap32_eq (2 * -(y2 - y1)) (by omega) (by omega)]
      by_cases hmaj : 2 * -(x2 - x1) ≥ 2 * -(y2 - y1)
      · rw [if_pos hmaj, if_pos hmaj]
        have htn : ((-(x2 - x1)).toNat : Int) = -(x2 - x1) :=
          Int.toNat_of_nonneg (by omega)
        exact cwpLoopX_eq_U (gridProbe grid) (-1) (-1) (2 * -(x2 - x1))
          (2 * -(y2 - y1)) (Or.inr rfl) (Or.inr rfl) (by omega) (by omega)
          (by omega) (-(x2 - x1)).toNat (x1 - grid.min_x) (y1 - grid.min_y)
          (-(x2 - x1)) (by omega) (by omega) (by omega) (by omega)
          (by omega) (by omega)
      · rw [if_neg hmaj, if_neg hmaj]
        have htn : ((-(y2 - y1)).toNat : Int) = -(y2 - y1) :=
          Int.toNat_of_nonneg (by omega)
        exact cwpLoopY_eq_U (gridProbe grid) (-1) (-1) (2 * -(x2 - x1))
          (2 * -(y2 - y1)) (Or.inr rfl) (Or.inr rfl) (by omega) (by omega)
          (by omega) (-(y2 - y1)).toNat (x1 - grid.min_x) (y1 - grid.min_y)
          (-(y2 - y1)) (by omega) (by omega) (by omega) (by omega)
          (by omega) (by omega)
    · simp only [if_pos hdx, if_neg hdy]
      rw [wrap32_eq (-(x2 - x1)) (by omega) (by omega),
          wrap32_eq (2 * -(x2 - x1)) (by omega) (by omega),
          wrap32_eq (2 * (y2 - y1)) (by omega) (by omega)]
      by_cases hmaj : 2 * -(x2 - x1) ≥ 2 * (y2 - y1)
      · rw [if_pos hmaj, if_pos hmaj]
        have htn : ((-(x2 - x1)).toNat : Int) = -(x2 - x1) :=
          Int.toNat_of_nonneg (by omega)
        exact cwpLoopX_eq_U (gridProbe grid) (-1) 1 (2 * -(x2 - x1))
          (2 * (y2 - y1)) (Or.inr rfl) (Or.inl rfl) (by omega) (by omega)
          (by omega) (-(x2 - x1)).toNat (x1 - grid.min_x) (y1 - grid.min_y)
          (-(x2 - x1)) (by omega) (by omega) (by omega) (by omega)
          (by omega) (by omega)
      · rw [if_neg hmaj, if_neg hmaj]
        rcases eq_or_lt_of_le (show (0:Int) ≤ y2 - y1 by omega) with h0 | hpos
        · rw [show (y2 - y1).toNat = 0 from by omega]
          rfl
        · have htn : ((y2 - y1).toNat : Int) = y2 - y1 :=
            Int.toNat_of_nonneg (by omega)
          exact cwpLoopY_eq_U (gridProbe grid) (-1) 1 (2 * -(x2 - x1))
            (2 * (y2 - y1)) (Or.inr rfl) (Or.inl rfl) (by omega) (by omega)
            (by omega) (y2 - y1).toNat (x1 - grid.min_x) (y1 - grid.min_y)
            (y2 - y1) (by omega) (by omega) (by omega) (by omega)
            (by omega) (by omega)
    · simp only [if_neg hdx, if_pos hdy]
      rw [wrap32_eq (-(y2 - y1)) (by omega) (by omega),
          wrap32_eq (2 * (x2 - x1)) (by omega) (by omega),
          wrap32_eq (2 * -(y2 - y1)) (by omega) (by omega)]
      by_cases hmaj : 2 * (x2 - x1) ≥ 2 * -(y2 - y1)
      · rw [if_pos hmaj, if_pos hmaj]
        rcases eq_or_lt_of_le (show (0:Int) ≤ x2 - x1 by omega) with h0 | hpos
        · rw [show (x2 - x1).toNat = 0 from by omega]
          rfl
        · have htn : ((x2 - x1).toNat : Int) = x2 - x1 :=
            Int.toNat_of_nonneg (by omega)
          exact cwpLoopX_eq_U (gridProbe grid) 1 (-1) (2 * (x2 - x1))
            (2 * -(y2 - y1)) (Or.inl rfl) (Or.inr rfl) (by omega) (by omega)
            (by omega) (x2 - x1).toNat (x1 - grid.min_x) (y1 - grid.min_y)
            (x2 - x1) (by omega) (by omega) (by omega) (by omega)
            (by omega) (by omega)
      · rw [if_neg hmaj, if_neg hmaj]
        have htn : ((-(y2 - y1)).toNat : Int) = -(y2 - y1) :=
          Int.toNat_of_nonneg (by omega)
        exact cwpLoopY_eq_U (gridProbe grid) 1 (-1) (2 * (x2 - x1))
          (2 * -(y2 - y1)) (Or.inl rfl) (Or.inr rfl) (by omega) (by omega)
          (by omega) (-(y2 - y1)).toNat (x1 - grid.min_x) (y1 - grid.min_y)
          (-(y2 - y1)) (by omega) (by omega) (by omega) (by omega)
          (by omega) (by omega)
    · simp only [if_neg hdx, if_neg hdy]
      rw [wrap32_eq (2 * (x2 - x1)) (by omega) (by omega),
          wrap32_eq (2 * (y2 - y1)) (by omega) (by omega)]
      by_cases hmaj : 2 * (x2 - x1) ≥ 2 * (y2 - y1)
      · rw [if_pos hmaj, if_pos hmaj]
        rcases eq_or_lt_of_le (show (0:Int) ≤ x2 - x1 by omega) with h0 | hpos
        · rw [show (x2 - x1).toNat = 0 from by omega]
          rfl
        · have htn : ((x2 - x1).toNat : Int) = x2 - x1 :=
            Int.toNat_of_nonneg (by omega)
          exact cwpLoopX_eq_U (gridProbe grid) 1 1 (2 * (x2 - x1))
            (2 * (y2 - y1)) (Or.inl rfl) (Or.inl rfl) (by omega) (by omega)
            (by omega) (x2 - x1).toNat (x1 - grid.min_x) (y1 - grid.min_y)
            (x2 - x1) (by omega) (by omega) (by omega) (by omega)
            (by omega) (by omega)
      · rw [if_neg hmaj, if_neg hmaj]
        have htn : (((y2 - y1)).toNat : Int) = y2 - y1 :=
          Int.toNat_of_nonneg (by omega)
        exact cwpLoopY_eq_U (gridProbe grid) 1 1 (2 * (x2 - x1))
          (2 * (y2 - y1)) (Or.inl rfl) (Or.inl rfl) (by omega) (by omega)
          (by omega) ((y2 - y1)).toNat (x1 - grid.min_x) (y1 - grid.min_y)
          ((y2 - y1)) (by omega) (by omega) (by omega) (by omega)
          (by omega) (by omega)


theorem paintRowGo_eq_U (width y : Int) (hw : 0 ≤ width) (hw2 : width ≤ 2^15)
    (hy : 0 ≤ y) (hy2 : y ≤ 40000) :
    ∀ (n : Nat) (v : List Nat) (x : Int), 0 ≤ x → x + (n : Int) ≤ width →
      paintRowGo width y v x n = paintRowGoU width y v x n := by
  intro n
  induction n with
  | zero => intro v x _ _; rfl
  | succ n ih =>
      intro v x hx hxn
      have hc : ((n+1 : Nat) : Int) = (n:Int) + 1 := by push_cast; ring
      rw [hc] at hxn
      have hn : (0:Int) ≤ (n:Int) := Int.natCast_nonneg n
      have hprod := mul_range y width 40000 (2^15) (by norm_num) (by omega) hy2 hw hw2
      have hprod0 : 0 ≤ y * width := mul_nonneg hy hw
      have hlit : (40000:Int) * 2^15 = 1310720000 := by norm_num
      have hw1 : wrap32 (y * width) = y * width := wrap32_eq _ (by omega) (by omega)
      have hw2' : wrap32 (y * width + x) = y * width + x :=
        wrap32_eq _ (by omega) (by omega)
      have hu : usize32 (y * width + x) = (y * width + x).toNat :=
        usize32_toNat _ (by omega) (by omega)
      rw [show paintRowGo width y v x (n+1) = paintRowGo width y
          (v.set (usize32 (wrap32 (wrap32 (y * width) + x))) NOT_WALKABLE)
          (x + 1) n from rfl]
      rw [show paintRowGoU width y v x (n+1) = paintRowGoU width y
          (v.set (y * width + x).toNat NOT_WALKABLE) (x + 1) n from rfl]
      rw [hw1, hw2', hu]
      exact ih _ (x + 1) (by omega) (by omega)

theorem paintYGo_eq_U (width min_x l1 l2 : Int) (hw : 0 ≤ width) (hw2 : width ≤ 2^15)
    (hm1 : -COORD_LIMIT ≤ min_x) (hm2 : min_x ≤ COORD_LIMIT)
    (hl1a : -COORD_LIMIT ≤ l1) (hl1b : l1 ≤ COORD_LIMIT)
    (hl2a : -COORD_LIMIT ≤ l2) (hl2b : l2 ≤ COORD_LIMIT) :
    ∀ (n : Nat) (v : List Nat) (y : Int), 0 ≤ y → y + (n : Int) ≤ 40000 →
      paintYGo width min_x l1 l2 v y n = paintYGoU width min_x l1 l2 v y n := by
  unfold COORD_LIMIT at hm1 hm2 hl1a hl1b hl2a hl2b
  have hbh : BASE_H = 8 := rfl
  intro n
  induction n with
  | zero => intro v y _ _; rfl
  | succ n ih =>
      intro v y hy hyn
      have hc : ((n+1 : Nat) : Int) = (n:Int) + 1 := by push_cast; ring
      rw [hc] at hyn
      have hn : (0:Int) ≤ (n:Int) := Int.natCast_nonneg n
      have hwa : wrap32 (l1 - min_x) = l1 - min_x := wrap32_eq _ (by omega) (by omega)
      have hwb : wrap32 (l1 - min_x - BASE_H) = l1 - min_x - BASE_H :=
        wrap32_eq _ (by omega) (by omega)
      have hwc : wrap32 (l2 - min_x) = l2 - min_x := wrap32_eq _ (by omega) (by omega)
      have hwd : wrap32 (l2 - min_x + BASE_H) = l2 - min_x + BASE_H :=
        wrap32_eq _ (by omega) (by omega)
      rw [show paintYGo width min_x l1 l2 v y (n+1) = paintYGo width min_x l1 l2
          (paintRowGo width y v (max 0 (wrap32 (wrap32 (l1 - min_x) - BASE_H)))
            ((min width (wrap32 (wrap32 (l2 - min_x) + BASE_H)) -
              max 0 (wrap32 (wrap32 (l1 - min_x) - BASE_H))).toNat)) (y + 1) n from rfl]
      rw [show paintYGoU width min_x l1 l2 v y (n+1) = paintYGoU width min_x l1 l2
          (paintRowGoU width y v (max 0 (l1 - min_x - BASE_H))
            ((min width (l2 - min_x + BASE_H) -
              max 0 (l1 - min_x - BASE_H)).toNat)) (y + 1) n from rfl]
      rw [hwa, hwb, hwc, hwd]
      rcases le_or_lt (min width (l2 - min_x + BASE_H)) (max 0 (l1 - min_x - BASE_H)) with hle | hlt
      · rw [show (min width (l2 - min_x + BASE_H) -
            max 0 (l1 - min_x - BASE_H)).toNat = 0 from by omega]
        rw [show paintRowGo width y v (max 0 (l1 - min_x - BASE_H)) 0 = v from rfl]
        rw [show paintRowGoU width y v (max 0 (l1 - min_x - BASE_H)) 0 = v from rfl]
        exact ih v (y + 1) (by omega) (by omega)
      · have htn : ((min width (l2 - min_x + BASE_H) -
            max 0 (l1 - min_x - BASE_H)).toNat : Int) =
            min width (l2 - min_x + BASE_H) - max 0 (l1 - min_x - BASE_H) :=
          Int.toNat_of_nonneg (by omega)
        rw [paintRowGo_eq_U width y hw hw2 hy (by omega) _ v _ (by omega) (by omega)]
        exact ih _ (y + 1) (by omega) (by omega)

theorem paintYLine_eq_U (geom : GGeometry) (width height : Int) (v : List Nat)
    (line : List Int) (hw : 0 ≤ width) (hw2 : width ≤ 2^15)
    (hm1 : -COORD_LIMIT ≤ geom.min_x) (hm2 : geom.min_x ≤ COORD_LIMIT)
    (hm3 : -COORD_LIMIT ≤ geom.min_y) (hm4 : geom.min_y ≤ COORD_LIMIT)
    (hline : ∀ a ∈ line, -COORD_LIMIT ≤ a ∧ a ≤ COORD_LIMIT) :
    paintYLine geom width height v line = paintYLineU geom width height v line := by
  match line with
  | [] => rfl
  | [_] => rfl
  | [_, _] => rfl
  | l0 :: l1 :: l2 :: rest =>
      obtain ⟨h0a, h0b⟩ := hline l0 (by simp)
      obtain ⟨h1a, h1b⟩ := hline l1 (by simp)
      obtain ⟨h2a, h2b⟩ := hline l2 (by simp)
      unfold COORD_LIMIT at h0a h0b h1a h1b h2a h2b hm1 hm2 hm3 hm4
      have hbv : BASE_V = 7 := rfl
      have hbn : BASE_VN = 2 := rfl
      have hwa : wrap32 (l0 - geom.min_y) = l0 - geom.min_y :=
        wrap32_eq _ (by omega) (by omega)
      have hwb : wrap32 (l0 - geom.min_y - BASE_VN) = l0 - geom.min_y - BASE_VN :=
        wrap32_eq _ (by omega) (by omega)
      have hwc : wrap32 (l0 - geom.min_y + BASE_V) = l0 - geom.min_y + BASE_V :=
        wrap32_eq _ (by omega) (by omega)
      show some (paintYGo width geom.min_x l1 l2 v
          (max 0 (wrap32 (wrap32 (l0 - geom.min_y) - BASE_VN)))
          ((min height (wrap32 (wrap32 (l0 - geom.min_y) + BASE_V)) -
            max 0 (wrap32 (wrap32 (l0 - geom.min_y) - BASE_VN))).toNat)) =
        some (paintYGoU width geom.min_x l1 l2 v
          (max 0 (l0 - geom.min_y - BASE_VN))
          ((min height (l0 - geom.min_y + BASE_V) -
            max 0 (l0 - geom.min_y - BASE_VN)).toNat))
      rw [hwa, hwb, hwc]
      rcases le_or_lt (min height (l0 - geom.min_y + BASE_V))
          (max 0 (l0 - geom.min_y - BASE_VN)) with hle | hlt
      · rw [show (min height (l0 - geom.min_y + BASE_V) -
            max 0 (l0 - geom.min_y - BASE_VN)).toNat = 0 from by omega]
        rfl
      · have htn : ((min height (l0 - geom.min_y + BASE_V) -
            max 0 (l0 - geom.min_y - BASE_VN)).toNat : Int) =
            min height (l0 - geom.min_y + BASE_V) -
              max 0 (l0 - geom.min_y - BASE_VN) :=
          Int.toNat_of_nonneg (by omega)
        rw [paintYGo_eq_U width geom.min_x l1 l2 hw hw2 (by unfold COORD_LIMIT; omega)
          (by unfold COORD_LIMIT; omega) (by unfold COORD_LIMIT; omega)
          (by unfold COORD_LIMIT; omega) (by unfold COORD_LIMIT; omega)
          (by unfold COORD_LIMIT; omega) _ v _ (by omega) (by omega)]


theorem paintColGo_eq_U (width x : Int) (hw : 0 ≤ width) (hw2 : width ≤ 2^15)
    (hx : 0 ≤ x) (hx2 : x ≤ 2^15) :
    ∀ (n : Nat) (v : List Nat) (y : Int), 0 ≤ y → y + (n : Int) ≤ 40000 →
      paintColGo width x v y n = paintColGoU width x v y n := by
  intro n
  induction n with
  | zero => intro v y _ _; rfl
  | succ n ih =>
      intro v y hy hyn
      have hc : ((n+1 : Nat) : Int) = (n:Int) + 1 := by push_cast; ring
      rw [hc] at hyn
      have hn : (0:Int) ≤ (n:Int) := Int.natCast_nonneg n
      have hprod := mul_range y width 40000 (2^15) (by norm_num) (by omega)
        (by omega) hw hw2
      have hprod0 : 0 ≤ y * width := mul_nonneg hy hw
      have hlit : (40000:Int) * 2^15 = 1310720000 := by norm_num
      have hw1 : wrap32 (y * width) = y * width := wrap32_eq _ (by omega) (by omega)
      have hw2' : wrap32 (y * width + x) = y * width + x :=
        wrap32_eq _ (by omega) (by omega)
      have hu : usize32 (y * width + x) = (y * width + x).toNat :=
        usize32_toNat _ (by omega) (by omega)
      rw [show paintColGo width x v y (n+1) = paintColGo width x
          (v.set (usize32 (wrap32 (wrap32 (y * width) + x))) NOT_WALKABLE)
          (y + 1) n from rfl]
      rw [show paintColGoU width x v y (n+1) = paintColGoU width x
          (v.set (y * width + x).toNat NOT_WALKABLE) (y + 1) n from rfl]
      rw [hw1, hw2', hu]
      exact ih _ (y + 1) (by omega) (by omega)

theorem paintXGo_eq_U (width height min_y l1 l2 : Int)
    (hw : 0 ≤ width) (hw2 : width ≤ 2^15)
    (hm1 : -COORD_LIMIT ≤ min_y) (hm2 : min_y ≤ COORD_LIMIT)
    (hl1a : -COORD_LIMIT ≤ l1) (hl1b : l1 ≤ COORD_LIMIT)
    (hl2a : -COORD_LIMIT ≤ l2) (hl2b : l2 ≤ COORD_LIMIT) :
    ∀ (n : Nat) (v : List Nat) (x : Int), 0 ≤ x → x + (n : Int) ≤ 2^15 →
      paintXGo width height min_y l1 l2 v x n =
        paintXGoU width height min_y l1 l2 v x n := by
  unfold COORD_LIMIT at hm1 hm2 hl1a hl1b hl2a hl2b
  have hbv : BASE_V = 7 := rfl
  have hbn : BASE_VN = 2 := rfl
  intro n
  induction n with
  | zero => intro v x _ _; rfl
  | succ n ih =>
      intro v x hx hxn
      have hc : ((n+1 : Nat) : Int) = (n:Int) + 1 := by push_cast; ring
      rw [hc] at hxn
      have hn : (0:Int) ≤ (n:Int) := Int.natCast_nonneg n
      have hwa : wrap32 (l1 - min_y) = l1 - min_y := wrap32_eq _ (by omega) (by omega)
      have hwb : wrap32 (l1 - min_y - BASE_VN) = l1 - min_y - BASE_VN :=
        wrap32_eq _ (by omega) (by omega)
      have hwc : wrap32 (l2 - min_y) = l2 - min_y := wrap32_eq _ (by omega) (by omega)
      have hwd : wrap32 (l2 - min_y + BASE_V) = l2 - min_y + BASE_V :=
        wrap32_eq _ (by omega) (by omega)
      rw [show paintXGo width height min_y l1 l2 v x (n+1) =
          paintXGo width height min_y l1 l2
          (paintColGo width x v (max 0 (wrap32 (wrap32 (l1 - min_y) - BASE_VN)))
            ((min height (wrap32 (wrap32 (l2 - min_y) + BASE_V)) -
              max 0 (wrap32 (wrap32 (l1 - min_y) - BASE_VN))).toNat)) (x + 1) n from rfl]
      rw [show paintXGoU width height min_y l1 l2 v x (n+1) =
          paintXGoU width height min_y l1 l2
          (paintColGoU width x v (max 0 (l1 - min_y - BASE_VN))
            ((min height (l2 - min_y + BASE_V) -
              max 0 (l1 - min_y - BASE_VN)).toNat)) (x + 1) n from rfl]
      rw [hwa, hwb, hwc, hwd]
      rcases le_or_lt (min height (l2 - min_y + BASE_V))
          (max 0 (l1 - min_y - BASE_VN)) with hle | hlt
      · rw [show (min height (l2 - min_y + BASE_V) -
            max 0 (l1 - min_y - BASE_VN)).toNat = 0 from by omega]
        rw [show paintColGo width x v (max 0 (l1 - min_y - BASE_VN)) 0 = v from rfl]
        rw [show paintColGoU width x v (max 0 (l1 - min_y - BASE_VN)) 0 = v from rfl]
        exact ih v (x + 1) (by omega) (by omega)
      · have htn : ((min height (l2 - min_y + BASE_V) -
            max 0 (l1 - min_y - BASE_VN)).toNat : Int) =
            min height (l2 - min_y + BASE_V) - max 0 (l1 - min_y - BASE_VN) :=
          Int.toNat_of_nonneg (by omega)
        rw [paintColGo_eq_U width x hw hw2 hx (by omega) _ v _ (by omega) (by omega)]
        exact ih _ (x + 1) (by omega) (by omega)

theorem paintXLine_eq_U (geom : GGeometry) (width height : Int) (v : List Nat)
    (line : List Int) (hw : 0 ≤ width) (hw2 : width ≤ 2^15)
    (hm1 : -COORD_LIMIT ≤ geom.min_x) (hm2 : geom.min_x ≤ COORD_LIMIT)
    (hm3 : -COORD_LIMIT ≤ geom.min_y) (hm4 : geom.min_y ≤ COORD_LIMIT)
    (hline : ∀ a ∈ line, -COORD_LIMIT ≤ a ∧ a ≤ COORD_LIMIT) :
    paintXLine geom width height v line = paintXLineU geom width height v line := by
  match line with
  | [] => rfl
  | [_] => rfl
  | [_, _] => rfl
  | l0 :: l1 :: l2 :: rest =>
      obtain ⟨h0a, h0b⟩ := hline l0 (by simp)
      obtain ⟨h1a, h1b⟩ := hline l1 (by simp)
      obtain ⟨h2a, h2b⟩ := hline l2 (by simp)
      have hm1' := hm1
      have hm2' := hm2
      unfold COORD_LIMIT at h0a h0b h1a h1b h2a h2b hm1' hm2'
      have hbh : BASE_H = 8 := rfl
      have hwa : wrap32 (l0 - geom.min_x) = l0 - geom.min_x :=
        wrap32_eq _ (by omega) (by omega)
      have hwb : wrap32 (l0 - geom.min_x - BASE_H) = l0 - geom.min_x - BASE_H :=
        wrap32_eq _ (by omega) (by omega)
      have hwc : wrap32 (l0 - geom.min_x + BASE_H) = l0 - geom.min_x + BASE_H :=
        wrap32_eq _ (by omega) (by omega)
      show some (paintXGo width height geom.min_y l1 l2 v
          (max 0 (wrap32 (wrap32 (l0 - geom.min_x) - BASE_H)))
          ((min width (wrap32 (wrap32 (l0 - geom.min_x) + BASE_H)) -
            max 0 (wrap32 (wrap32 (l0 - geom.min_x) - BASE_H))).toNat)) =
        some (paintXGoU width height geom.min_y l1 l2 v
          (max 0 (l0 - geom.min_x - BASE_H))
          ((min width (l0 - geom.min_x + BASE_H) -
            max 0 (l0 - geom.min_x - BASE_H)).toNat))
      rw [hwa, hwb, hwc]
      rcases le_or_lt (min width (l0 - geom.min_x + BASE_H))
          (max 0 (l0 - geom.min_x - BASE_H)) with hle | hlt
      · rw [show (min width (l0 - geom.min_x + BASE_H) -
            max 0 (l0 - geom.min_x - BASE_H)).toNat = 0 from by omega]
        rfl
      · have htn : ((min width (l0 - geom.min_x + BASE_H) -
            max 0 (l0 - geom.min_x - BASE_H)).toNat : Int) =
            min width (l0 - geom.min_x + BASE_H) -
              max 0 (l0 - geom.min_x - BASE_H) :=
          Int.toNat_of_nonneg (by omega)
        rw [paintXGo_eq_U width height geom.min_y l1 l2 hw hw2 hm3 hm4
          (by unfold COORD_LIMIT; omega) (by unfold COORD_LIMIT; omega)
          (by unfold COORD_LIMIT; omega) (by unfold COORD_LIMIT; omega)
          _ v _ (by omega) (by omega)]

theorem foldl_congr_mem {α β : Type} (f g : β → α → β) :
    ∀ (l : List α), (∀ b a, a ∈ l → f b a = g b a) →
      ∀ b, l.foldl f b = l.foldl g b := by
  intro l
  induction l with
  | nil => intro _ _; rfl
  | cons a t ih =>
      intro h b
      rw [List.foldl_cons, List.foldl_cons, h b a (List.mem_cons_self ..)]
      exact ih (fun b c hc => h b c (List.mem_cons_of_mem _ hc)) _

theorem paintLinesY_eq_U (geom : GGeometry) (width height : Int) (v : List Nat)
    (hw : 0 ≤ width) (hw2 : width ≤ 2^15)
    (hm1 : -COORD_LIMIT ≤ geom.min_x) (hm2 : geom.min_x ≤ COORD_LIMIT)
    (hm3 : -COORD_LIMIT ≤ geom.min_y) (hm4 : geom.min_y ≤ COORD_LIMIT)
    (hlines : ∀ l ∈ geom.y_lines.getD [], ∀ a ∈ l,
      -COORD_LIMIT ≤ a ∧ a ≤ COORD_LIMIT) :
    paintLines (paintYLine geom width height) geom.y_lines v =
      paintLines (paintYLineU geom width height) geom.y_lines v := by
  unfold paintLines
  cases hys : geom.y_lines with
  | none => rfl
  | some ls =>
      rw [hys] at hlines
      refine foldl_congr_mem _ _ ls ?_ _
      intro b line hmem
      cases b with
      | none => rfl
      | some w =>
          exact paintYLine_eq_U geom width height w line hw hw2 hm1 hm2 hm3 hm4
            (hlines line hmem)

theorem paintLinesX_eq_U (geom : GGeometry) (width height : Int) (v : List Nat)
    (hw : 0 ≤ width) (hw2 : width ≤ 2^15)
    (hm1 : -COORD_LIMIT ≤ geom.min_x) (hm2 : geom.min_x ≤ COORD_LIMIT)
    (hm3 : -COORD_LIMIT ≤ geom.min_y) (hm4 : geom.min_y ≤ COORD_LIMIT)
    (hlines : ∀ l ∈ geom.x_lines.getD [], ∀ a ∈ l,
      -COORD_LIMIT ≤ a ∧ a ≤ COORD_LIMIT) :
    paintLines (paintXLine geom width height) geom.x_lines v =
      paintLines (paintXLineU geom width height) geom.x_lines v := by
  unfold paintLines
  cases hxs : geom.x_lines with
  | none => rfl
  | some ls =>
      rw [hxs] at hlines
      refine foldl_congr_mem _ _ ls ?_ _
      intro b line hmem
      cases b with
      | none => rfl
      | some w =>
          exact paintXLine_eq_U geom width height w line hw hw2 hm1 hm2 hm3 hm4
            (hlines line hmem)


theorem fillLeftGoU_res (v : List Nat) (width y : Int) :
    ∀ (n : Nat) (x x' : Int), fillLeftGoU v width y n x = some x' →
      x' = x ∨ (-1 ≤ x' ∧ x' ≤ x) := by
  intro n
  induction n with
  | zero => intro x x' h; cases h; exact Or.inl rfl
  | succ n ih =>
      intro x x' h
      rw [fillLeftGoU] at h
      split at h
      · rename_i h0
        split at h
        · cases h
        · rename_i c hread
          split at h
          · rcases ih (x - 1) x' h with h1 | h1
            · exact Or.inr (by omega)
            · exact Or.inr (by omega)
          · cases h
            exact Or.inl rfl
      · cases h
        exact Or.inl rfl

theorem fillLeftGo_eq_U (v : List Nat) (width y : Int)
    (hw : 0 ≤ width) (hw2 : width ≤ 2^15)
    (hy1 : -40000 ≤ y) (hy2 : y ≤ 40000) (hlen : (v.length : Int) ≤ 2^31) :
    ∀ (n : Nat) (x : Int), x ≤ 40000 →
      fillLeftGo v width y n x = fillLeftGoU v width y n x := by
  have hp := mul_range y width 40000 (2^15) (by norm_num) hy1 hy2 hw hw2
  have hlit : (40000:Int) * 2^15 = 1310720000 := by norm_num
  intro n
  induction n with
  | zero => intro x _; rfl
  | succ n ih =>
      intro x hx
      rw [fillLeftGo, fillLeftGoU]
      by_cases h0 : 0 ≤ x
      · rw [if_pos h0, if_pos h0]
        rw [wrap32_eq (y * width) (by omega) (by omega)]
        rw [wrap32_eq (y * width + x) (by omega) (by omega)]
        rw [readCell_eq_U v (y * width + x) hlen (by omega) (by omega)]
        cases hread : readCellU v (y * width + x) with
        | none => rfl
        | some c =>
            dsimp only
            by_cases hc : c = UNKNOWN
            · rw [if_pos hc, if_pos hc]
              rw [wrap32_eq (x - 1) (by omega) (by omega)]
              exact ih (x - 1) (by omega)
            · rw [if_neg hc, if_neg hc]
      · rw [if_neg h0, if_neg h0]

theorem fillScanGo_eq_U (width height y : Int)
    (hw : 0 ≤ width) (hw2 : width ≤ 2^15)
    (hh : 0 ≤ height) (hh2 : height ≤ 2^15)
    (hy1 : -40000 ≤ y) (hy2 : y ≤ 40000) :
    ∀ (n : Nat) (v : List Nat) (stack : List (Int × Int)) (sa sb : Bool) (x : Int),
      (v.length : Int) ≤ 2^31 → -40000 ≤ x →
      fillScanGo width height y n v stack sa sb x =
        fillScanGoU width height y n v stack sa sb x := by
  have hp1 := mul_range y width 40000 (2^15) (by norm_num) hy1 hy2 hw hw2
  have hp2 := mul_range (y-1) width 40001 (2^15) (by norm_num) (by omega) (by omega) hw hw2
  have hp3 := mul_range (y+1) width 40001 (2^15) (by norm_num) (by omega) (by omega) hw hw2
  have hlit : (40000:Int) * 2^15 = 1310720000 := by norm_num
  have hlit2 : (40001:Int) * 2^15 = 1310752768 := by norm_num
  intro n
  induction n with
  | zero => intro v stack sa sb x _ _; rfl
  | succ n ih =>
      intro v stack sa sb x hlen hx
      rw [fillScanGo, fillScanGoU]
      by_cases hxw : x < width
      · rw [if_pos hxw, if_pos hxw]
        rw [wrap32_eq (y * width) (by omega) (by omega)]
        rw [wrap32_eq (y * width + x) (by omega) (by omega)]
        rw [readCell_eq_U v (y * width + x) hlen (by omega) (by omega)]
        cases hread : readCellU v (y * width + x) with
        | none => rfl
        | some c =>
            dsimp only
            have hidx0 : 0 ≤ y * width + x := by
              by_contra hcon
              unfold readCellU at hread
              rw [if_neg hcon] at hread
              cases hread
            by_cases hc : c = UNKNOWN
            · rw [if_pos hc, if_pos hc]
              rw [usize32_toNat (y * width + x) hidx0 (by omega)]
              have hlen1 : (((v.set (y * width + x).toNat WALKABLE)).length : Int) ≤ 2^31 := by
                rw [List.length_set]; exact hlen
              rw [wrap32_eq (y - 1) (by omega) (by omega)]
              rw [wrap32_eq ((y - 1) * width) (by omega) (by omega)]
              rw [wrap32_eq ((y - 1) * width + x) (by omega) (by omega)]
              rw [readCell_eq_U _ ((y - 1) * width + x) hlen1 (by omega) (by omega)]
              rw [wrap32_eq (y + 1) (by omega) (by omega)]
              rw [wrap32_eq ((y + 1) * width) (by omega) (by omega)]
              rw [wrap32_eq ((y + 1) * width + x) (by omega) (by omega)]
              rw [readCell_eq_U _ ((y + 1) * width + x) hlen1 (by omega) (by omega)]
              rw [wrap32_eq (height - 1) (by omega) (by omega)]
              rw [wrap32_eq (x + 1) (by omega) (by omega)]
              split
              · rfl
              · rename_i sa1 stack1 habv
                split
                · rfl
                · rename_i sb1 stack2 hblw
                  exact ih _ stack2 sa1 sb1 (x + 1) hlen1 (by omega)
            · rw [if_neg hc, if_neg hc]
      · rw [if_neg hxw, if_neg hxw]


theorem spanAbove_stack (v1 : List Nat) (width y x : Int) (sa : Bool)
    (stack : List (Int × Int)) (sa1 : Bool) (stack1 : List (Int × Int))
    (h : (if 0 < y then
            match readCellU v1 ((y - 1) * width + x) with
            | none => none
            | some cu =>
                if sa = false ∧ cu = UNKNOWN then some (true, (y - 1, x) :: stack)
                else if sa = true ∧ cu ≠ UNKNOWN then some (false, stack)
                else some (sa, stack)
          else some (sa, stack)) = some (sa1, stack1)) :
    ∀ p ∈ stack1, p ∈ stack ∨ (p.1 = y - 1 ∧ 0 < y ∧ p.2 = x) := by
  split at h
  · rename_i hy
    split at h
    · cases h
    · rename_i cu hread
      split at h
      · cases h
        intro p hp
        rcases List.mem_cons.mp hp with h1 | h1
        · exact Or.inr (by rw [h1]; exact ⟨rfl, hy, rfl⟩)
        · exact Or.inl h1
      · split at h
        · cases h
          intro p hp
          exact Or.inl hp
        · cases h
          intro p hp
          exact Or.inl hp
  · cases h
    intro p hp
    exact Or.inl hp

theorem spanBelow_stack (v1 : List Nat) (width height y x : Int) (sb : Bool)
    (stack : List (Int × Int)) (sb1 : Bool) (stack1 : List (Int × Int))
    (h : (if y < height - 1 then
            match readCellU v1 ((y + 1) * width + x) with
            | none => none
            | some cb =>
                if sb = false ∧ cb = UNKNOWN then some (true, (y + 1, x) :: stack)
                else if sb = true ∧ cb ≠ UNKNOWN then some (false, stack)
                else some (sb, stack)
          else some (sb, stack)) = some (sb1, stack1)) :
    ∀ p ∈ stack1, p ∈ stack ∨ (p.1 = y + 1 ∧ y < height - 1 ∧ p.2 = x) := by
  split at h
  · rename_i hy
    split at h
    · cases h
    · rename_i cb hread
      split at h
      · cases h
        intro p hp
        rcases List.mem_cons.mp hp with h1 | h1
        · exact Or.inr (by rw [h1]; exact ⟨rfl, hy, rfl⟩)
        · exact Or.inl h1
      · split at h
        · cases h
          intro p hp
          exact Or.inl hp
        · cases h
          intro p hp
          exact Or.inl hp
  · cases h
    intro p hp
    exact Or.inl hp

theorem fillScanGoU_stack (width height y : Int) :
    ∀ (n : Nat) (v : List Nat) (stack : List (Int × Int)) (sa sb : Bool) (x : Int)
      (v' : List Nat) (s' : List (Int × Int)),
      fillScanGoU width height y n v stack sa sb x = some (v', s') →
      ∀ p ∈ s', p ∈ stack ∨
        (((p.1 = y - 1 ∧ 0 < y) ∨ (p.1 = y + 1 ∧ y < height - 1)) ∧
          x ≤ p.2 ∧ p.2 < width) := by
  intro n
  induction n with
  | zero =>
      intro v stack sa sb x v' s' h p hp
      cases h
      exact Or.inl hp
  | succ n ih =>
      intro v stack sa sb x v' s' h p hp
      rw [fillScanGoU] at h
      dsimp only at h
      split at h
      · rename_i hxw
        split at h
        · cases h
        · rename_i c hread
          split at h
          · rename_i hc
            split at h
            · cases h
            · rename_i sa1 stack1 habv
              split at h
              · cases h
              · rename_i sb1 stack2 hblw
                rcases ih _ _ _ _ _ _ _ h p hp with hin | hnew
                · rcases spanBelow_stack _ width height y x sb stack1 sb1 stack2
                      hblw p hin with hin1 | hnew1
                  · rcases spanAbove_stack _ width y x sa stack sa1 stack1
                        habv p hin1 with hin2 | hnew2
                    · exact Or.inl hin2
                    · exact Or.inr ⟨Or.inl ⟨hnew2.1, hnew2.2.1⟩,
                        by omega, by omega⟩
                  · exact Or.inr ⟨Or.inr ⟨hnew1.1, hnew1.2.1⟩, by omega, by omega⟩
                · exact Or.inr ⟨hnew.1, by omega, hnew.2.2⟩
          · cases h
            exact Or.inl hp
      · cases h
        exact Or.inl hp

theorem fillLoop_eq_U (width height : Int)
    (hw : 0 ≤ width) (hw2 : width ≤ 2^15)
    (hh : 0 ≤ height) (hh2 : height ≤ 2^15) :
    ∀ (n : Nat) (v : List Nat) (stack : List (Int × Int)),
      (v.length : Int) ≤ 2^31 →
      (∀ p ∈ stack, -40000 ≤ p.1 ∧ p.1 ≤ 40000 ∧ -40000 ≤ p.2 ∧ p.2 ≤ 40000) →
      fillLoop width height n v stack = fillLoopU width height n v stack := by
  intro n
  induction n with
  | zero =>
      intro v stack _ _
      cases stack with
      | nil => rfl
      | cons p rest => rfl
  | succ n ih =>
      intro v stack hlen hstack
      cases stack with
      | nil => rfl
      | cons p rest =>
          obtain ⟨y, x0⟩ := p
          obtain ⟨hyl, hyr, hxl, hxr⟩ := hstack (y, x0) (List.mem_cons_self ..)
          rw [show fillLoop width height (n+1) v ((y, x0) :: rest) =
              (match fillLeft v width y x0 with
               | none => none
               | some xL =>
                   match fillScan width height y v rest false false (wrap32 (xL + 1)) with
                   | none => none
                   | some (v1, stack1) => fillLoop width height n v1 stack1) from rfl]
          rw [show fillLoopU width height (n+1) v ((y, x0) :: rest) =
              (match fillLeftU v width y x0 with
               | none => none
               | some xL =>
                   match fillScanU width height y v rest false false (xL + 1) with
                   | none => none
                   | some (v1, stack1) => fillLoopU width height n v1 stack1) from rfl]
          rw [show fillLeft v width y x0 = fillLeftU v width y x0 from
            fillLeftGo_eq_U v width y hw hw2 (by omega) (by omega) hlen _ x0 (by omega)]
          cases hfl : fillLeftU v width y x0 with
          | none => rfl
          | some xL =>
              dsimp only
              have hxLb : xL = x0 ∨ (-1 ≤ xL ∧ xL ≤ x0) :=
                fillLeftGoU_res v width y _ x0 xL hfl
              rw [wrap32_eq (xL + 1) (by omega) (by omega)]
              rw [show fillScan width height y v rest false false (xL + 1) =
                  fillScanU width height y v rest false false (xL + 1) from
                fillScanGo_eq_U width height y hw hw2 hh hh2 (by omega) (by omega)
                  _ v rest false false (xL + 1) hlen (by omega)]
              cases hfs : fillScanU width height y v rest false false (xL + 1) with
              | none => rfl
              | some r =>
                  obtain ⟨v1, stack1⟩ := r
                  dsimp only
                  refine ih v1 stack1 ?_ ?_
                  · rw [show v1.length = v.length from by
                      have := fillScanGo_length width height y _ v rest false false
                        (xL + 1) v1 stack1 hfs
                      exact this]
                    exact hlen
                  · intro q hq
                    rcases fillScanGoU_stack width height y _ v rest false false
                        (xL + 1) v1 stack1 hfs q hq with hin | hnew
                    · exact hstack q (List.mem_cons_of_mem _ hin)
                    · rcases hnew.1 with h1 | h1 <;> omega


theorem fillFromSpawn_eq_U (geometry : GGeometry) (width height : Int)
    (v : List Nat) (spawn : GSpawn)
    (hw : 0 ≤ width) (hw2 : width ≤ 2^15)
    (hh : 0 ≤ height) (hh2 : height ≤ 2^15)
    (hm1 : -COORD_LIMIT ≤ geometry.min_x) (hm2 : geometry.min_x ≤ COORD_LIMIT)
    (hm3 : -COORD_LIMIT ≤ geometry.min_y) (hm4 : geometry.min_y ≤ COORD_LIMIT)
    (hs1 : -COORD_LIMIT ≤ ratTrunc spawn.x) (hs2 : ratTrunc spawn.x ≤ COORD_LIMIT)
    (hs3 : -COORD_LIMIT ≤ ratTrunc spawn.y) (hs4 : ratTrunc spawn.y ≤ COORD_LIMIT)
    (hlen : (v.length : Int) ≤ 2^31) :
    fillFromSpawn geometry width height v spawn =
      fillFromSpawnU geometry width height v spawn := by
  unfold COORD_LIMIT at hm1 hm2 hm3 hm4 hs1 hs2 hs3 hs4
  have hx1 : -(2^15) ≤ ratTrunc spawn.x - geometry.min_x := by omega
  have hx2 : ratTrunc spawn.x - geometry.min_x ≤ 2^15 := by omega
  have hy1 : -(2^15) ≤ ratTrunc spawn.y - geometry.min_y := by omega
  have hy2 : ratTrunc spawn.y - geometry.min_y ≤ 2^15 := by omega
  have hyw := mul_range (ratTrunc spawn.y - geometry.min_y) width (2^15) (2^15)
    (by norm_num) hy1 hy2 hw hw2
  unfold fillFromSpawn fillFromSpawnU
  dsimp only
  rw [i32Cast_eq spawn.x (by unfold COORD_LIMIT; omega) (by unfold COORD_LIMIT; omega)]
  rw [i32Cast_eq spawn.y (by unfold COORD_LIMIT; omega) (by unfold COORD_LIMIT; omega)]
  rw [wrap32_eq (ratTrunc spawn.x - geometry.min_x) (by omega) (by omega)]
  rw [wrap32_eq (ratTrunc spawn.y - geometry.min_y) (by omega) (by omega)]
  rw [wrap32_eq ((ratTrunc spawn.y - geometry.min_y) * width) (by omega) (by omega)]
  rw [wrap32_eq ((ratTrunc spawn.y - geometry.min_y) * width +
      (ratTrunc spawn.x - geometry.min_x)) (by omega) (by omega)]
  rw [readCell_eq_U v _ hlen (by omega) (by omega)]
  cases hrd : readCellU v ((ratTrunc spawn.y - geometry.min_y) * width +
      (ratTrunc spawn.x - geometry.min_x)) with
  | none => rfl
  | some c =>
      dsimp only
      split
      · rfl
      · exact fillLoop_eq_U width height hw hw2 hh hh2 (2 * v.length + 2) v
          [(ratTrunc spawn.y - geometry.min_y, ratTrunc spawn.x - geometry.min_x)]
          hlen (by
            intro p hp
            rcases List.mem_singleton.mp hp with h1
            rw [h1]
            refine ⟨by omega, by omega, by omega, by omega⟩)

theorem fillFold_eq_U (geometry : GGeometry) (width height : Int)
    (hw : 0 ≤ width) (hw2 : width ≤ 2^15)
    (hh : 0 ≤ height) (hh2 : height ≤ 2^15)
    (hm1 : -COORD_LIMIT ≤ geometry.min_x) (hm2 : geometry.min_x ≤ COORD_LIMIT)
    (hm3 : -COORD_LIMIT ≤ geometry.min_y) (hm4 : geometry.min_y ≤ COORD_LIMIT) :
    ∀ (l : List GSpawn),
      (∀ s ∈ l, -COORD_LIMIT ≤ ratTrunc s.x ∧ ratTrunc s.x ≤ COORD_LIMIT ∧
        -COORD_LIMIT ≤ ratTrunc s.y ∧ ratTrunc s.y ≤ COORD_LIMIT) →
      ∀ (v : List Nat), (v.length : Int) ≤ 2^31 →
        l.foldl (fillStep geometry width height) (some v) =
          l.foldl (fillStepU geometry width height) (some v) := by
  intro l
  induction l with
  | nil => intro _ v _; rfl
  | cons s t ih =>
      intro hsp v hlen
      obtain ⟨hs1, hs2, hs3, hs4⟩ := hsp s (List.mem_cons_self ..)
      rw [List.foldl_cons, List.foldl_cons]
      rw [show fillStep geometry width height (some v) s =
          fillFromSpawn geometry width height v s from rfl]
      rw [show fillStepU geometry width height (some v) s =
          fillFromSpawnU geometry width height v s from rfl]
      rw [fillFromSpawn_eq_U geometry width height v s hw hw2 hh hh2
        hm1 hm2 hm3 hm4 hs1 hs2 hs3 hs4 hlen]
      cases hfs : fillFromSpawnU geometry width height v s with
      | none =>
          rw [foldl_none _ (fun _ => rfl) t, foldl_none _ (fun _ => rfl) t]
      | some v1 =>
          refine ih (fun q hq => hsp q (List.mem_cons_of_mem _ hq)) v1 ?_
          rw [fillFromSpawn_length geometry width height v s v1 hfs]
          exact hlen

theorem prepare_walkable_vec_eq_U (map : GMap) (geometry : GGeometry)
    (width height : Int)
    (hw : 0 ≤ width) (hw2 : width ≤ 2^15)
    (hh : 0 ≤ height) (hh2 : height ≤ 2^15)
    (hm1 : -COORD_LIMIT ≤ geometry.min_x) (hm2 : geometry.min_x ≤ COORD_LIMIT)
    (hm3 : -COORD_LIMIT ≤ geometry.min_y) (hm4 : geometry.min_y ≤ COORD_LIMIT)
    (hyl : ∀ l ∈ geometry.y_lines.getD [], ∀ a ∈ l,
      -COORD_LIMIT ≤ a ∧ a ≤ COORD_LIMIT)
    (hxl : ∀ l ∈ geometry.x_lines.getD [], ∀ a ∈ l,
      -COORD_LIMIT ≤ a ∧ a ≤ COORD_LIMIT)
    (hsp : ∀ s ∈ map.spawns, -COORD_LIMIT ≤ ratTrunc s.x ∧
      ratTrunc s.x ≤ COORD_LIMIT ∧
      -COORD_LIMIT ≤ ratTrunc s.y ∧ ratTrunc s.y ≤ COORD_LIMIT) :
    prepare_walkable_vec map geometry width height =
      prepare_walkable_vecU map geometry width height := by
  have hwh := mul_range width height (2^15) (2^15) (by norm_num) (by omega) hw2 hh hh2
  unfold prepare_walkable_vec prepare_walkable_vecU
  dsimp only
  rw [wrap32_eq (width * height) (by omega) (by omega)]
  rw [usize32_toNat (width * height) (by positivity) (by omega)]
  rw [paintLinesY_eq_U geometry width height _ hw hw2 hm1 hm2 hm3 hm4 hyl]
  cases h1 : paintLines (paintYLineU geometry width height) geometry.y_lines
      (List.replicate (width * height).toNat UNKNOWN) with
  | none => rfl
  | some w1 =>
      have hl1 : w1.length = (width * height).toNat := by
        rw [paintLines_length (paintYLineU geometry width height)
          (fun v line v' hp => paintYLine_length geometry width height v line v' hp)
          geometry.y_lines _ w1 h1]
        exact List.length_replicate ..
      dsimp only
      rw [paintLinesX_eq_U geometry width height w1 hw hw2 hm1 hm2 hm3 hm4 hxl]
      cases h2 : paintLines (paintXLineU geometry width height) geometry.x_lines w1 with
      | none => rfl
      | some w2 =>
          have hl2 : w2.length = (width * height).toNat := by
            rw [paintLines_length (paintXLineU geometry width height)
              (fun v line v' hp => paintXLine_length geometry width height v line v' hp)
              geometry.x_lines _ w2 h2]
            exact hl1
          dsimp only
          refine fillFold_eq_U geometry width height hw hw2 hh hh2
            hm1 hm2 hm3 hm4 map.spawns hsp w2 ?_
          rw [hl2]
          omega


/-! ### The six coordinate-range claims, in the wrapping model -/

/-- C4 (amended): for a map with a grid whose origin and the query point
stay within `COORD_LIMIT` of zero, `can_walk_path m x y x y` agrees with
`is_walkable m x y` whenever both translated coordinates are nonnegative
(`min_x ≤ x` and `min_y ≤ y`).  The original unconditional claim fails
because `can_walk_path` omits the negative-coordinate check that
`is_walkable` performs (see `c4_counterexample`). -/
theorem c4_selfPathEqIsWalkable (grids : List (String × Grid)) (name : String)
    (x y : Int) (grid : Grid) (hg : alookup grids name = some grid)
    (hx1l : -COORD_LIMIT ≤ x) (hx1r : x ≤ COORD_LIMIT)
    (hy1l : -COORD_LIMIT ≤ y) (hy1r : y ≤ COORD_LIMIT)
    (hmxl : -COORD_LIMIT ≤ grid.min_x) (hmxr : grid.min_x ≤ COORD_LIMIT)
    (hmyl : -COORD_LIMIT ≤ grid.min_y) (hmyr : grid.min_y ≤ COORD_LIMIT)
    (hx : grid.min_x ≤ x) (hy : grid.min_y ≤ y) :
    can_walk_path grids name x y x y = is_walkable grids name x y := by
  have hCL : COORD_LIMIT = 16384 := rfl
  rw [can_walk_path_eq_U grids name x y x y grid hg hx1l hx1r hy1l hy1r
    hx1l hx1r hy1l hy1r hmxl hmxr hmyl hmyr]
  simp only [can_walk_pathU, is_walkable, hg]
  rw [wrap32_eq (x - grid.min_x) (by omega) (by omega),
      wrap32_eq (y - grid.min_y) (by omega) (by omega)]
  rw [if_neg (show ¬(x - grid.min_x < 0 ∨ y - grid.min_y < 0) by omega)]
  simp only [sub_self]
  norm_num [gridProbe, cwpLoopXU]

/-- C4 witness: the amended equivalence applied to the fully-walkable
prepared 6×6 map at the in-range point (3,3). -/
theorem c4_selfPathEqIsWalkable_witness :
    can_walk_path stAll.grids "m" 3 3 3 3 = is_walkable stAll.grids "m" 3 3 :=
  c4_selfPathEqIsWalkable stAll.grids "m" 3 3
    ((alookup stAll.grids "m").getD default) (by decide) (by decide) (by decide)
    (by decide) (by decide) (by decide) (by decide) (by decide) (by decide)
    (by decide) (by decide)

/-- C5 (amended): for a map with a grid, when both endpoints and the grid
origin stay within `COORD_LIMIT` of zero, `can_walk_path(m, a, b)` equals
`can_walk_path(m, b, a)`: both runs test exactly the supercover cells of
the segment, a direction-independent set.  Unconditionally the claim is
false in the shipped build's wrapping arithmetic: when `x2 - x1` wraps to
`i32::MIN` the forward run's iteration count collapses to zero while the
reverse run probes the translated far endpoint (see
`c5_counterexample`). -/
theorem c5_pathSymmetric (grids : List (String × Grid)) (name : String)
    (x1 y1 x2 y2 : Int) (grid : Grid) (hg : alookup grids name = some grid)
    (hx1l : -COORD_LIMIT ≤ x1) (hx1r : x1 ≤ COORD_LIMIT)
    (hy1l : -COORD_LIMIT ≤ y1) (hy1r : y1 ≤ COORD_LIMIT)
    (hx2l : -COORD_LIMIT ≤ x2) (hx2r : x2 ≤ COORD_LIMIT)
    (hy2l : -COORD_LIMIT ≤ y2) (hy2r : y2 ≤ COORD_LIMIT)
    (hmxl : -COORD_LIMIT ≤ grid.min_x) (hmxr : grid.min_x ≤ COORD_LIMIT)
    (hmyl : -COORD_LIMIT ≤ grid.min_y) (hmyr : grid.min_y ≤ COORD_LIMIT) :
    can_walk_path grids name x1 y1 x2 y2 =
      can_walk_path grids name x2 y2 x1 y1 := by
  rw [can_walk_path_eq_U grids name x1 y1 x2 y2 grid hg hx1l hx1r hy1l hy1r
    hx2l hx2r hy2l hy2r hmxl hmxr hmyl hmyr]
  rw [can_walk_path_eq_U grids name x2 y2 x1 y1 grid hg hx2l hx2r hy2l hy2r
    hx1l hx1r hy1l hy1r hmxl hmxr hmyl hmyr]
  have h1 := canWalkPath_iff grids name x1 y1 x2 y2 grid hg
  have h2 := canWalkPath_iff grids name x2 y2 x1 y1 grid hg
  have hsets : (∀ X Y : Int, supercover x1 y1 x2 y2 X Y →
      gridProbe grid (X - grid.min_x) (Y - grid.min_y) = true) ↔
      (∀ X Y : Int, supercover x2 y2 x1 y1 X Y →
        gridProbe grid (X - grid.min_x) (Y - grid.min_y) = true) := by
    constructor <;> intro h X Y hsc
    · exact h X Y ((supercover_swap x2 y2 x1 y1 X Y).mp hsc)
    · exact h X Y ((supercover_swap x1 y1 x2 y2 X Y).mp hsc)
  have hiff := (h1.trans hsets).trans h2.symm
  cases hA : can_walk_pathU grids name x1 y1 x2 y2 with
  | true => exact (hiff.mp hA).symm
  | false =>
      cases hB : can_walk_pathU grids name x2 y2 x1 y1 with
      | true =>
          have := hiff.mpr hB
          rw [hA] at this
          cases this
      | false => rfl

/-- C5 witness: symmetry of the in-range path query between (1,1) and
(4,3) on the prepared all-walkable 6×6 map. -/
theorem c5_pathSymmetric_witness :
    can_walk_path stAll.grids "m" 1 1 4 3 =
      can_walk_path stAll.grids "m" 4 3 1 1 :=
  c5_pathSymmetric stAll.grids "m" 1 1 4 3
    ((alookup stAll.grids "m").getD default) (by decide) (by decide) (by decide)
    (by decide) (by decide) (by decide) (by decide) (by decide) (by decide)
    (by decide) (by decide) (by decide) (by decide)

/-- C5 counterexample: on the prepared all-walkable 6×6 map the forward
query from (3,3) to (-2147483645,3) returns true — the wrapped
`x2 - x1` is `i32::MIN`, whose absolute value wraps back to `i32::MIN`,
so the walk loop runs zero iterations and only the start cell is probed —
while the reverse query probes the far endpoint's wrapped cell and
returns false. -/
theorem c5_counterexample :
    prepare wAll oracle0 = some stAll ∧
    can_walk_path stAll.grids "m" 3 3 (-2147483645) 3 = true ∧
    can_walk_path stAll.grids "m" (-2147483645) 3 3 3 = false := by
  refine ⟨by decide, by decide, by decide⟩

/-- C3 (amended): with both endpoints and the grid origin within
`COORD_LIMIT` of zero, whenever `can_walk_path(m, a, b)` is true every
integer cell on the Bresenham supercover of the segment passes the grid's
flattened probe, and is reported walkable by `is_walkable` whenever its
translated coordinates are nonnegative.  The original unconditional claim
fails because `can_walk_path` probes only the flattened index and omits
`is_walkable`'s negative-coordinate check, so a supercover cell left of
the bounding box can alias an in-range cell and the path succeeds while
`is_walkable` is false there (see `c3_counterexample`). -/
theorem c3_supercoverWalkable (grids : List (String × Grid)) (name : String)
    (x1 y1 x2 y2 X Y : Int) (grid : Grid) (hg : alookup grids name = some grid)
    (hx1l : -COORD_LIMIT ≤ x1) (hx1r : x1 ≤ COORD_LIMIT)
    (hy1l : -COORD_LIMIT ≤ y1) (hy1r : y1 ≤ COORD_LIMIT)
    (hx2l : -COORD_LIMIT ≤ x2) (hx2r : x2 ≤ COORD_LIMIT)
    (hy2l : -COORD_LIMIT ≤ y2) (hy2r : y2 ≤ COORD_LIMIT)
    (hmxl : -COORD_LIMIT ≤ grid.min_x) (hmxr : grid.min_x ≤ COORD_LIMIT)
    (hmyl : -COORD_LIMIT ≤ grid.min_y) (hmyr : grid.min_y ≤ COORD_LIMIT)
    (h : can_walk_path grids name x1 y1 x2 y2 = true)
    (hsc : supercover x1 y1 x2 y2 X Y) :
    gridProbe grid (X - grid.min_x) (Y - grid.min_y) = true ∧
      (grid.min_x ≤ X → grid.min_y ≤ Y → is_walkable grids name X Y = true) := by
  have hCL : COORD_LIMIT = 16384 := rfl
  rw [can_walk_path_eq_U grids name x1 y1 x2 y2 grid hg hx1l hx1r hy1l hy1r
    hx2l hx2r hy2l hy2r hmxl hmxr hmyl hmyr] at h
  have hp := (canWalkPath_iff grids name x1 y1 x2 y2 grid hg).mp h X Y hsc
  refine ⟨hp, ?_⟩
  intro hX hY
  obtain ⟨hb1, hb2, hb3, hb4, -, -⟩ := hsc
  have hXb : -COORD_LIMIT ≤ X ∧ X ≤ COORD_LIMIT := by
    constructor <;> omega
  have hYb : -COORD_LIMIT ≤ Y ∧ Y ≤ COORD_LIMIT := by
    constructor <;> omega
  simp only [is_walkable, hg]
  rw [wrap32_eq (X - grid.min_x) (by omega) (by omega),
      wrap32_eq (Y - grid.min_y) (by omega) (by omega)]
  rw [if_neg (show ¬(X - grid.min_x < 0 ∨ Y - grid.min_y < 0) by omega)]
  exact hp

/-- C3 witness: on the prepared all-walkable 6×6 map a diagonal-ish path
from (1,1) to (4,3) succeeds, and the amended theorem yields the probe
and walkability of the interior supercover cell (2,2). -/
theorem c3_supercoverWalkable_witness :
    gridProbe ((alookup stAll.grids "m").getD default)
        (2 - ((alookup stAll.grids "m").getD default).min_x)
        (2 - ((alookup stAll.grids "m").getD default).min_y) = true ∧
      (((alookup stAll.grids "m").getD default).min_x ≤ 2 →
        ((alookup stAll.grids "m").getD default).min_y ≤ 2 →
        is_walkable stAll.grids "m" 2 2 = true) :=
  c3_supercoverWalkable stAll.grids "m" 1 1 4 3 2 2
    ((alookup stAll.grids "m").getD default) (by decide) (by decide) (by decide)
    (by decide) (by decide) (by decide) (by decide) (by decide) (by decide)
    (by decide) (by decide) (by decide) (by decide) (by decide) (by decide)

/-- C1 (amended): after `prepare` completes on a world whose geometry and
spawns are in coordinate range, every spawn whose truncated world
coordinates lie inside the map's bounding box AND outside every wall
segment's padded envelope is walkable.  The unconditional claim is
false: a spawn inside a wall envelope is painted `NOT_WALKABLE` before
the flood fill runs, and the span fill never overwrites its seed cell in
that case (see `c1_counterexample`). -/
theorem c1_spawnCellWalkable (g : GData) (oracle : TriOracle) (name : String)
    (mp : GMap) (geom : GGeometry) (hm : (name, mp) ∈ g.maps)
    (hnd : (g.maps.map Prod.fst).Nodup) (hig : mp.ignore = none)
    (hgeo : alookup g.geometry name = some geom)
    (hgr : GeomInRange geom) (hsr : SpawnsInRange mp)
    (spawn : GSpawn) (hs : spawn ∈ mp.spawns)
    (hbx : geom.min_x ≤ ratTrunc spawn.x) (hbx2 : ratTrunc spawn.x < geom.max_x)
    (hby : geom.min_y ≤ ratTrunc spawn.y) (hby2 : ratTrunc spawn.y < geom.max_y)
    (henv : ¬ inWallEnvelope geom (ratTrunc spawn.x) (ratTrunc spawn.y))
    (st : PState) (hp : prepare g oracle = some st) :
    is_walkable st.grids name (ratTrunc spawn.x) (ratTrunc spawn.y) = true := by
  have hCL : COORD_LIMIT = 16384 := rfl
  obtain ⟨hg1, hg2, hg3, hg4, hg5, hg6, hg7, hg8, hg9, hg10, hylr, hxlr⟩ := hgr
  have hmp : alookup g.maps name = some mp := alookup_of_mem_nodup _ _ _ hm hnd
  obtain ⟨st1, st2, hpm, hlook⟩ := prepare_found g oracle name mp hig g.maps
    default hm hnd st hp
  obtain ⟨walkable, hw, hgrid⟩ := prepare_map_gridContent g oracle st1 name mp
    geom hmp hgeo st2 hpm
  have hW : wrap32 (geom.max_x - geom.min_x) = geom.max_x - geom.min_x :=
    wrap32_eq _ (by omega) (by omega)
  have hH : wrap32 (geom.max_y - geom.min_y) = geom.max_y - geom.min_y :=
    wrap32_eq _ (by omega) (by omega)
  rw [hW, hH] at hw
  rw [hW] at hgrid
  rw [prepare_walkable_vec_eq_U mp geom _ _ (by omega) (by omega) (by omega)
    (by omega) hg1 hg2 hg5 hg6 hylr hxlr hsr] at hw
  have hnc := (not_congr (envelope_iff_covers geom _ _ hbx hbx2 hby hby2)).mp henv
  have hcell := prepare_walkable_vec_seed mp geom _ _ walkable spawn hw hs
    (by omega) (by omega) (by omega) (by omega) hnc
  unfold is_walkable
  rw [hlook, hgrid]
  dsimp only
  rw [wrap32_eq (ratTrunc spawn.x - geom.min_x) (by omega) (by omega),
      wrap32_eq (ratTrunc spawn.y - geom.min_y) (by omega) (by omega)]
  rw [if_neg (show ¬(ratTrunc spawn.x - geom.min_x < 0 ∨
    ratTrunc spawn.y - geom.min_y < 0) by omega)]
  have hprod := mul_range (ratTrunc spawn.y - geom.min_y)
    (geom.max_x - geom.min_x) (2^15) (2^15) (by norm_num) (by omega) (by omega)
    (by omega) (by omega)
  have hprd0 : 0 ≤ (ratTrunc spawn.y - geom.min_y) * (geom.max_x - geom.min_x) :=
    mul_nonneg (by omega) (by omega)
  rw [wrap32_eq ((ratTrunc spawn.y - geom.min_y) * (geom.max_x - geom.min_x))
    (by omega) (by omega)]
  rw [wrap32_eq ((ratTrunc spawn.y - geom.min_y) * (geom.max_x - geom.min_x) +
      (ratTrunc spawn.x - geom.min_x)) (by omega) (by omega)]
  unfold flatGet
  rw [usize32_toNat _ (by omega) (by omega)]
  have hbit := gridBit_of_cell walkable
    ⟨geom.max_x - geom.min_x, geom.min_x, geom.min_y,
      walkable.map (fun state => decide (state = WALKABLE))⟩ rfl
    _ _ hcell
  dsimp only at hbit ⊢
  rw [hbit]
  rfl

/-- C1 witness: on the prepared wall-free 6×6 world, the spawn (3,3) is
inside the box, outside every (absent) wall envelope, and walkable. -/
theorem c1_spawnCellWalkable_witness :
    is_walkable stAll.grids "m" (ratTrunc (3 : ℚ)) (ratTrunc (3 : ℚ)) = true :=
  c1_spawnCellWalkable wAll oracle0 "m"
    ⟨[], none, "m", some [], [⟨3, 3⟩]⟩ ⟨0, 6, 0, 6, none, none⟩
    (by decide) (by decide) rfl (by decide) (by decide) (by decide)
    ⟨3, 3⟩ (by decide) (by decide) (by decide) (by decide) (by decide)
    (by decide) stAll (by decide)

/-- C6 (amended): for every prepared (non-ignored) map whose geometry and
spawns are in coordinate range, and every world coordinate inside the
padded, box-clamped envelope of any of its wall segments
(`inWallEnvelope`), `is_walkable` returns false: the rasterizer paints
the whole envelope `NOT_WALKABLE` and the flood fill never overwrites a
`NOT_WALKABLE` cell.  Unconditionally the claim is false in the shipped
build's wrapping arithmetic: a wall whose translated start column wraps
paints nothing, and a saturating spawn cast can flood the envelope (see
`c6_counterexample`). -/
theorem c6_wallEnvelopeNotWalkable (g : GData) (oracle : TriOracle) (name : String)
    (mp : GMap) (geom : GGeometry) (hm : (name, mp) ∈ g.maps)
    (hnd : (g.maps.map Prod.fst).Nodup) (hig : mp.ignore = none)
    (hgeo : alookup g.geometry name = some geom)
    (hgr : GeomInRange geom) (hsr : SpawnsInRange mp)
    (X Y : Int) (henv : inWallEnvelope geom X Y)
    (st : PState) (hp : prepare g oracle = some st) :
    is_walkable st.grids name X Y = false := by
  have hCL : COORD_LIMIT = 16384 := rfl
  obtain ⟨hg1, hg2, hg3, hg4, hg5, hg6, hg7, hg8, hg9, hg10, hylr, hxlr⟩ := hgr
  have hmp : alookup g.maps name = some mp := alookup_of_mem_nodup _ _ _ hm hnd
  obtain ⟨hbx, hbx2, hby, hby2⟩ := henv.1
  obtain ⟨st1, st2, hpm, hlook⟩ := prepare_found g oracle name mp hig g.maps
    default hm hnd st hp
  obtain ⟨walkable, hw, hgrid⟩ := prepare_map_gridContent g oracle st1 name mp
    geom hmp hgeo st2 hpm
  have hW : wrap32 (geom.max_x - geom.min_x) = geom.max_x - geom.min_x :=
    wrap32_eq _ (by omega) (by omega)
  have hH : wrap32 (geom.max_y - geom.min_y) = geom.max_y - geom.min_y :=
    wrap32_eq _ (by omega) (by omega)
  rw [hW, hH] at hw
  rw [hW] at hgrid
  rw [prepare_walkable_vec_eq_U mp geom _ _ (by omega) (by omega) (by omega)
    (by omega) hg1 hg2 hg5 hg6 hylr hxlr hsr] at hw
  have hc := (envelope_iff_covers geom X Y hbx hbx2 hby hby2).mp henv
  have hcell := prepare_walkable_vec_wall mp geom _ _ walkable
    (X - geom.min_x) (Y - geom.min_y) hw (by omega) (by omega) (by omega)
    (by omega) hc
  unfold is_walkable
  rw [hlook, hgrid]
  dsimp only
  rw [wrap32_eq (X - geom.min_x) (by omega) (by omega),
      wrap32_eq (Y - geom.min_y) (by omega) (by omega)]
  rw [if_neg (show ¬(X - geom.min_x < 0 ∨ Y - geom.min_y < 0) by omega)]
  have hprod := mul_range (Y - geom.min_y) (geom.max_x - geom.min_x)
    (2^15) (2^15) (by norm_num) (by omega) (by omega) (by omega) (by omega)
  have hprd0 : 0 ≤ (Y - geom.min_y) * (geom.max_x - geom.min_x) :=
    mul_nonneg (by omega) (by omega)
  rw [wrap32_eq ((Y - geom.min_y) * (geom.max_x - geom.min_x))
    (by omega) (by omega)]
  rw [wrap32_eq ((Y - geom.min_y) * (geom.max_x - geom.min_x) +
      (X - geom.min_x)) (by omega) (by omega)]
  unfold flatGet
  rw [usize32_toNat _ (by omega) (by omega)]
  have hbit := gridBit_of_cell walkable
    ⟨geom.max_x - geom.min_x, geom.min_x, geom.min_y,
      walkable.map (fun state => decide (state = WALKABLE))⟩ rfl
    _ _ hcell
  dsimp only at hbit ⊢
  rw [hbit]
  rfl

/-- C6 witness: in the prepared `wSpawnWall` world, the coordinate (4,5)
lies inside the wall's padded envelope and is reported not walkable. -/
theorem c6_wallEnvelopeNotWalkable_witness :
    is_walkable stSpawnWall.grids "m" 4 5 = false :=
  c6_wallEnvelopeNotWalkable wSpawnWall oracle0 "m"
    ⟨[], none, "m", some [], [⟨2, 4⟩]⟩ ⟨0, 8, 0, 8, none, some [[4, 0, 8]]⟩
    (by decide) (by decide) rfl (by decide) (by decide) (by decide) 4 5
    (by decide) stSpawnWall (by decide)

/-- C6 counterexample: in the `wWrapWall` world the wall
`[3, -2147483558, 2147483642]` covers the whole 8×8 box in world
coordinates, yet its translated start column wraps past the grid and
nothing is painted; the spawn's `f32 as i32` cast saturates and the flood
fill reaches the envelope cell (2147483640, 2), which preparation leaves
walkable — refuting the unconditional claim. -/
theorem c6_counterexample :
    prepare wWrapWall oracle0 = some stWrapWall ∧
    inWallEnvelope (⟨2147483638, 2147483646, 0, 8, none,
      some [[3, -2147483558, 2147483642]]⟩ : GGeometry) 2147483640 2 ∧
    is_walkable stWrapWall.grids "m" 2147483640 2 = true := by
  refine ⟨by decide, by decide, by decide⟩

/-- C7 (amended): on an in-range geometry with in-range spawns, building
a map's grid fails (with the index-out-of-range panic of the seed read,
so nothing is committed for that map) exactly when a spawn's flattened
cell index `(trunc(s.y)-min_y)*width + (trunc(s.x)-min_x)` falls outside
`[0, width*height)`.  A spawn outside the bounding box whose flattened
index is still in range does NOT make the builder fail (see
`c7_counterexample`), so the original claim's premise (outside the box)
is the wrong trigger. -/
theorem c7_flattenedIndexOutOfRangeFails (g : GData) (oracle : TriOracle)
    (name : String) (mp : GMap) (geom : GGeometry)
    (hmp : alookup g.maps name = some mp)
    (hgeo : alookup g.geometry name = some geom)
    (hgr : GeomInRange geom) (hsr : SpawnsInRange mp)
    (spawn : GSpawn) (hs : spawn ∈ mp.spawns)
    (hidx :
      (ratTrunc spawn.y - geom.min_y) * (geom.max_x - geom.min_x) +
        (ratTrunc spawn.x - geom.min_x) < 0 ∨
      (geom.max_x - geom.min_x) * (geom.max_y - geom.min_y) ≤
        (ratTrunc spawn.y - geom.min_y) * (geom.max_x - geom.min_x) +
        (ratTrunc spawn.x - geom.min_x)) :
    ∀ st, prepare_map g oracle st name = none := by
  have hCL : COORD_LIMIT = 16384 := rfl
  obtain ⟨hg1, hg2, hg3, hg4, hg5, hg6, hg7, hg8, hg9, hg10, hylr, hxlr⟩ := hgr
  intro st
  unfold prepare_map
  rw [hmp]
  dsimp only
  rw [hgeo]
  dsimp only
  rw [wrap32_eq (geom.max_x - geom.min_x) (by omega) (by omega),
      wrap32_eq (geom.max_y - geom.min_y) (by omega) (by omega)]
  rw [prepare_walkable_vec_eq_U mp geom _ _ (by omega) (by omega) (by omega)
    (by omega) hg1 hg2 hg5 hg6 hylr hxlr hsr]
  rw [prepare_walkable_vec_badSpawn mp geom _ _ spawn hs hidx]

/-- C7 witness: the map whose spawn (20,20) has flattened index 180 on an
8×8 grid fails to build. -/
theorem c7_flattenedIndexOutOfRangeFails_witness :
    prepare_map wOutRange oracle0 default "m" = none :=
  c7_flattenedIndexOutOfRangeFails wOutRange oracle0 "m"
    ⟨[], none, "m", some [], [⟨20, 20⟩]⟩ ⟨0, 8, 0, 8, none, none⟩
    (by decide) (by decide) (by decide) (by decide) ⟨20, 20⟩ (by decide)
    (Or.inr (by decide)) default

end ALP
